import Mathlib

/-!
# Colliding blocks: the event-driven collision kernel

A shallow embedding of `src/physics/collidingBlocks.js` (`simulateCollisions`, the batch
simulator) and `src/physics/realtimeStepper.js` (`stepRealtime`, the frame-budgeted stepper).

The source is read twice.

* Over exact rationals (`simulateCollisions`, `stepRealtime`, ...): every finite JavaScript
  number is read as the rational it denotes and arithmetic is exact (no rounding).  The
  value `Infinity`, which the source uses for "no event", is the constructor `Time.inf`.
  Counters (`collisions`, `iter`, `maxCollisions`) are natural numbers.  This reading carries
  the statements that are made over exact arithmetic and the statements about a single
  pass, which hold operation by operation.
* Over IEEE 754 binary64 (`simulateCollisionsF`, `stepRealtimeF`, ...; type `F64`): every
  number, the counters included, is a binary64 value, `Infinity`, `-Infinity` or `NaN`, and
  every arithmetic operation rounds to the nearest value, ties to even.  This reading
  carries the statements about whole runs, where rounding decides what the program returns.

Both loops are written with an explicit fuel argument on top of the loop guard of the
source.  Over exact rationals the theorems `simLoop_fuel_irrelevant` and
`rtLoop_fuel_irrelevant` show that the fuel the entry points supply is never the reason a
loop stops; over binary64 the batch loop returns `none` when the fuel runs out before the
guard fails.  Next to the loop variables each loop returns a ghost log of the iterations it
executed, which the source does not compute and which never influences the loop variables.
-/

namespace CollidingBlocks

/-! ## Shared vocabulary -/

/-- The tolerance `const EPS = 1e-12` of both source files. -/
def EPS : ℚ := 1 / 1000000000000

/-- A predicted event time: a finite number or JavaScript's `Infinity`. -/
inductive Time where
  | fin (d : ℚ)
  | inf
  deriving DecidableEq

/-- `Math.min` on two predicted times. -/
def mathMin : Time → Time → Time
  | .fin a, .fin b => .fin (min a b)
  | .fin a, .inf => .fin a
  | .inf, .fin b => .fin b
  | .inf, .inf => .inf

/-- The two kinds of event a loop iteration can resolve. -/
inductive Event where
  | wall
  | block
  deriving DecidableEq

/-- The physical constants read by the kernel (`size2` is accepted but never read). -/
structure Params where
  m1 : ℚ
  m2 : ℚ
  size1 : ℚ
  deriving DecidableEq

/-- Velocity of block 1 after a block collision (`collidingBlocks.js` line 60,
`realtimeStepper.js` line 48). -/
def blockV1 (m1 m2 u1 u2 : ℚ) : ℚ :=
  ((m1 - m2) / (m1 + m2)) * u1 + ((2 * m2) / (m1 + m2)) * u2

/-- Velocity of block 2 after a block collision (`collidingBlocks.js` line 61,
`realtimeStepper.js` line 49). -/
def blockV2 (m1 m2 u1 u2 : ℚ) : ℚ :=
  ((2 * m1) / (m1 + m2)) * u1 + ((m2 - m1) / (m1 + m2)) * u2

/-! ## The batch simulator, `simulateCollisions` -/

/-- The loop variables of `simulateCollisions`, which are also the fields it returns. -/
structure SimState where
  collisions : Nat
  t : ℚ
  x1 : ℚ
  x2 : ℚ
  v1 : ℚ
  v2 : ℚ
  deriving DecidableEq

/-- The closure `timeToWall` (lines 17-20). -/
def timeToWall (x1 v1 : ℚ) : Time :=
  if v1 ≥ 0 then .inf else .fin ((0 - x1) / v1)

/-- The closure `timeToBlock` (lines 22-36). -/
def timeToBlock (size1 x1 x2 v1 v2 : ℚ) : Time :=
  let gap := x2 - (x1 + size1)
  let relV := v1 - v2
  if gap ≤ EPS then
    (if relV > EPS then .fin 0 else .inf)
  else if relV ≤ EPS then .inf
  else .fin (gap / relV)

/-- Ghost record of one resolved event of the batch loop. -/
structure SimEvent where
  pre : SimState
  kind : Event
  dt : ℚ
  post : SimState
  deriving DecidableEq

/-- Lines 39-64: one pass through the loop body up to (not including) the stopping test of
line 67.  `none` is the `break` of line 43. -/
def simBody (p : Params) (s : SimState) : Option SimEvent :=
  let dtWall := timeToWall s.x1 s.v1
  let dtBlock := timeToBlock p.size1 s.x1 s.x2 s.v1 s.v2
  match mathMin dtWall dtBlock with
  | .inf => none
  | .fin dt =>
    -- the advance `x1 += v1 * dt` of line 46 is overwritten by the snap of either branch
    let x2 := s.x2 + s.v2 * dt
    let t := s.t + dt
    if Time.fin dt = dtWall then
      some ⟨s, .wall, dt, ⟨s.collisions + 1, t, 0, x2, -s.v1, s.v2⟩⟩
    else
      some ⟨s, .block, dt,
        ⟨s.collisions + 1, t, x2 - p.size1, x2,
          blockV1 p.m1 p.m2 s.v1 s.v2, blockV2 p.m1 p.m2 s.v1 s.v2⟩⟩

/-- The stopping condition of line 67. -/
def separated (s : SimState) : Prop :=
  s.v1 ≥ 0 ∧ s.v2 ≥ 0 ∧ s.v2 ≥ s.v1

instance (s : SimState) : Decidable (separated s) :=
  inferInstanceAs (Decidable (s.v1 ≥ 0 ∧ s.v2 ≥ 0 ∧ s.v2 ≥ s.v1))

/-- The `while` loop of lines 38-68, with the ghost log of the events it resolved. -/
def simLoop (p : Params) (maxCollisions : Nat) (maxTime : ℚ) :
    Nat → SimState → SimState × List SimEvent
  | 0, s => (s, [])
  | fuel + 1, s =>
    if s.collisions < maxCollisions ∧ s.t < maxTime then
      match simBody p s with
      | none => (s, [])
      | some e =>
        if separated e.post then (e.post, [e])
        else
          let r := simLoop p maxCollisions maxTime fuel e.post
          (r.1, e :: r.2)
    else (s, [])

/-- The argument record of `simulateCollisions` with the defaults of lines 2-11. -/
structure SimArgs where
  m1 : ℚ := 1
  m2 : ℚ := 100
  x1 : ℚ := 2
  x2 : ℚ := 5
  v1 : ℚ := 0
  v2 : ℚ := -1
  size1 : ℚ := 1
  size2 : ℚ := 2
  maxCollisions : Nat := 5000000
  maxTime : ℚ := 1000000000
  deriving DecidableEq

/-- The parameters an argument record carries. -/
def SimArgs.params (a : SimArgs) : Params := ⟨a.m1, a.m2, a.size1⟩

/-- The loop variables on entry (lines 13-14: `t = 0`, `collisions = 0`). -/
def SimArgs.init (a : SimArgs) : SimState := ⟨0, 0, a.x1, a.x2, a.v1, a.v2⟩

/-- The run of `simulateCollisions`: final loop variables and ghost event log.  The loop
is given `maxCollisions` units of fuel: every pass that does not leave the loop increments
`collisions`, which starts at 0 and is guarded by `collisions < maxCollisions`. -/
def simRun (a : SimArgs) : SimState × List SimEvent :=
  simLoop a.params a.maxCollisions a.maxTime a.maxCollisions a.init

/-- `simulateCollisions`: the record `{ collisions, t, x1, x2, v1, v2 }` of line 70. -/
def simulateCollisions (a : SimArgs) : SimState := (simRun a).1

/-! ## The real-time stepper, `stepRealtime` -/

/-- The `state` argument and the result of `stepRealtime`. -/
structure SimulationState where
  x1 : ℚ
  x2 : ℚ
  v1 : ℚ
  v2 : ℚ
  collisions : Nat
  deriving DecidableEq

/-- The loop variables of `stepRealtime`. -/
structure RTVars where
  x1 : ℚ
  x2 : ℚ
  v1 : ℚ
  v2 : ℚ
  collisions : Nat
  timeLeft : ℚ
  iter : Nat
  deriving DecidableEq

/-- `const MAX_EVENTS_PER_FRAME = 80` (line 9). -/
def MAX_EVENTS_PER_FRAME : Nat := 80

/-- The wall time of line 15. -/
def rtDtWall (x1 v1 : ℚ) : Time :=
  if v1 < -EPS then .fin ((0 - x1) / v1) else .inf

/-- The block time of lines 18-23. -/
def rtDtBlock (size1 x1 x2 v1 v2 : ℚ) : Time :=
  let gap := x2 - (x1 + size1)
  let relV := v1 - v2
  if gap ≤ EPS then
    (if relV > EPS then .fin 0 else .inf)
  else
    (if relV > EPS then .fin (gap / relV) else .inf)

/-- The selected time `next` of line 25. -/
def rtNext (p : Params) (s : RTVars) : Time :=
  mathMin (rtDtWall s.x1 s.v1) (rtDtBlock p.size1 s.x1 s.x2 s.v1 s.v2)

/-- The test `next >= 0 && next <= timeLeft` of line 27 (`Infinity <= timeLeft` is false
for a finite budget). -/
def withinBudget (next : Time) (timeLeft : ℚ) : Prop :=
  match next with
  | .fin d => 0 ≤ d ∧ d ≤ timeLeft
  | .inf => False

instance : (next : Time) → (timeLeft : ℚ) → Decidable (withinBudget next timeLeft)
  | .fin d, timeLeft => inferInstanceAs (Decidable (0 ≤ d ∧ d ≤ timeLeft))
  | .inf, _ => inferInstanceAs (Decidable False)

/-- Lines 28-30: the advance by the whole remaining budget, taken when no event is due. -/
def rtAdvance (s : RTVars) : RTVars :=
  { s with
    x1 := s.x1 + s.v1 * s.timeLeft
    x2 := s.x2 + s.v2 * s.timeLeft
    timeLeft := 0
    iter := s.iter + 1 }

/-- Lines 35-52: advance to the event at time `next` and resolve it. -/
def rtResolve (p : Params) (s : RTVars) (next : ℚ) : Event × RTVars :=
  -- the advance `x1 += v1 * next` of line 35 is overwritten by the snap of either branch
  let x2 := s.x2 + s.v2 * next
  let timeLeft := s.timeLeft - next
  if Time.fin next = rtDtWall s.x1 s.v1 then
    (.wall, ⟨0, x2, -s.v1, s.v2, s.collisions + 1, timeLeft, s.iter + 1⟩)
  else
    (.block, ⟨x2 - p.size1, x2, blockV1 p.m1 p.m2 s.v1 s.v2, blockV2 p.m1 p.m2 s.v1 s.v2,
      s.collisions + 1, timeLeft, s.iter + 1⟩)

/-- Lines 55-56: the two numerical safety clamps, in source order. -/
def rtClamp (size1 : ℚ) (s : RTVars) : RTVars :=
  let x1 := if s.x1 < 0 then 0 else s.x1
  let x1 := if x1 + size1 > s.x2 then s.x2 - size1 else x1
  { s with x1 := x1 }

/-- Ghost record of one pass through the loop body of `stepRealtime`.  `kind = none` is
the pass that takes the `break` of line 31; `resolved` is the state right after the event
resolution (line 52), `post` the loop variables when the pass ends. -/
structure RTIter where
  pre : RTVars
  kind : Option Event
  resolved : RTVars
  post : RTVars
  deriving DecidableEq

/-- Lines 12-56: one pass through the loop body. -/
def rtBody (p : Params) (s : RTVars) : RTIter :=
  match rtNext p s with
  | .inf => ⟨s, none, rtAdvance s, rtAdvance s⟩
  | .fin next =>
    if withinBudget (.fin next) s.timeLeft then
      let r := rtResolve p s next
      ⟨s, some r.1, r.2, rtClamp p.size1 r.2⟩
    else ⟨s, none, rtAdvance s, rtAdvance s⟩

/-- The `while` loop of lines 11-57, with the ghost log of the passes it made. -/
def rtLoop (p : Params) : Nat → RTVars → RTVars × List RTIter
  | 0, s => (s, [])
  | fuel + 1, s =>
    if s.timeLeft > EPS ∧ s.iter < MAX_EVENTS_PER_FRAME then
      let it := rtBody p s
      match it.kind with
      | none => (it.post, [it])
      | some _ =>
        let r := rtLoop p fuel it.post
        (r.1, it :: r.2)
    else (s, [])

/-- The loop variables on entry (lines 5-8). -/
def rtInit (state : SimulationState) (dt : ℚ) : RTVars :=
  ⟨state.x1, state.x2, state.v1, state.v2, state.collisions, dt, 0⟩

/-- The run of `stepRealtime`: final loop variables and ghost log.  The loop is given
`MAX_EVENTS_PER_FRAME` units of fuel: `iter` starts at 0, grows by one per pass and is
guarded by `iter < MAX_EVENTS_PER_FRAME`. -/
def rtRun (state : SimulationState) (p : Params) (dt : ℚ) : RTVars × List RTIter :=
  rtLoop p MAX_EVENTS_PER_FRAME (rtInit state dt)

/-- `stepRealtime`: the record `{ x1, x2, v1, v2, collisions }` of line 59. -/
def stepRealtime (state : SimulationState) (p : Params) (dt : ℚ) : SimulationState :=
  let r := (rtRun state p dt).1
  ⟨r.x1, r.x2, r.v1, r.v2, r.collisions⟩

/-- The events a log of passes resolved, in order. -/
def rtEvents (log : List RTIter) : List Event := log.filterMap (fun it => it.kind)

/-! ## Quantities and predicates the statements use -/

/-- Total momentum `m1·v1 + m2·v2`. -/
def momentum (m1 m2 v1 v2 : ℚ) : ℚ := m1 * v1 + m2 * v2

/-- Total kinetic energy `½·m1·v1² + ½·m2·v2²`. -/
def kinetic (m1 m2 v1 v2 : ℚ) : ℚ := 1 / 2 * m1 * v1 ^ 2 + 1 / 2 * m2 * v2 ^ 2

/-- A predicted time is `Infinity` or a non-negative number. -/
def Time.nonneg : Time → Prop
  | .fin d => 0 ≤ d
  | .inf => True

/-- A predicted time lies strictly beyond the budget `dt` (`Infinity` always does). -/
def Time.exceeds : Time → ℚ → Prop
  | .fin d, dt => dt < d
  | .inf, _ => True

/-- Time to wall in the words of the specification (section 4.1): defined only if
`v1 < 0`, where it equals `(0 − x1) / v1`; otherwise the wall is never reached. -/
def specTimeToWall (x1 v1 : ℚ) : Time :=
  if v1 < 0 then .fin ((0 - x1) / v1) else .inf

/-- Time to block contact in the words of the specification (section 4.1), case by case. -/
def specTimeToBlock (size1 x1 x2 v1 v2 : ℚ) : Time :=
  let gap := x2 - (x1 + size1)
  let relV := v1 - v2
  if gap ≤ EPS ∧ relV > EPS then .fin 0
  else if gap ≤ EPS ∧ relV ≤ EPS then .inf
  else if gap > EPS ∧ relV ≤ EPS then .inf
  else .fin (gap / relV)

/-- The closing speed `v1 − v2` lies in the tolerance band `(0, EPS]`, where both
predictors report "no block event" although the blocks approach each other. -/
def slowClosing (v1 v2 : ℚ) : Prop := 0 < v1 - v2 ∧ v1 - v2 ≤ EPS

/-- The velocity of block 1 lies in the band `[-EPS, 0)`, where the stepper's wall
predictor reports "no wall event" although block 1 moves towards the wall. -/
def slowToWall (v1 : ℚ) : Prop := -EPS ≤ v1 ∧ v1 < 0

/-- The position invariants of the data model, without tolerance. -/
def wellPlaced (size1 x1 x2 : ℚ) : Prop := 0 ≤ x1 ∧ x1 + size1 ≤ x2

instance (v1 v2 : ℚ) : Decidable (slowClosing v1 v2) :=
  inferInstanceAs (Decidable (0 < v1 - v2 ∧ v1 - v2 ≤ EPS))

instance (v1 : ℚ) : Decidable (slowToWall v1) :=
  inferInstanceAs (Decidable (-EPS ≤ v1 ∧ v1 < 0))

instance (size1 x1 x2 : ℚ) : Decidable (wellPlaced size1 x1 x2) :=
  inferInstanceAs (Decidable (0 ≤ x1 ∧ x1 + size1 ≤ x2))

/-- Block 1 far from the wall and touching block 2, both moving towards the wall, block 2
faster by exactly `EPS`; default caps. -/
def slowChase : SimArgs :=
  { m1 := 1
    m2 := 1
    x1 := 1000000000000
    x2 := 1000000000001
    v1 := -1
    v2 := -1 - EPS
    size1 := 1 }

/-- The scene `slowChase` with the time cap raised to `1e13` and the default collision
cap. -/
def slowChaseLong : SimArgs :=
  { slowChase with
    maxTime := 10000000000000 }

/-- The batch loop variables that carry the positions, velocities and count of stepper
loop variables, at batch time `t`. -/
def RTVars.asSim (r : RTVars) (t : ℚ) : SimState :=
  ⟨r.collisions, t, r.x1, r.x2, r.v1, r.v2⟩

/-- The velocities rule out an event of kind `k` as the next one: block 1 does not move
towards the wall, respectively the closing speed is at most `EPS`. -/
def excludes (k : Event) (v1 v2 : ℚ) : Prop :=
  match k with
  | .wall => 0 ≤ v1
  | .block => v1 - v2 ≤ EPS

/-- The velocities rule out a repetition of the previous event, if there was one. -/
def excludesPrev (prev : Option Event) (v1 v2 : ℚ) : Prop :=
  ∀ k, prev = some k → excludes k v1 v2

/-- The blocks close in at more than `EPS` and are within `EPS` of contact without
touching: the band in which the block predictor answers 0 instead of `gap / relV`. -/
def nearContact (size1 x1 x2 v1 v2 : ℚ) : Prop :=
  0 < x2 - (x1 + size1) ∧ x2 - (x1 + size1) ≤ EPS ∧ EPS < v1 - v2

instance (size1 x1 x2 v1 v2 : ℚ) : Decidable (nearContact size1 x1 x2 v1 v2) :=
  inferInstanceAs (Decidable (0 < x2 - (x1 + size1) ∧ x2 - (x1 + size1) ≤ EPS ∧ EPS < v1 - v2))

/-- Ghost record of one call of `stepRealtime` in a sequence of calls: the budget `dt`, the
loop variables on return and the passes made. -/
structure RTCall where
  dt : ℚ
  final : RTVars
  passes : List RTIter
  deriving DecidableEq

/-- The calls `stepMany` makes, one record per budget. -/
def stepCalls (p : Params) : List ℚ → SimulationState → List RTCall
  | [], _ => []
  | dt :: dts, st =>
    ⟨dt, (rtRun st p dt).1, (rtRun st p dt).2⟩ :: stepCalls p dts (stepRealtime st p dt)

/-- The simulated time a sequence of calls consumed: of each budget, what was not left
over in `timeLeft` on return. -/
def consumed : List RTCall → ℚ
  | [] => 0
  | c :: cs => (c.dt - c.final.timeLeft) + consumed cs

/-- A predicted time seen `τ` later. -/
def Time.shift : Time → ℚ → Time
  | .fin d, τ => .fin (d - τ)
  | .inf, _ => .inf

/-- The loop body of `simulateCollisions` resolves, from `s`, the events `es` one after
the other and arrives in `s'`. -/
inductive Trail (p : Params) : SimState → List SimEvent → SimState → Prop where
  | nil (s : SimState) : Trail p s [] s
  | cons {s : SimState} {e : SimEvent} {es : List SimEvent} {s' : SimState} :
      simBody p s = some e → Trail p e.post es s' → Trail p s (e :: es) s'

/-- Stepper loop variables `σ` are the batch state `s` after a free flight of duration `τ`:
same velocities and count, positions advanced linearly. -/
def follows (σ : RTVars) (s : SimState) (τ : ℚ) : Prop :=
  σ.x1 = s.x1 + s.v1 * τ ∧ σ.x2 = s.x2 + s.v2 * τ ∧ σ.v1 = s.v1 ∧ σ.v2 = s.v2 ∧
    σ.collisions = s.collisions

/-- The flight time `τ` does not pass the time of the next event of the list, if any. -/
def room : List SimEvent → ℚ → Prop
  | [], _ => True
  | e :: _, τ => τ ≤ e.dt

/-- The last event of a list of events, or `prev` when the list is empty. -/
def lastEvent (prev : Option Event) : List Event → Option Event
  | [] => prev
  | e :: es => lastEvent (some e) es

/-- No two consecutive events of the list have the same kind, and the first differs from
the previous event `prev`, if there was one. -/
def alternatesFrom (prev : Option Event) : List Event → Prop
  | [] => True
  | e :: es => (∀ k, prev = some k → k ≠ e) ∧ alternatesFrom (some e) es

/-- The scenario of the specification's section 8 for a given `m2`: `m1 = 1`, `size1 = 1`,
`size2 = 2`, `x1 = 2`, `x2 = 5`, `v1 = 0`, `v2 = -1`, default caps. -/
def scenario (m2 : ℚ) : SimArgs :=
  { m1 := 1
    m2 := m2
    x1 := 2
    x2 := 5
    v1 := 0
    v2 := -1
    size1 := 1
    size2 := 2 }

/-! ## The analytic collision count, `computeCollisionsHighMass` -/

/-- What `computeCollisionsHighMass` returns: a number or `Infinity`. -/
inductive Count where
  | fin (n : ℤ)
  | inf

/-- `computeCollisionsHighMass` (`CollidingBlocksSim.jsx` lines 65-72), read over the real
numbers: `Math.PI`, `Math.sqrt`, `Math.atan` and the division are the real constant and
functions, `Math.floor` is the integer floor.  A real `m2` is always finite, so of the test
`!Number.isFinite(m2) || m2 <= 1` only the second half remains. -/
noncomputable def computeCollisionsHighMass (m2 : ℝ) : Count :=
  if m2 ≤ 1 then .fin 3
  else
    let angle := Real.arctan (Real.sqrt (1 / m2))
    if angle = 0 then .inf
    else .fin ⌊Real.pi / angle⌋

/-! ## Successive calls of the stepper -/

/-- Successive calls of `stepRealtime`, one per budget of the list, each on the state the
previous call returned; with the ghost log of the events resolved, in order. -/
def stepMany (p : Params) : List ℚ → SimulationState → SimulationState × List Event
  | [], st => (st, [])
  | dt :: dts, st =>
    let r := stepMany p dts (stepRealtime st p dt)
    (r.1, rtEvents (rtRun st p dt).2 ++ r.2)

/-! ## Binary64 arithmetic

The definitions above read the source over exact rationals.  The definitions from here to
`stepManyF` read the same source lines over the numbers a JavaScript engine computes with:
IEEE 754 binary64 values, every arithmetic operation rounded to the nearest value, ties to
the even significand. -/

/-- A JavaScript number: a finite binary64 value, held as the rational it denotes,
`Infinity`, `-Infinity` or `NaN`.  The sign of zero is not held; see `F64.div`.  The
operators below round every result with `fl`, so from binary64 operands they produce
binary64 values. -/
inductive F64 where
  | num (q : ℚ)
  | pinf
  | ninf
  | nan
  deriving DecidableEq

/-- The integer nearest to `N / D`, the even one of the two when `N / D` lies halfway. -/
def roundHalfEven (N D : Nat) : Nat :=
  let q := N / D
  let r := N % D
  if 2 * r < D then q
  else if D < 2 * r then q + 1
  else if q % 2 = 0 then q
  else q + 1

/-- The number of binary digits of `n` (0 for `n = 0`), by cutting off 64 digits, 8 digits
or one digit at a time; `fuel` bounds the number of cuts, and `n` cuts always suffice. -/
def bitLength : Nat → Nat → Nat
  | 0, _ => 0
  | fuel + 1, n =>
    if n = 0 then 0
    else if 2 ^ 64 ≤ n then bitLength fuel (n / 2 ^ 64) + 64
    else if 2 ^ 8 ≤ n then bitLength fuel (n / 2 ^ 8) + 8
    else bitLength fuel (n / 2) + 1

/-- The exponent of the binade of `n / d`: the integer `e` with `2 ^ e ≤ n / d < 2 ^ (e + 1)`,
for positive `n` and `d`.  The difference of the digit counts is `e` or `e + 1`. -/
def floorLog2 (n d : Nat) : Int :=
  let e : Int := (bitLength n n : Int) - (bitLength d d : Int)
  if 0 ≤ e then (if n < d * 2 ^ e.toNat then e - 1 else e)
  else (if n * 2 ^ (-e).toNat < d then e - 1 else e)

/-- The binary64 value nearest to the positive rational `n / d`: a multiple of `2 ^ k`, where
`k` is the exponent of the last of 53 significant bits and at least `-1074` (the spacing of
the subnormal numbers); `Infinity` from `2 ^ 1024` on. -/
def roundPos (n d : Nat) : F64 :=
  let k : Int := max (floorLog2 n d - 52) (-1074)
  if 0 ≤ k then
    let m := roundHalfEven n (d * 2 ^ k.toNat)
    if 2 ^ 1024 ≤ m * 2 ^ k.toNat then .pinf else .num ((m * 2 ^ k.toNat : Nat) : ℚ)
  else
    let m := roundHalfEven (n * 2 ^ (-k).toNat) d
    .num ((m : ℚ) / ((2 ^ (-k).toNat : Nat) : ℚ))

/-- Unary minus, which is exact. -/
def F64.neg : F64 → F64
  | .num q => .num (-q)
  | .pinf => .ninf
  | .ninf => .pinf
  | .nan => .nan

/-- Rounding of an exact result to binary64 (round to nearest, ties to even). -/
def fl (q : ℚ) : F64 :=
  if q = 0 then .num 0
  else if 0 < q then roundPos q.num.natAbs q.den
  else (roundPos q.num.natAbs q.den).neg

/-- The operator `+`. -/
def F64.add : F64 → F64 → F64
  | .num a, .num b => fl (a + b)
  | .num _, .pinf => .pinf
  | .num _, .ninf => .ninf
  | .pinf, .num _ => .pinf
  | .pinf, .pinf => .pinf
  | .ninf, .num _ => .ninf
  | .ninf, .ninf => .ninf
  | _, _ => .nan

/-- The operator `-`: the sum with the negated second operand. -/
def F64.sub (a b : F64) : F64 := a.add b.neg

/-- The product of an infinity of the given sign with a finite number. -/
def F64.infTimes (positive : Bool) (q : ℚ) : F64 :=
  if q = 0 then .nan
  else if (0 < q) = positive then .pinf
  else .ninf

/-- The operator `*`. -/
def F64.mul : F64 → F64 → F64
  | .num a, .num b => fl (a * b)
  | .num a, .pinf => F64.infTimes true a
  | .num a, .ninf => F64.infTimes false a
  | .pinf, .num b => F64.infTimes true b
  | .ninf, .num b => F64.infTimes false b
  | .pinf, .pinf => .pinf
  | .pinf, .ninf => .ninf
  | .ninf, .pinf => .ninf
  | .ninf, .ninf => .pinf
  | _, _ => .nan

/-- The operator `/`.  A zero divisor is read as `+0`.  In the source the divisor can be zero
only in `m1 + m2` (the other two divisions are reached with `v1 < 0`, with `relV > EPS` or
with a `NaN` operand), and that sum is `-0` only for `m1 = m2 = -0`, where every numerator
is zero as well and the quotient is `NaN` for either sign. -/
def F64.div : F64 → F64 → F64
  | .num a, .num b =>
    if b = 0 then (if a = 0 then .nan else if 0 < a then .pinf else .ninf)
    else fl (a / b)
  | .num _, .pinf => .num 0
  | .num _, .ninf => .num 0
  | .pinf, .num b => if 0 ≤ b then .pinf else .ninf
  | .ninf, .num b => if 0 ≤ b then .ninf else .pinf
  | _, _ => .nan

/-- The operator `<` (false when an operand is `NaN`). -/
def F64.lt : F64 → F64 → Bool
  | .num a, .num b => decide (a < b)
  | .num _, .pinf => true
  | .ninf, .num _ => true
  | .ninf, .pinf => true
  | _, _ => false

/-- The operator `<=` (false when an operand is `NaN`). -/
def F64.le : F64 → F64 → Bool
  | .num a, .num b => decide (a ≤ b)
  | .num _, .pinf => true
  | .ninf, .num _ => true
  | .ninf, .pinf => true
  | .pinf, .pinf => true
  | .ninf, .ninf => true
  | _, _ => false

/-- The operator `===` on numbers (false when an operand is `NaN`). -/
def F64.same : F64 → F64 → Bool
  | .num a, .num b => decide (a = b)
  | .pinf, .pinf => true
  | .ninf, .ninf => true
  | _, _ => false

/-- The function `Number.isFinite`. -/
def F64.isFinite : F64 → Bool
  | .num _ => true
  | _ => false

/-- The function `Math.min` on two numbers (`NaN` when an operand is `NaN`). -/
def F64.min : F64 → F64 → F64
  | .num a, .num b => if a ≤ b then .num a else .num b
  | .num a, .pinf => .num a
  | .pinf, .num b => .num b
  | .pinf, .pinf => .pinf
  | .num _, .ninf => .ninf
  | .pinf, .ninf => .ninf
  | .ninf, .num _ => .ninf
  | .ninf, .pinf => .ninf
  | .ninf, .ninf => .ninf
  | _, _ => .nan

instance : Add F64 := ⟨F64.add⟩

instance : Sub F64 := ⟨F64.sub⟩

instance : Mul F64 := ⟨F64.mul⟩

instance : Div F64 := ⟨F64.div⟩

instance : Neg F64 := ⟨F64.neg⟩

instance : LT F64 := ⟨fun a b => F64.lt a b = true⟩

instance : LE F64 := ⟨fun a b => F64.le a b = true⟩

instance (a b : F64) : Decidable (a < b) := inferInstanceAs (Decidable (F64.lt a b = true))

instance (a b : F64) : Decidable (a ≤ b) := inferInstanceAs (Decidable (F64.le a b = true))

/-- A numeric literal of the source.  The literals used are integers below `2 ^ 53`, which
are binary64 values. -/
instance (n : Nat) : OfNat F64 n := ⟨.num n⟩

/-- The constant `const EPS = 1e-12` as the engine holds it: the binary64 value nearest to
`10⁻¹²`. -/
def EPSF : F64 := fl EPS

/-! ## The batch simulator over binary64 -/

/-- The constants `m1`, `m2`, `size1` as binary64 values. -/
structure ParamsF where
  m1 : F64
  m2 : F64
  size1 : F64
  deriving DecidableEq

/-- Line 60 (line 48 of the stepper), every operation rounded. -/
def blockV1F (m1 m2 u1 u2 : F64) : F64 :=
  ((m1 - m2) / (m1 + m2)) * u1 + ((2 * m2) / (m1 + m2)) * u2

/-- Line 61 (line 49 of the stepper), every operation rounded. -/
def blockV2F (m1 m2 u1 u2 : F64) : F64 :=
  ((2 * m1) / (m1 + m2)) * u1 + ((m2 - m1) / (m1 + m2)) * u2

/-- The loop variables of `simulateCollisions` as binary64 values; `collisions` is a number
like the others. -/
structure SimStateF where
  collisions : F64
  t : F64
  x1 : F64
  x2 : F64
  v1 : F64
  v2 : F64
  deriving DecidableEq

/-- The closure `timeToWall` (lines 17-20). -/
def timeToWallF (s : SimStateF) : F64 :=
  if s.v1 ≥ 0 then .pinf else (0 - s.x1) / s.v1

/-- The closure `timeToBlock` (lines 22-36). -/
def timeToBlockF (p : ParamsF) (s : SimStateF) : F64 :=
  let gap := s.x2 - (s.x1 + p.size1)
  let relV := s.v1 - s.v2
  if gap ≤ EPSF then
    (if relV > EPSF then 0 else .pinf)
  else if relV ≤ EPSF then .pinf
  else gap / relV

/-- Ghost record of one resolved event of the binary64 batch loop. -/
structure SimEventF where
  pre : SimStateF
  kind : Event
  dt : F64
  post : SimStateF
  deriving DecidableEq

/-- Lines 39-64 over binary64.  `none` is the `break` of line 43, taken when `dt` is
`Infinity`, `-Infinity` or `NaN`. -/
def simBodyF (p : ParamsF) (s : SimStateF) : Option SimEventF :=
  let dtWall := timeToWallF s
  let dtBlock := timeToBlockF p s
  let dt := F64.min dtWall dtBlock
  if dt.isFinite = false then none
  else
    -- the advance `x1 += v1 * dt` of line 46 is overwritten by the snap of either branch
    let x2 := s.x2 + s.v2 * dt
    let t := s.t + dt
    if F64.same dt dtWall = true then
      some ⟨s, .wall, dt, ⟨s.collisions + 1, t, 0, x2, -s.v1, s.v2⟩⟩
    else
      some ⟨s, .block, dt,
        ⟨s.collisions + 1, t, x2 - p.size1, x2,
          blockV1F p.m1 p.m2 s.v1 s.v2, blockV2F p.m1 p.m2 s.v1 s.v2⟩⟩

/-- The stopping condition of line 67. -/
def separatedF (s : SimStateF) : Prop :=
  s.v1 ≥ 0 ∧ s.v2 ≥ 0 ∧ s.v2 ≥ s.v1

instance (s : SimStateF) : Decidable (separatedF s) :=
  inferInstanceAs (Decidable (s.v1 ≥ 0 ∧ s.v2 ≥ 0 ∧ s.v2 ≥ s.v1))

/-- The `while` loop of lines 38-68 over binary64, with the ghost log of the events it
resolved.  The count is a binary64 value and need not grow, so the guard does not bound
the number of passes: the result is `none` when the fuel runs out in the loop. -/
def simLoopF (p : ParamsF) (maxCollisions maxTime : F64) :
    Nat → SimStateF → Option (SimStateF × List SimEventF)
  | 0, s => if s.collisions < maxCollisions ∧ s.t < maxTime then none else some (s, [])
  | fuel + 1, s =>
    if s.collisions < maxCollisions ∧ s.t < maxTime then
      match simBodyF p s with
      | none => some (s, [])
      | some e =>
        if separatedF e.post then some (e.post, [e])
        else
          match simLoopF p maxCollisions maxTime fuel e.post with
          | none => none
          | some r => some (r.1, e :: r.2)
    else some (s, [])

/-- The argument record of `simulateCollisions` as binary64 values, with the defaults of
lines 2-11. -/
structure SimArgsF where
  m1 : F64 := 1
  m2 : F64 := 100
  x1 : F64 := 2
  x2 : F64 := 5
  v1 : F64 := 0
  v2 : F64 := -1
  size1 : F64 := 1
  size2 : F64 := 2
  maxCollisions : F64 := 5000000
  maxTime : F64 := 1000000000
  deriving DecidableEq

/-- The parameters an argument record carries. -/
def SimArgsF.params (a : SimArgsF) : ParamsF := ⟨a.m1, a.m2, a.size1⟩

/-- The loop variables on entry (lines 13-14). -/
def SimArgsF.init (a : SimArgsF) : SimStateF := ⟨0, 0, a.x1, a.x2, a.v1, a.v2⟩

/-- The binary64 run of `simulateCollisions` within `fuel` passes: final loop variables and
ghost event log, or `none` when the loop has not ended by then. -/
def simRunF (fuel : Nat) (a : SimArgsF) : Option (SimStateF × List SimEventF) :=
  simLoopF a.params a.maxCollisions a.maxTime fuel a.init

/-- The binary64 `simulateCollisions` within `fuel` passes: the record of line 70, or `none`
when the loop has not ended by then. -/
def simulateCollisionsF (fuel : Nat) (a : SimArgsF) : Option SimStateF :=
  (simRunF fuel a).map (fun r => r.1)

/-- The events the binary64 batch loop resolves in its first `fuel` passes, whether or not
the loop has ended by then. -/
def simTraceF (p : ParamsF) (maxCollisions maxTime : F64) : Nat → SimStateF → List SimEventF
  | 0, _ => []
  | fuel + 1, s =>
    if s.collisions < maxCollisions ∧ s.t < maxTime then
      match simBodyF p s with
      | none => []
      | some e =>
        if separatedF e.post then [e]
        else e :: simTraceF p maxCollisions maxTime fuel e.post
    else []

/-! ## The real-time stepper over binary64 -/

/-- The `state` argument and the result of `stepRealtime` as binary64 values. -/
structure SimulationStateF where
  x1 : F64
  x2 : F64
  v1 : F64
  v2 : F64
  collisions : F64
  deriving DecidableEq

/-- The loop variables of `stepRealtime` over binary64; `iter` counts from 0 to 80. -/
structure RTVarsF where
  x1 : F64
  x2 : F64
  v1 : F64
  v2 : F64
  collisions : F64
  timeLeft : F64
  iter : Nat
  deriving DecidableEq

/-- The wall time of line 15. -/
def rtDtWallF (s : RTVarsF) : F64 :=
  if s.v1 < -EPSF then (0 - s.x1) / s.v1 else .pinf

/-- The block time of lines 18-23. -/
def rtDtBlockF (p : ParamsF) (s : RTVarsF) : F64 :=
  let gap := s.x2 - (s.x1 + p.size1)
  let relV := s.v1 - s.v2
  if gap ≤ EPSF then
    (if relV > EPSF then 0 else .pinf)
  else
    (if relV > EPSF then gap / relV else .pinf)

/-- The selected time `next` of line 25. -/
def rtNextF (p : ParamsF) (s : RTVarsF) : F64 :=
  F64.min (rtDtWallF s) (rtDtBlockF p s)

/-- Lines 28-30: the advance by the whole remaining budget. -/
def rtAdvanceF (s : RTVarsF) : RTVarsF :=
  { s with
    x1 := s.x1 + s.v1 * s.timeLeft
    x2 := s.x2 + s.v2 * s.timeLeft
    timeLeft := 0
    iter := s.iter + 1 }

/-- Lines 35-52: advance to the event at time `next` and resolve it. -/
def rtResolveF (p : ParamsF) (s : RTVarsF) (next : F64) : Event × RTVarsF :=
  -- the advance `x1 += v1 * next` of line 35 is overwritten by the snap of either branch
  let x2 := s.x2 + s.v2 * next
  let timeLeft := s.timeLeft - next
  if F64.same next (rtDtWallF s) = true then
    (.wall, ⟨0, x2, -s.v1, s.v2, s.collisions + 1, timeLeft, s.iter + 1⟩)
  else
    (.block, ⟨x2 - p.size1, x2, blockV1F p.m1 p.m2 s.v1 s.v2, blockV2F p.m1 p.m2 s.v1 s.v2,
      s.collisions + 1, timeLeft, s.iter + 1⟩)

/-- Lines 55-56: the two clamps, in source order. -/
def rtClampF (size1 : F64) (s : RTVarsF) : RTVarsF :=
  let x1 := if s.x1 < 0 then 0 else s.x1
  let x1 := if x1 + size1 > s.x2 then s.x2 - size1 else x1
  { s with x1 := x1 }

/-- Ghost record of one pass through the loop body of the binary64 stepper; the fields are
those of `RTIter`. -/
structure RTIterF where
  pre : RTVarsF
  kind : Option Event
  resolved : RTVarsF
  post : RTVarsF
  deriving DecidableEq

/-- Lines 12-56 over binary64: one pass through the loop body. -/
def rtBodyF (p : ParamsF) (s : RTVarsF) : RTIterF :=
  let next := rtNextF p s
  if next ≥ 0 ∧ next ≤ s.timeLeft then
    let r := rtResolveF p s next
    ⟨s, some r.1, r.2, rtClampF p.size1 r.2⟩
  else ⟨s, none, rtAdvanceF s, rtAdvanceF s⟩

/-- The `while` loop of lines 11-57 over binary64, with the ghost log of its passes. -/
def rtLoopF (p : ParamsF) : Nat → RTVarsF → RTVarsF × List RTIterF
  | 0, s => (s, [])
  | fuel + 1, s =>
    if s.timeLeft > EPSF ∧ s.iter < MAX_EVENTS_PER_FRAME then
      let it := rtBodyF p s
      match it.kind with
      | none => (it.post, [it])
      | some _ =>
        let r := rtLoopF p fuel it.post
        (r.1, it :: r.2)
    else (s, [])

/-- The loop variables on entry (lines 5-8). -/
def rtInitF (state : SimulationStateF) (dt : F64) : RTVarsF :=
  ⟨state.x1, state.x2, state.v1, state.v2, state.collisions, dt, 0⟩

/-- The binary64 run of `stepRealtime`: final loop variables and ghost log.  As in `rtRun`,
`MAX_EVENTS_PER_FRAME` units of fuel are what the guard `iter < MAX_EVENTS_PER_FRAME`
allows. -/
def rtRunF (state : SimulationStateF) (p : ParamsF) (dt : F64) : RTVarsF × List RTIterF :=
  rtLoopF p MAX_EVENTS_PER_FRAME (rtInitF state dt)

/-- The binary64 `stepRealtime`: the record of line 59. -/
def stepRealtimeF (state : SimulationStateF) (p : ParamsF) (dt : F64) : SimulationStateF :=
  let r := (rtRunF state p dt).1
  ⟨r.x1, r.x2, r.v1, r.v2, r.collisions⟩

/-- The events a log of binary64 passes resolved, in order. -/
def rtEventsF (log : List RTIterF) : List Event := log.filterMap (fun it => it.kind)

/-- Successive binary64 calls of `stepRealtime`, one per budget of the list, each on the
state the previous call returned; with the ghost log of the passes of all calls, in order. -/
def stepManyF (p : ParamsF) : List F64 → SimulationStateF → SimulationStateF × List RTIterF
  | [], st => (st, [])
  | dt :: dts, st =>
    let r := stepManyF p dts (stepRealtimeF st p dt)
    (r.1, (rtRunF st p dt).2 ++ r.2)

/-! ## Predicates on binary64 states, and exact states read as binary64 states -/

/-- Binary64 positions, read as the rationals they denote, satisfy the position invariants
`x1 ≥ 0` and `x1 + size1 ≤ x2 + tol`; false when one of the three is not finite. -/
def placedF (tol : ℚ) (size1 x1 x2 : F64) : Prop :=
  match size1, x1, x2 with
  | .num s, .num a, .num b => 0 ≤ a ∧ a + s ≤ b + tol
  | _, _, _ => False

instance : (tol : ℚ) → (size1 x1 x2 : F64) → Decidable (placedF tol size1 x1 x2)
  | tol, .num s, .num a, .num b => inferInstanceAs (Decidable (0 ≤ a ∧ a + s ≤ b + tol))
  | _, .pinf, _, _ => isFalse (fun h => h)
  | _, .ninf, _, _ => isFalse (fun h => h)
  | _, .nan, _, _ => isFalse (fun h => h)
  | _, .num _, .pinf, _ => isFalse (fun h => h)
  | _, .num _, .ninf, _ => isFalse (fun h => h)
  | _, .num _, .nan, _ => isFalse (fun h => h)
  | _, .num _, .num _, .pinf => isFalse (fun h => h)
  | _, .num _, .num _, .ninf => isFalse (fun h => h)
  | _, .num _, .num _, .nan => isFalse (fun h => h)

/-- The binary64 velocities rule out an event of kind `k` as the next one: `v1 >= 0` holds,
respectively `v1 - v2 > EPS` does not. -/
def excludesF (k : Event) (v1 v2 : F64) : Prop :=
  match k with
  | .wall => v1 ≥ 0
  | .block => ¬ (v1 - v2 > EPSF)

instance : (k : Event) → (v1 v2 : F64) → Decidable (excludesF k v1 v2)
  | .wall, v1, _ => inferInstanceAs (Decidable (v1 ≥ 0))
  | .block, v1, v2 => inferInstanceAs (Decidable (¬ (v1 - v2 > EPSF)))

/-- The constants, read as binary64 values without rounding. -/
def Params.toF (p : Params) : ParamsF := ⟨.num p.m1, .num p.m2, .num p.size1⟩

/-- Batch loop variables, read as binary64 values without rounding. -/
def SimState.toF (s : SimState) : SimStateF :=
  ⟨.num s.collisions, .num s.t, .num s.x1, .num s.x2, .num s.v1, .num s.v2⟩

/-- A batch event, read as binary64 values without rounding. -/
def SimEvent.toF (e : SimEvent) : SimEventF := ⟨e.pre.toF, e.kind, .num e.dt, e.post.toF⟩

/-- An argument record, read as binary64 values without rounding. -/
def SimArgs.toF (a : SimArgs) : SimArgsF :=
  { m1 := .num a.m1
    m2 := .num a.m2
    x1 := .num a.x1
    x2 := .num a.x2
    v1 := .num a.v1
    v2 := .num a.v2
    size1 := .num a.size1
    size2 := .num a.size2
    maxCollisions := .num a.maxCollisions
    maxTime := .num a.maxTime }

/-- A stepper state, read as binary64 values without rounding. -/
def SimulationState.toF (s : SimulationState) : SimulationStateF :=
  ⟨.num s.x1, .num s.x2, .num s.v1, .num s.v2, .num s.collisions⟩

/-- Stepper loop variables, read as binary64 values without rounding. -/
def RTVars.toF (s : RTVars) : RTVarsF :=
  ⟨.num s.x1, .num s.x2, .num s.v1, .num s.v2, .num s.collisions, .num s.timeLeft, s.iter⟩

/-- A stepper pass, read as binary64 values without rounding. -/
def RTIter.toF (it : RTIter) : RTIterF := ⟨it.pre.toF, it.kind, it.resolved.toF, it.post.toF⟩

/-- From the state `s` the binary64 batch pass computes what exact arithmetic gives: the
same event, or none in both, with every stored value free of rounding error. -/
def simExact (p : Params) (s : SimState) : Prop :=
  simBodyF p.toF s.toF = (simBody p s).map SimEvent.toF

instance (p : Params) (s : SimState) : Decidable (simExact p s) :=
  inferInstanceAs (Decidable (simBodyF p.toF s.toF = (simBody p s).map SimEvent.toF))

/-- From the loop variables `s` the binary64 stepper decides the loop guard and computes
the pass as exact arithmetic does, with every stored value free of rounding error. -/
def rtExact (p : Params) (s : RTVars) : Prop :=
  ((s.toF.timeLeft > EPSF) ↔ (s.timeLeft > EPS)) ∧ rtBodyF p.toF s.toF = (rtBody p s).toF

instance (p : Params) (s : RTVars) : Decidable (rtExact p s) :=
  inferInstanceAs (Decidable
    (((s.toF.timeLeft > EPSF) ↔ (s.timeLeft > EPS)) ∧ rtBodyF p.toF s.toF = (rtBody p s).toF))

/-- The binary64 stepper decides the loop guard at `s` as exact arithmetic does. -/
def rtGuardExact (s : RTVars) : Prop := (s.toF.timeLeft > EPSF) ↔ (s.timeLeft > EPS)

instance (s : RTVars) : Decidable (rtGuardExact s) :=
  inferInstanceAs (Decidable ((s.toF.timeLeft > EPSF) ↔ (s.timeLeft > EPS)))

/-! ## Binary64 scenes the statements use -/

/-- The default scene with `m2 = 1e308`; default caps. -/
def heavyBlock : SimArgsF := { m2 := fl (10 ^ 308) }

/-- The record the default binary64 run returns. -/
def defaultReturnF : SimStateF :=
  { collisions := 31
    t := .num (8841409869239483 / 1125899906842624)
    x1 := .num (2161047126462133 / 562949953421312)
    x2 := .num (2723997079883445 / 562949953421312)
    v1 := .num (1076045527805609 / 2251799813685248)
    v2 := .num (8996909390348497 / 9007199254740992) }

/-- Two blocks in contact that move away from the wall at speed `100000`, block 1 faster by
`2 ^ (-36)`; `m2 = 5`, two collisions allowed. -/
def closePair : SimArgsF :=
  { m1 := 1
    m2 := 5
    x1 := 2
    x2 := 3
    v1 := .num (100000 + 1 / 2 ^ 36)
    v2 := 100000
    size1 := 1
    maxCollisions := 2 }

/-- Unit masses and unit width of block 1. -/
def unitParams : ParamsF := ⟨1, 1, 1⟩

/-- Block 1 at rest at the wall, block 2 at `x2 = 1.7` approaching with `v2 = -0.6`. -/
def approachState : SimulationStateF := ⟨0, fl (17 / 10), 0, fl (-6 / 10), 0⟩

/-- The scene `approachState` as an argument record of `simulateCollisions`, unit masses
and width, default caps. -/
def approachArgs : SimArgsF :=
  { m1 := 1
    m2 := 1
    x1 := 0
    x2 := fl (17 / 10)
    v1 := 0
    v2 := fl (-6 / 10)
    size1 := 1 }

/-- The blocks in contact at `x1 = 1`, `x2 = 2`, block 1 at rest, block 2 approaching at
`EPS`. -/
def creepState : SimulationStateF := ⟨1, 2, 0, -EPSF, 0⟩

/-- Block 1 at `2 ^ 41` moving to the wall at speed 1, block 2 one unit behind it and
faster by `2 ^ (-40)`, which is below `EPS`; unit masses and width, default caps. -/
def slowPursuit : SimArgsF :=
  { m1 := 1
    m2 := 1
    x1 := .num (2 ^ 41)
    x2 := .num (2 ^ 41 + 2)
    v1 := -1
    v2 := .num (-1 - 1 / 2 ^ 40)
    size1 := 1 }

/-- The default scene with `m2 = 1000`. -/
def thousand : SimArgsF := { m2 := 1000 }

/-! ## Basic facts about the predictors -/

theorem EPS_pos : 0 < EPS := by norm_num [EPS]

theorem mathMin_eq_inf {a b : Time} : mathMin a b = .inf ↔ a = .inf ∧ b = .inf := by
  cases a <;> cases b <;> simp [mathMin]

theorem mathMin_fin {a b : Time} {d : ℚ} (h : mathMin a b = .fin d) :
    (a = .fin d ∧ (b = .inf ∨ ∃ e, b = .fin e ∧ d ≤ e)) ∨
    (b = .fin d ∧ (a = .inf ∨ ∃ e, a = .fin e ∧ d ≤ e)) := by
  cases a with
  | inf =>
    cases b with
    | inf => simp [mathMin] at h
    | fin b => simp only [mathMin, Time.fin.injEq] at h; subst h; right; simp
  | fin a =>
    cases b with
    | inf => simp only [mathMin, Time.fin.injEq] at h; subst h; left; simp
    | fin b =>
      simp only [mathMin, Time.fin.injEq] at h
      rcases le_total a b with hab | hab
      · left; rw [min_eq_left hab] at h; subst h; simp [hab]
      · right; rw [min_eq_right hab] at h; subst h; simp [hab]

/-- The stepper's block predictor is the batch predictor. -/
theorem rtDtBlock_eq (size1 x1 x2 v1 v2 : ℚ) :
    rtDtBlock size1 x1 x2 v1 v2 = timeToBlock size1 x1 x2 v1 v2 := by
  unfold rtDtBlock timeToBlock
  by_cases hg : x2 - (x1 + size1) ≤ EPS <;> by_cases hr : v1 - v2 > EPS
  · simp [hg, hr]
  · simp [hg, hr]
  · have : ¬ (v1 - v2 ≤ EPS) := not_le.mpr hr
    simp [hg, hr, this]
  · have : v1 - v2 ≤ EPS := not_lt.mp hr
    simp [hg, hr, this]

/-! ## Shape of one pass through either loop body -/

/-- What `simBody` returns, case by case. -/
theorem simBody_cases (p : Params) (s : SimState) :
    (mathMin (timeToWall s.x1 s.v1) (timeToBlock p.size1 s.x1 s.x2 s.v1 s.v2) = .inf ∧
      simBody p s = none) ∨
    (∃ dt, mathMin (timeToWall s.x1 s.v1) (timeToBlock p.size1 s.x1 s.x2 s.v1 s.v2) = .fin dt ∧
      timeToWall s.x1 s.v1 = .fin dt ∧
      simBody p s = some ⟨s, .wall, dt,
        ⟨s.collisions + 1, s.t + dt, 0, s.x2 + s.v2 * dt, -s.v1, s.v2⟩⟩) ∨
    (∃ dt, mathMin (timeToWall s.x1 s.v1) (timeToBlock p.size1 s.x1 s.x2 s.v1 s.v2) = .fin dt ∧
      timeToWall s.x1 s.v1 ≠ .fin dt ∧
      simBody p s = some ⟨s, .block, dt,
        ⟨s.collisions + 1, s.t + dt, s.x2 + s.v2 * dt - p.size1, s.x2 + s.v2 * dt,
          blockV1 p.m1 p.m2 s.v1 s.v2, blockV2 p.m1 p.m2 s.v1 s.v2⟩⟩) := by
  unfold simBody
  cases h : mathMin (timeToWall s.x1 s.v1) (timeToBlock p.size1 s.x1 s.x2 s.v1 s.v2) with
  | inf => left; simp [h]
  | fin dt =>
    right
    by_cases hw : timeToWall s.x1 s.v1 = Time.fin dt
    · left; exact ⟨dt, rfl, hw, by simp only [h]; simp [hw]⟩
    · right
      have hw' : ¬ Time.fin dt = timeToWall s.x1 s.v1 := fun h' => hw h'.symm
      exact ⟨dt, rfl, hw, by simp only [h]; simp [hw']⟩

/-- What `rtBody` returns, case by case. -/
theorem rtBody_cases (p : Params) (r : RTVars) :
    (¬ withinBudget (rtNext p r) r.timeLeft ∧
      rtBody p r = ⟨r, none, rtAdvance r, rtAdvance r⟩) ∨
    (∃ next, rtNext p r = .fin next ∧ 0 ≤ next ∧ next ≤ r.timeLeft ∧
      rtDtWall r.x1 r.v1 = .fin next ∧
      rtBody p r = ⟨r, some .wall,
        ⟨0, r.x2 + r.v2 * next, -r.v1, r.v2, r.collisions + 1, r.timeLeft - next, r.iter + 1⟩,
        rtClamp p.size1
          ⟨0, r.x2 + r.v2 * next, -r.v1, r.v2, r.collisions + 1, r.timeLeft - next,
            r.iter + 1⟩⟩) ∨
    (∃ next, rtNext p r = .fin next ∧ 0 ≤ next ∧ next ≤ r.timeLeft ∧
      rtDtWall r.x1 r.v1 ≠ .fin next ∧
      rtBody p r = ⟨r, some .block,
        ⟨r.x2 + r.v2 * next - p.size1, r.x2 + r.v2 * next,
          blockV1 p.m1 p.m2 r.v1 r.v2, blockV2 p.m1 p.m2 r.v1 r.v2,
          r.collisions + 1, r.timeLeft - next, r.iter + 1⟩,
        rtClamp p.size1
          ⟨r.x2 + r.v2 * next - p.size1, r.x2 + r.v2 * next,
            blockV1 p.m1 p.m2 r.v1 r.v2, blockV2 p.m1 p.m2 r.v1 r.v2,
            r.collisions + 1, r.timeLeft - next, r.iter + 1⟩⟩) := by
  unfold rtBody
  cases h : rtNext p r with
  | inf => left; simp [withinBudget, h]
  | fin next =>
    by_cases hb : withinBudget (.fin next) r.timeLeft
    · right
      have hb' : 0 ≤ next ∧ next ≤ r.timeLeft := hb
      by_cases hw : rtDtWall r.x1 r.v1 = Time.fin next
      · left
        refine ⟨next, rfl, hb'.1, hb'.2, hw, ?_⟩
        simp only [h]; simp [hb, rtResolve, hw]
      · right
        have hw' : ¬ Time.fin next = rtDtWall r.x1 r.v1 := fun h' => hw h'.symm
        refine ⟨next, rfl, hb'.1, hb'.2, hw, ?_⟩
        simp only [h]; simp [hb, rtResolve, hw']
    · left
      exact ⟨hb, by simp [h, hb]⟩

/-- The clamps of `stepRealtime` leave a state alone when block 1 is on the track and
not overlapping block 2. -/
theorem rtClamp_of_wellPlaced (size1 : ℚ) (s : RTVars) (h : wellPlaced size1 s.x1 s.x2) :
    rtClamp size1 s = s := by
  obtain ⟨h0, h1⟩ := h
  unfold rtClamp
  have a : ¬ s.x1 < 0 := not_lt.mpr h0
  have b : ¬ s.x1 + size1 > s.x2 := not_lt.mpr h1
  simp [a, b]

/-! ## Conservation at a block collision -/

/-- The velocity update conserves momentum and kinetic energy when `m1 + m2 ≠ 0`. -/
theorem blockV_conserves (m1 m2 u1 u2 : ℚ) (hm : m1 + m2 ≠ 0) :
    momentum m1 m2 (blockV1 m1 m2 u1 u2) (blockV2 m1 m2 u1 u2) = momentum m1 m2 u1 u2 ∧
    kinetic m1 m2 (blockV1 m1 m2 u1 u2) (blockV2 m1 m2 u1 u2) = kinetic m1 m2 u1 u2 := by
  unfold momentum kinetic blockV1 blockV2
  constructor
  · field_simp
    ring
  · field_simp
    ring

/-- C1: for masses with `m1 + m2 ≠ 0` and any pre-collision velocities `u1`, `u2`, the
block-collision velocity update preserves the total momentum `m1·v1 + m2·v2` and the total
kinetic energy `½·m1·v1² + ½·m2·v2²`, exactly; and it is the update both loops apply, so
both quantities have the same value before and after every block event resolved by a pass
of `simulateCollisions` and by a pass of `stepRealtime`. -/
theorem block_collision_conserves (p : Params) (hm : p.m1 + p.m2 ≠ 0) :
    (∀ u1 u2 : ℚ,
      momentum p.m1 p.m2 (blockV1 p.m1 p.m2 u1 u2) (blockV2 p.m1 p.m2 u1 u2) =
        momentum p.m1 p.m2 u1 u2 ∧
      kinetic p.m1 p.m2 (blockV1 p.m1 p.m2 u1 u2) (blockV2 p.m1 p.m2 u1 u2) =
        kinetic p.m1 p.m2 u1 u2) ∧
    (∀ s e, simBody p s = some e → e.kind = .block →
      momentum p.m1 p.m2 e.post.v1 e.post.v2 = momentum p.m1 p.m2 s.v1 s.v2 ∧
      kinetic p.m1 p.m2 e.post.v1 e.post.v2 = kinetic p.m1 p.m2 s.v1 s.v2) ∧
    (∀ r, (rtBody p r).kind = some .block →
      momentum p.m1 p.m2 (rtBody p r).post.v1 (rtBody p r).post.v2 =
        momentum p.m1 p.m2 r.v1 r.v2 ∧
      kinetic p.m1 p.m2 (rtBody p r).post.v1 (rtBody p r).post.v2 =
        kinetic p.m1 p.m2 r.v1 r.v2) := by
  refine ⟨fun u1 u2 => blockV_conserves _ _ u1 u2 hm, ?_, ?_⟩
  · intro s e he hk
    rcases simBody_cases p s with ⟨_, h⟩ | ⟨dt, _, _, h⟩ | ⟨dt, _, _, h⟩
    · rw [h] at he; cases he
    · rw [h] at he; cases he; cases hk
    · rw [h] at he; cases he
      exact blockV_conserves _ _ s.v1 s.v2 hm
  · intro r hk
    rcases rtBody_cases p r with ⟨_, h⟩ | ⟨next, _, _, _, _, h⟩ | ⟨next, _, _, _, _, h⟩
    · rw [h] at hk; cases hk
    · rw [h] at hk; cases hk
    · rw [h]
      exact blockV_conserves _ _ r.v1 r.v2 hm

/-- Witness for C1: unit mass at rest hit by a mass of 100 moving at `-1`, as bare
velocities and as the first pass of the default batch run. -/
theorem block_collision_conserves_witness :
    (1 : ℚ) + 100 ≠ 0 ∧
    simBody ⟨1, 100, 1⟩ ⟨0, 0, 2, 5, 0, -1⟩ =
      some ⟨⟨0, 0, 2, 5, 0, -1⟩, .block, 2, ⟨1, 2, 2, 3, -200 / 101, -99 / 101⟩⟩ ∧
    momentum 1 100 (-200 / 101) (-99 / 101) = momentum 1 100 0 (-1) ∧
    kinetic 1 100 (-200 / 101) (-99 / 101) = kinetic 1 100 0 (-1) :=
  ⟨by norm_num, by decide!,
    (block_collision_conserves ⟨1, 100, 1⟩ (by norm_num)).2.1 ⟨0, 0, 2, 5, 0, -1⟩
      ⟨⟨0, 0, 2, 5, 0, -1⟩, .block, 2, ⟨1, 2, 2, 3, -200 / 101, -99 / 101⟩⟩ (by decide!) rfl⟩

/-! ## The wall event -/

/-- C2: whenever the event a loop pass of `simulateCollisions` or of `stepRealtime` selects
is the wall event (the selected time `dt` is the wall time), the state right after the
resolution has `x1 = 0` and `v1` negated (so `|v1|` is unchanged), `v2` unchanged and
`x2 = x2 + v2·dt`.  In `stepRealtime` the clamps that end the pass keep that state whenever
`size1 ≤ x2` holds in it. -/
theorem wall_event_resolution (p : Params) :
    (∀ s e, simBody p s = some e → e.kind = .wall →
      mathMin (timeToWall s.x1 s.v1) (timeToBlock p.size1 s.x1 s.x2 s.v1 s.v2) = .fin e.dt ∧
      timeToWall s.x1 s.v1 = .fin e.dt ∧
      e.post.x1 = 0 ∧ e.post.v1 = -s.v1 ∧ |e.post.v1| = |s.v1| ∧
      e.post.v2 = s.v2 ∧ e.post.x2 = s.x2 + s.v2 * e.dt) ∧
    (∀ r, (rtBody p r).kind = some .wall →
      ∃ next, rtNext p r = .fin next ∧ rtDtWall r.x1 r.v1 = .fin next ∧
        (rtBody p r).resolved.x1 = 0 ∧ (rtBody p r).resolved.v1 = -r.v1 ∧
        |(rtBody p r).resolved.v1| = |r.v1| ∧
        (rtBody p r).resolved.v2 = r.v2 ∧
        (rtBody p r).resolved.x2 = r.x2 + r.v2 * next ∧
        (p.size1 ≤ (rtBody p r).resolved.x2 → (rtBody p r).post = (rtBody p r).resolved)) := by
  constructor
  · intro s e he hk
    rcases simBody_cases p s with ⟨_, h⟩ | ⟨dt, hmin, hw, h⟩ | ⟨dt, _, _, h⟩
    · rw [h] at he; cases he
    · rw [h] at he
      cases he
      exact ⟨hmin, hw, rfl, rfl, abs_neg _, rfl, rfl⟩
    · rw [h] at he
      cases he
      cases hk
  · intro r hk
    rcases rtBody_cases p r with ⟨_, h⟩ | ⟨next, hn, _, _, hw, h⟩ | ⟨next, _, _, _, _, h⟩
    · rw [h] at hk; cases hk
    · rw [h]
      refine ⟨next, hn, hw, rfl, rfl, abs_neg _, rfl, rfl, ?_⟩
      intro hs
      exact rtClamp_of_wellPlaced _ _ ⟨le_refl _, by simpa using hs⟩
    · rw [h] at hk; cases hk

/-- Witness for C2: the batch pass from `x1 = 1, v1 = -1` with block 2 far away and
receding, and the stepper pass from the same positions and velocities with a budget of 2. -/
theorem wall_event_resolution_witness :
    (simulateCollisions { m2 := 1, x1 := 1, x2 := 5, v1 := -1, v2 := 0, maxCollisions := 1 }).x1 = 0 ∧
    (simBody ⟨1, 1, 1⟩ ⟨0, 0, 1, 5, -1, 0⟩ =
      some ⟨⟨0, 0, 1, 5, -1, 0⟩, .wall, 1, ⟨1, 1, 0, 5, 1, 0⟩⟩) ∧
    (rtBody ⟨1, 1, 1⟩ ⟨1, 5, -1, 0, 0, 2, 0⟩).kind = some .wall ∧
    (rtBody ⟨1, 1, 1⟩ ⟨1, 5, -1, 0, 0, 2, 0⟩).post = ⟨0, 5, 1, 0, 1, 1, 1⟩ ∧
    (⟨1, 1, 0, 5, 1, 0⟩ : SimState).x1 = 0 ∧
    (rtBody ⟨1, 1, 1⟩ ⟨1, 5, -1, 0, 0, 2, 0⟩).resolved.x1 = 0 :=
  ⟨by decide!, by decide!, by decide!, by decide!,
    ((wall_event_resolution ⟨1, 1, 1⟩).1 ⟨0, 0, 1, 5, -1, 0⟩
      ⟨⟨0, 0, 1, 5, -1, 0⟩, .wall, 1, ⟨1, 1, 0, 5, 1, 0⟩⟩ (by decide!) rfl).2.2.1,
    by
      obtain ⟨_, _, _, h, _⟩ :=
        (wall_event_resolution ⟨1, 1, 1⟩).2 ⟨1, 5, -1, 0, 0, 2, 0⟩ (by decide!)
      exact h⟩

/-! ## The loops and their ghost logs -/

theorem simBody_pre {p : Params} {s : SimState} {e : SimEvent} (h : simBody p s = some e) :
    e.pre = s ∧ e.post.collisions = s.collisions + 1 := by
  rcases simBody_cases p s with ⟨_, h'⟩ | ⟨dt, _, _, h'⟩ | ⟨dt, _, _, h'⟩ <;>
    rw [h'] at h <;> cases h <;> exact ⟨rfl, rfl⟩

/-- One unfolding of the batch loop. -/
theorem simLoop_succ (p : Params) (mc : Nat) (mt : ℚ) (fuel : Nat) (s : SimState) :
    simLoop p mc mt (fuel + 1) s =
      if s.collisions < mc ∧ s.t < mt then
        match simBody p s with
        | none => (s, [])
        | some e =>
          if separated e.post then (e.post, [e])
          else ((simLoop p mc mt fuel e.post).1, e :: (simLoop p mc mt fuel e.post).2)
      else (s, []) := rfl

/-- Every entry of the batch log is what `simBody` returned at the entry's pre-state. -/
theorem simLoop_log_body (p : Params) (mc : Nat) (mt : ℚ) :
    ∀ (fuel : Nat) (s : SimState), ∀ e ∈ (simLoop p mc mt fuel s).2, simBody p e.pre = some e := by
  intro fuel
  induction fuel with
  | zero => intro s e he; simp [simLoop] at he
  | succ n ih =>
    intro s e he
    rw [simLoop_succ] at he
    by_cases hg : s.collisions < mc ∧ s.t < mt
    · rw [if_pos hg] at he
      cases hb : simBody p s with
      | none => rw [hb] at he; simp at he
      | some e' =>
        rw [hb] at he
        have hpre := (simBody_pre hb).1
        by_cases hs : separated e'.post
        · simp only [hs, if_true, List.mem_singleton] at he
          subst he; rw [hpre]; exact hb
        · simp only [hs, if_false, List.mem_cons] at he
          rcases he with he | he
          · subst he; rw [hpre]; exact hb
          · exact ih _ _ he
    · rw [if_neg hg] at he; simp at he

/-- The batch counter is the entry value plus the number of logged events. -/
theorem simLoop_collisions (p : Params) (mc : Nat) (mt : ℚ) :
    ∀ (fuel : Nat) (s : SimState),
      (simLoop p mc mt fuel s).1.collisions = s.collisions + (simLoop p mc mt fuel s).2.length := by
  intro fuel
  induction fuel with
  | zero => intro s; simp [simLoop]
  | succ n ih =>
    intro s
    rw [simLoop_succ]
    by_cases hg : s.collisions < mc ∧ s.t < mt
    · rw [if_pos hg]
      cases hb : simBody p s with
      | none => simp
      | some e' =>
        have hc := (simBody_pre hb).2
        by_cases hs : separated e'.post
        · simp [hs, hc]
        · simp only [hs, if_false, List.length_cons]
          rw [ih, hc]; omega
    · rw [if_neg hg]; simp

theorem rtBody_pre (p : Params) (r : RTVars) : (rtBody p r).pre = r := by
  rcases rtBody_cases p r with ⟨_, h⟩ | ⟨_, _, _, _, _, h⟩ | ⟨_, _, _, _, _, h⟩ <;> rw [h]

theorem rtBody_iter (p : Params) (r : RTVars) : (rtBody p r).post.iter = r.iter + 1 := by
  rcases rtBody_cases p r with ⟨_, h⟩ | ⟨_, _, _, _, _, h⟩ | ⟨_, _, _, _, _, h⟩ <;> rw [h] <;> rfl

theorem rtBody_collisions (p : Params) (r : RTVars) :
    (rtBody p r).post.collisions = r.collisions + (if (rtBody p r).kind = none then 0 else 1) := by
  rcases rtBody_cases p r with ⟨_, h⟩ | ⟨_, _, _, _, _, h⟩ | ⟨_, _, _, _, _, h⟩ <;> rw [h] <;>
    simp [rtAdvance, rtClamp]

/-- One unfolding of the stepper loop. -/
theorem rtLoop_succ (p : Params) (fuel : Nat) (s : RTVars) :
    rtLoop p (fuel + 1) s =
      if s.timeLeft > EPS ∧ s.iter < MAX_EVENTS_PER_FRAME then
        match (rtBody p s).kind with
        | none => ((rtBody p s).post, [rtBody p s])
        | some _ => ((rtLoop p fuel (rtBody p s).post).1,
            rtBody p s :: (rtLoop p fuel (rtBody p s).post).2)
      else (s, []) := rfl

/-- Every entry of the stepper log is the pass `rtBody` makes from the entry's pre-state. -/
theorem rtLoop_log_body (p : Params) :
    ∀ (fuel : Nat) (s : RTVars), ∀ it ∈ (rtLoop p fuel s).2, it = rtBody p it.pre := by
  intro fuel
  induction fuel with
  | zero => intro s it hit; simp [rtLoop] at hit
  | succ n ih =>
    intro s it hit
    rw [rtLoop_succ] at hit
    by_cases hg : s.timeLeft > EPS ∧ s.iter < MAX_EVENTS_PER_FRAME
    · rw [if_pos hg] at hit
      cases hk : (rtBody p s).kind with
      | none =>
        rw [hk] at hit
        simp only [List.mem_singleton] at hit
        subst hit; rw [rtBody_pre]
      | some ev =>
        rw [hk] at hit
        simp only [List.mem_cons] at hit
        rcases hit with hit | hit
        · subst hit; rw [rtBody_pre]
        · exact ih _ _ hit
    · rw [if_neg hg] at hit; simp at hit

/-- The stepper counter is the entry value plus the number of logged events. -/
theorem rtLoop_collisions (p : Params) :
    ∀ (fuel : Nat) (s : RTVars),
      (rtLoop p fuel s).1.collisions = s.collisions + (rtEvents (rtLoop p fuel s).2).length := by
  intro fuel
  induction fuel with
  | zero => intro s; simp [rtLoop, rtEvents]
  | succ n ih =>
    intro s
    rw [rtLoop_succ]
    by_cases hg : s.timeLeft > EPS ∧ s.iter < MAX_EVENTS_PER_FRAME
    · rw [if_pos hg]
      have hc := rtBody_collisions p s
      cases hk : (rtBody p s).kind with
      | none =>
        rw [hk] at hc
        simp [rtEvents, hk, hc]
      | some ev =>
        rw [hk] at hc
        simp only [rtEvents, List.filterMap_cons, hk, List.length_cons]
        have := ih (rtBody p s).post
        simp only [rtEvents] at this
        rw [this, hc]; simp; omega
    · rw [if_neg hg]; simp [rtEvents]

/-! ## The event predictor -/

theorem timeToWall_nonneg {x1 v1 : ℚ} (h : 0 ≤ x1) : (timeToWall x1 v1).nonneg := by
  unfold timeToWall
  by_cases hv : v1 ≥ 0
  · simp [hv, Time.nonneg]
  · have hv' : v1 < 0 := not_le.mp hv
    simp only [hv, if_false, Time.nonneg]
    apply div_nonneg_of_nonpos
    · linarith
    · exact hv'.le

theorem timeToBlock_nonneg (size1 x1 x2 v1 v2 : ℚ) :
    (timeToBlock size1 x1 x2 v1 v2).nonneg := by
  unfold timeToBlock
  by_cases hg : x2 - (x1 + size1) ≤ EPS
  · by_cases hr : v1 - v2 > EPS <;> simp [hg, hr, Time.nonneg]
  · by_cases hr : v1 - v2 ≤ EPS
    · simp [hg, hr, Time.nonneg]
    · simp only [hg, hr, if_false, Time.nonneg]
      have h1 : 0 < x2 - (x1 + size1) := lt_trans EPS_pos (not_le.mp hg)
      have h2 : 0 < v1 - v2 := lt_trans EPS_pos (not_le.mp hr)
      exact (div_pos h1 h2).le

/-- C4: the event predictor of `simulateCollisions` equals the reference definition of the
specification for every state (`timeToWall` is `+∞` when `v1 ≥ 0` and `(0 − x1)/v1` when
`v1 < 0`; `timeToBlock` is `0`, `+∞`, `+∞` or `gap/relV` in the four cases on `gap ≤ ε` and
`relV ≤ ε`), and for every state with `x1 ≥ 0` each predicted time is `+∞` or a
non-negative number. -/
theorem predictor_matches_spec (size1 x1 x2 v1 v2 : ℚ) :
    timeToWall x1 v1 = specTimeToWall x1 v1 ∧
    timeToBlock size1 x1 x2 v1 v2 = specTimeToBlock size1 x1 x2 v1 v2 ∧
    (0 ≤ x1 → (timeToWall x1 v1).nonneg ∧ (timeToBlock size1 x1 x2 v1 v2).nonneg) := by
  refine ⟨?_, ?_, fun h => ⟨timeToWall_nonneg h, timeToBlock_nonneg _ _ _ _ _⟩⟩
  · unfold timeToWall specTimeToWall
    by_cases hv : v1 ≥ 0
    · have : ¬ v1 < 0 := not_lt.mpr hv
      simp [hv, this]
    · have : v1 < 0 := not_le.mp hv
      simp [hv, this]
  · unfold timeToBlock specTimeToBlock
    by_cases hg : x2 - (x1 + size1) ≤ EPS <;> by_cases hr : v1 - v2 ≤ EPS
    · have : ¬ v1 - v2 > EPS := not_lt.mpr hr
      simp [hg, hr, this]
    · have : v1 - v2 > EPS := not_le.mp hr
      simp [hg, hr, this]
    · have : x2 - (x1 + size1) > EPS := not_le.mp hg
      simp [hg, hr, this]
    · simp [hg, hr]

/-- Witness for C4: block 1 at `x1 = 2` moving at `-1`, block 2 at `x2 = 5` moving at
`-3`: the wall is 2 away in time, the contact 1. -/
theorem predictor_matches_spec_witness :
    (0 : ℚ) ≤ 2 ∧ timeToWall 2 (-1) = .fin 2 ∧ timeToBlock 1 2 5 (-1) (-3) = .fin 1 ∧
    (timeToWall 2 (-1)).nonneg ∧ (timeToBlock 1 2 5 (-1) (-3)).nonneg :=
  ⟨by norm_num, by decide!, by decide!,
    (predictor_matches_spec 1 2 5 (-1) (-3)).2.2 (by norm_num)⟩

/-! ## Stopping -/

/-- Under the stopping condition of line 67 neither event is predicted. -/
theorem separated_no_event (size1 : ℚ) (s : SimState) (h : separated s) :
    timeToWall s.x1 s.v1 = .inf ∧ timeToBlock size1 s.x1 s.x2 s.v1 s.v2 = .inf := by
  obtain ⟨h1, h2, h3⟩ := h
  constructor
  · simp [timeToWall, h1]
  · unfold timeToBlock
    have hr : s.v1 - s.v2 ≤ EPS := by have := EPS_pos; linarith
    have hr' : ¬ s.v1 - s.v2 > EPS := not_lt.mpr hr
    by_cases hg : s.x2 - (s.x1 + size1) ≤ EPS <;> simp [hg, hr, hr']

/-- A batch loop that has fuel for every collision still allowed, and returns below both
caps, returns in a state from which no event is predicted. -/
theorem simLoop_uncapped (p : Params) (mc : Nat) (mt : ℚ) :
    ∀ (fuel : Nat) (s : SimState), mc ≤ s.collisions + fuel →
      (simLoop p mc mt fuel s).1.collisions < mc → (simLoop p mc mt fuel s).1.t < mt →
      timeToWall (simLoop p mc mt fuel s).1.x1 (simLoop p mc mt fuel s).1.v1 = .inf ∧
      timeToBlock p.size1 (simLoop p mc mt fuel s).1.x1 (simLoop p mc mt fuel s).1.x2
        (simLoop p mc mt fuel s).1.v1 (simLoop p mc mt fuel s).1.v2 = .inf := by
  intro fuel
  induction fuel with
  | zero =>
    intro s hf hc _
    simp only [simLoop] at hc
    omega
  | succ n ih =>
    intro s hf
    rw [simLoop_succ]
    by_cases hg : s.collisions < mc ∧ s.t < mt
    · rw [if_pos hg]
      cases hb : simBody p s with
      | none =>
        intro _ _
        rcases simBody_cases p s with ⟨hmin, _⟩ | ⟨dt, _, _, h'⟩ | ⟨dt, _, _, h'⟩
        · exact mathMin_eq_inf.mp hmin
        · rw [h'] at hb; cases hb
        · rw [h'] at hb; cases hb
      | some e =>
        have hc := (simBody_pre hb).2
        by_cases hs : separated e.post
        · simp only [hs, if_true]
          intro _ _
          exact separated_no_event p.size1 e.post hs
        · simp only [hs, if_false]
          exact ih e.post (by omega)
    · rw [if_neg hg]
      intro hc ht
      exact absurd ⟨hc, ht⟩ hg

/-! ## Termination and the safety caps -/

/-- Fuel beyond the number of collisions still allowed does not change the batch loop. -/
theorem simLoop_fuel_irrelevant (p : Params) (mc : Nat) (mt : ℚ) :
    ∀ (fuel₁ fuel₂ : Nat) (s : SimState), mc ≤ s.collisions + fuel₁ → mc ≤ s.collisions + fuel₂ →
      simLoop p mc mt fuel₁ s = simLoop p mc mt fuel₂ s := by
  have stop : ∀ (fuel : Nat) (s : SimState), mc ≤ s.collisions → simLoop p mc mt fuel s = (s, []) := by
    intro fuel s h
    cases fuel with
    | zero => rfl
    | succ n =>
      rw [simLoop_succ]
      have : ¬ (s.collisions < mc ∧ s.t < mt) := fun hg => by omega
      rw [if_neg this]
  intro fuel₁
  induction fuel₁ with
  | zero =>
    intro fuel₂ s h1 _
    rw [stop 0 s (by omega), stop fuel₂ s (by omega)]
  | succ n ih =>
    intro fuel₂ s h1 h2
    cases fuel₂ with
    | zero => rw [stop (n + 1) s (by omega), stop 0 s (by omega)]
    | succ m =>
      rw [simLoop_succ, simLoop_succ]
      by_cases hg : s.collisions < mc ∧ s.t < mt
      · rw [if_pos hg, if_pos hg]
        cases hb : simBody p s with
        | none => rfl
        | some e =>
          have hc := (simBody_pre hb).2
          by_cases hs : separated e.post
          · simp only [hs, if_true]
          · simp only [hs, if_false]
            rw [ih m e.post (by omega) (by omega)]
      · rw [if_neg hg, if_neg hg]

/-- The batch counter never passes the cap it started below. -/
theorem simLoop_le_cap (p : Params) (mc : Nat) (mt : ℚ) :
    ∀ (fuel : Nat) (s : SimState), s.collisions ≤ mc →
      (simLoop p mc mt fuel s).1.collisions ≤ mc := by
  intro fuel
  induction fuel with
  | zero => intro s h; exact h
  | succ n ih =>
    intro s h
    rw [simLoop_succ]
    by_cases hg : s.collisions < mc ∧ s.t < mt
    · rw [if_pos hg]
      cases hb : simBody p s with
      | none => exact h
      | some e =>
        have hc := (simBody_pre hb).2
        by_cases hs : separated e.post
        · simp only [hs, if_true]; omega
        · simp only [hs, if_false]
          exact ih e.post (by omega)
    · rw [if_neg hg]; exact h

/-- C6: for every natural `maxCollisions`, every `maxTime` and every initial state the loop
of `simulateCollisions` stops by itself (any fuel of at least `maxCollisions` gives the same
run) after at most `maxCollisions` passes that resolve an event, and the returned
`collisions` is at most `maxCollisions`; when `maxCollisions = 0` or `maxTime ≤ 0` the
initial `x1, x2, v1, v2` are returned unchanged with `collisions = 0` and `t = 0`; the
caps default to `5,000,000` and `1e9`. -/
theorem simulateCollisions_bounded (a : SimArgs) :
    (∀ fuel, a.maxCollisions ≤ fuel →
      simLoop a.params a.maxCollisions a.maxTime fuel a.init = simRun a) ∧
    (simRun a).2.length ≤ a.maxCollisions ∧
    (simulateCollisions a).collisions ≤ a.maxCollisions ∧
    (a.maxCollisions = 0 ∨ a.maxTime ≤ 0 →
      simulateCollisions a = ⟨0, 0, a.x1, a.x2, a.v1, a.v2⟩ ∧ (simRun a).2 = []) ∧
    ({} : SimArgs).maxCollisions = 5000000 ∧ ({} : SimArgs).maxTime = 1000000000 := by
  have hcap := simLoop_le_cap a.params a.maxCollisions a.maxTime a.maxCollisions a.init
    (Nat.zero_le _)
  have hlen := simLoop_collisions a.params a.maxCollisions a.maxTime a.maxCollisions a.init
  refine ⟨?_, ?_, hcap, ?_, rfl, rfl⟩
  · intro fuel hf
    exact simLoop_fuel_irrelevant _ _ _ fuel a.maxCollisions a.init
      (by simp only [SimArgs.init]; omega) (by simp [SimArgs.init])
  · have h0 : a.init.collisions = 0 := rfl
    have : (simRun a).2.length = (simLoop a.params a.maxCollisions a.maxTime a.maxCollisions
        a.init).1.collisions := by
      rw [hlen, h0, Nat.zero_add]; rfl
    rw [this]; exact hcap
  · intro h
    have key : simRun a = (a.init, []) := by
      unfold simRun
      cases hm : a.maxCollisions with
      | zero => rfl
      | succ n =>
        rw [simLoop_succ]
        have ht : a.maxTime ≤ 0 := by
          rcases h with h | h
          · omega
          · exact h
        have : ¬ (a.init.collisions < n + 1 ∧ a.init.t < a.maxTime) := by
          intro hg
          have h2 : a.init.t < a.maxTime := hg.2
          have h3 : a.init.t = 0 := rfl
          rw [h3] at h2
          exact absurd h2 (not_lt.mpr ht)
        rw [if_neg this]
    simp only [simulateCollisions, key]
    exact ⟨rfl, trivial⟩

/-- Witness for C6: the default scene with the time cap set to 0 is returned untouched. -/
theorem simulateCollisions_bounded_witness :
    (({ maxTime := 0 } : SimArgs).maxCollisions = 0 ∨ ({ maxTime := 0 } : SimArgs).maxTime ≤ 0) ∧
    simulateCollisions { maxTime := 0 } = ⟨0, 0, 2, 5, 0, -1⟩ ∧
    (simRun { maxTime := 0 }).2 = [] :=
  ⟨Or.inr (by decide!),
    (simulateCollisions_bounded { maxTime := 0 }).2.2.2.1 (Or.inr (by decide!))⟩

/-- Fuel beyond the number of passes still allowed does not change the stepper loop. -/
theorem rtLoop_fuel_irrelevant (p : Params) :
    ∀ (fuel₁ fuel₂ : Nat) (s : RTVars), MAX_EVENTS_PER_FRAME ≤ s.iter + fuel₁ →
      MAX_EVENTS_PER_FRAME ≤ s.iter + fuel₂ → rtLoop p fuel₁ s = rtLoop p fuel₂ s := by
  have stop : ∀ (fuel : Nat) (s : RTVars), MAX_EVENTS_PER_FRAME ≤ s.iter →
      rtLoop p fuel s = (s, []) := by
    intro fuel s h
    cases fuel with
    | zero => rfl
    | succ n =>
      rw [rtLoop_succ]
      have : ¬ (s.timeLeft > EPS ∧ s.iter < MAX_EVENTS_PER_FRAME) := fun hg => by omega
      rw [if_neg this]
  intro fuel₁
  induction fuel₁ with
  | zero =>
    intro fuel₂ s h1 _
    rw [stop 0 s (by omega), stop fuel₂ s (by omega)]
  | succ n ih =>
    intro fuel₂ s h1 h2
    cases fuel₂ with
    | zero => rw [stop (n + 1) s (by omega), stop 0 s (by omega)]
    | succ m =>
      rw [rtLoop_succ, rtLoop_succ]
      by_cases hg : s.timeLeft > EPS ∧ s.iter < MAX_EVENTS_PER_FRAME
      · rw [if_pos hg, if_pos hg]
        have hi := rtBody_iter p s
        cases hk : (rtBody p s).kind with
        | none => rfl
        | some ev =>
          simp only
          rw [ih m (rtBody p s).post (by omega) (by omega)]
      · rw [if_neg hg, if_neg hg]

/-- The stepper's `iter` counts the passes made and never passes the cap it started
below. -/
theorem rtLoop_iter (p : Params) :
    ∀ (fuel : Nat) (s : RTVars),
      (rtLoop p fuel s).1.iter = s.iter + (rtLoop p fuel s).2.length ∧
      (s.iter ≤ MAX_EVENTS_PER_FRAME → (rtLoop p fuel s).1.iter ≤ MAX_EVENTS_PER_FRAME) := by
  intro fuel
  induction fuel with
  | zero => intro s; simp [rtLoop]
  | succ n ih =>
    intro s
    rw [rtLoop_succ]
    by_cases hg : s.timeLeft > EPS ∧ s.iter < MAX_EVENTS_PER_FRAME
    · rw [if_pos hg]
      have hi := rtBody_iter p s
      cases hk : (rtBody p s).kind with
      | none =>
        simp only [List.length_singleton]
        exact ⟨hi, fun _ => by omega⟩
      | some ev =>
        simp only [List.length_cons]
        obtain ⟨h1, h2⟩ := ih (rtBody p s).post
        exact ⟨by omega, fun _ => h2 (by omega)⟩
    · rw [if_neg hg]; simp

/-- C7: for every state, params and `dt`, the loop of `stepRealtime` stops by itself (any
fuel of at least 80 gives the same run) after at most 80 passes, resolves at most 80 events
in one call, and the returned `collisions` is at most the input `collisions + 80`. -/
theorem stepRealtime_bounded (st : SimulationState) (p : Params) (dt : ℚ) :
    (∀ fuel, 80 ≤ fuel → rtLoop p fuel (rtInit st dt) = rtRun st p dt) ∧
    (rtRun st p dt).2.length ≤ 80 ∧
    (rtRun st p dt).1.iter ≤ 80 ∧
    (rtEvents (rtRun st p dt).2).length ≤ 80 ∧
    (stepRealtime st p dt).collisions ≤ st.collisions + 80 := by
  have hM : MAX_EVENTS_PER_FRAME = 80 := rfl
  obtain ⟨h1, h2⟩ := rtLoop_iter p MAX_EVENTS_PER_FRAME (rtInit st dt)
  have h0 : (rtInit st dt).iter = 0 := rfl
  have h2' := h2 (by omega)
  have hlen : (rtRun st p dt).2.length ≤ 80 := by
    unfold rtRun; omega
  have hev : (rtEvents (rtRun st p dt).2).length ≤ 80 :=
    le_trans (List.length_filterMap_le _ _) hlen
  have hc : (stepRealtime st p dt).collisions =
      st.collisions + (rtEvents (rtRun st p dt).2).length :=
    rtLoop_collisions p MAX_EVENTS_PER_FRAME (rtInit st dt)
  refine ⟨?_, hlen, ?_, hev, by omega⟩
  · intro fuel hf
    exact rtLoop_fuel_irrelevant p fuel MAX_EVENTS_PER_FRAME (rtInit st dt)
      (by omega) (by omega)
  · unfold rtRun; omega

/-- Witness for C7: with a fuel of 100 the stepper makes the same run as with 80, here
from the default scene with a budget of 3. -/
theorem stepRealtime_bounded_witness :
    (80 : Nat) ≤ 100 ∧
    rtLoop ⟨1, 100, 1⟩ 100 (rtInit ⟨2, 4, 0, -1, 0⟩ 3) = rtRun ⟨2, 4, 0, -1, 0⟩ ⟨1, 100, 1⟩ 3 :=
  ⟨by decide, (stepRealtime_bounded ⟨2, 4, 0, -1, 0⟩ ⟨1, 100, 1⟩ 3).1 100 (by decide)⟩

/-! ## A call with no event due -/

theorem exceeds_mathMin {a b : Time} {dt : ℚ} :
    (mathMin a b).exceeds dt ↔ a.exceeds dt ∧ b.exceeds dt := by
  cases a <;> cases b <;> simp [mathMin, Time.exceeds]

/-- Whatever lies beyond the budget for the batch wall predictor does for the stepper's. -/
theorem rtDtWall_exceeds {x1 v1 dt : ℚ} (h : (timeToWall x1 v1).exceeds dt) :
    (rtDtWall x1 v1).exceeds dt := by
  unfold rtDtWall
  by_cases hv : v1 < -EPS
  · have hneg : ¬ v1 ≥ 0 := by have := EPS_pos; intro h0; linarith
    simp only [timeToWall, hneg, if_false] at h
    simpa [hv] using h
  · simp [hv, Time.exceeds]

theorem not_withinBudget_of_exceeds {next : Time} {dt : ℚ} (h : next.exceeds dt) :
    ¬ withinBudget next dt := by
  cases next with
  | inf => simp [withinBudget]
  | fin d =>
    intro hw
    have h1 : dt < d := h
    have h2 : d ≤ dt := hw.2
    exact absurd h1 (not_lt.mpr h2)

/-- C8: for every state and params and every `dt > ε`, if the smaller of the two predicted
event times on the input state exceeds `dt` (both may be `+∞`), whether predicted as in
`stepRealtime` or as in `simulateCollisions`, then `stepRealtime` resolves no event: it
returns `x1 + v1·dt` and `x2 + v2·dt` with `v1`, `v2` and `collisions` unchanged. -/
theorem no_event_due (st : SimulationState) (p : Params) (dt : ℚ) (hdt : EPS < dt)
    (h : (rtNext p (rtInit st dt)).exceeds dt ∨
      (mathMin (timeToWall st.x1 st.v1)
        (timeToBlock p.size1 st.x1 st.x2 st.v1 st.v2)).exceeds dt) :
    stepRealtime st p dt =
      ⟨st.x1 + st.v1 * dt, st.x2 + st.v2 * dt, st.v1, st.v2, st.collisions⟩ ∧
    rtEvents (rtRun st p dt).2 = [] := by
  have hex : (rtNext p (rtInit st dt)).exceeds dt := by
    rcases h with h | h
    · exact h
    · obtain ⟨hw, hb⟩ := exceeds_mathMin.mp h
      unfold rtNext
      refine exceeds_mathMin.mpr ⟨rtDtWall_exceeds hw, ?_⟩
      rw [rtDtBlock_eq]; exact hb
  have hnw : ¬ withinBudget (rtNext p (rtInit st dt)) (rtInit st dt).timeLeft :=
    not_withinBudget_of_exceeds hex
  have hbody : rtBody p (rtInit st dt) =
      ⟨rtInit st dt, none, rtAdvance (rtInit st dt), rtAdvance (rtInit st dt)⟩ := by
    rcases rtBody_cases p (rtInit st dt) with ⟨_, hb⟩ | ⟨n, hn, h0, h1, _, _⟩ | ⟨n, hn, h0, h1, _, _⟩
    · exact hb
    · rw [hn] at hnw; exact absurd ⟨h0, h1⟩ hnw
    · rw [hn] at hnw; exact absurd ⟨h0, h1⟩ hnw
  have hg : (rtInit st dt).timeLeft > EPS ∧ (rtInit st dt).iter < MAX_EVENTS_PER_FRAME :=
    ⟨hdt, show 0 < 80 by decide⟩
  have hrun : rtRun st p dt =
      (rtAdvance (rtInit st dt), [rtBody p (rtInit st dt)]) := by
    unfold rtRun
    rw [show MAX_EVENTS_PER_FRAME = 79 + 1 from rfl, rtLoop_succ, if_pos hg, hbody]
  constructor
  · simp only [stepRealtime, hrun, rtAdvance, rtInit]
  · rw [hrun, hbody]; rfl

/-- Witness for C8: the default scene (contact after 1 time unit) stepped by `1/2`. -/
theorem no_event_due_witness :
    EPS < 1 / 2 ∧ (rtNext ⟨1, 100, 1⟩ (rtInit ⟨2, 4, 0, -1, 0⟩ (1 / 2))).exceeds (1 / 2) ∧
    stepRealtime ⟨2, 4, 0, -1, 0⟩ ⟨1, 100, 1⟩ (1 / 2) = ⟨2, 7 / 2, 0, -1, 0⟩ := by
  have h1 : EPS < 1 / 2 := by norm_num [EPS]
  have h2 : (rtNext ⟨1, 100, 1⟩ (rtInit ⟨2, 4, 0, -1, 0⟩ (1 / 2))).exceeds (1 / 2) := by
    norm_num [rtNext, rtInit, rtDtWall, rtDtBlock, mathMin, Time.exceeds, EPS]
  have h3 := (no_event_due ⟨2, 4, 0, -1, 0⟩ ⟨1, 100, 1⟩ (1 / 2) h1 (Or.inl h2)).1
  norm_num at h3
  exact ⟨h1, h2, h3⟩

/-! ## Position invariants -/

theorem mathMin_le {a b : Time} {d : ℚ} (h : mathMin a b = .fin d) :
    (∀ e, a = .fin e → d ≤ e) ∧ (∀ e, b = .fin e → d ≤ e) := by
  rcases mathMin_fin h with ⟨ha, hb⟩ | ⟨hb, ha⟩
  · refine ⟨fun e he => ?_, fun e he => ?_⟩
    · rw [ha] at he; cases he; exact le_refl _
    · rcases hb with hb | ⟨e', hb, hle⟩
      · rw [hb] at he; cases he
      · rw [hb] at he; cases he; exact hle
  · refine ⟨fun e he => ?_, fun e he => ?_⟩
    · rcases ha with ha | ⟨e', ha, hle⟩
      · rw [ha] at he; cases he
      · rw [ha] at he; cases he; exact hle
    · rw [hb] at he; cases he; exact le_refl _

/-- When the batch wall predictor answers a finite time, block 1 moves towards the wall
and reaches `x = 0` at exactly that time. -/
theorem timeToWall_fin {x1 v1 d : ℚ} (h : timeToWall x1 v1 = .fin d) :
    v1 < 0 ∧ v1 * d = -x1 := by
  unfold timeToWall at h
  by_cases hv : v1 ≥ 0
  · simp [hv] at h
  · have hv' : v1 < 0 := not_le.mp hv
    simp only [hv, if_false, Time.fin.injEq] at h
    have hne : v1 ≠ 0 := ne_of_lt hv'
    refine ⟨hv', ?_⟩
    rw [← h, mul_div_cancel₀ _ hne]; ring

theorem timeToWall_inf {x1 v1 : ℚ} (h : timeToWall x1 v1 = .inf) : 0 ≤ v1 := by
  unfold timeToWall at h
  by_cases hv : v1 ≥ 0
  · exact hv
  · simp [hv] at h

theorem rtDtWall_fin {x1 v1 d : ℚ} (h : rtDtWall x1 v1 = .fin d) :
    v1 < 0 ∧ v1 * d = -x1 := by
  unfold rtDtWall at h
  by_cases hv : v1 < -EPS
  · have hv' : v1 < 0 := by have := EPS_pos; linarith
    simp only [hv, if_true, Time.fin.injEq] at h
    have hne : v1 ≠ 0 := ne_of_lt hv'
    refine ⟨hv', ?_⟩
    rw [← h, mul_div_cancel₀ _ hne]; ring
  · simp [hv] at h

theorem rtDtWall_inf {x1 v1 : ℚ} (hs : ¬ slowToWall v1) (h : rtDtWall x1 v1 = .inf) :
    0 ≤ v1 := by
  unfold rtDtWall at h
  by_cases hv : v1 < -EPS
  · simp [hv] at h
  · by_contra hneg
    exact hs ⟨not_lt.mp hv, not_le.mp hneg⟩

/-- When the block predictor answers a finite time from a non-overlapping state, the
blocks close in, and at that time the gap is used up (or the time is 0). -/
theorem timeToBlock_fin {size1 x1 x2 v1 v2 d : ℚ}
    (h : timeToBlock size1 x1 x2 v1 v2 = .fin d) (hgap : x1 + size1 ≤ x2) :
    0 < v1 - v2 ∧ 0 ≤ d ∧ (v1 - v2) * d ≤ x2 - (x1 + size1) ∧
      (d = 0 ∨ (v1 - v2) * d = x2 - (x1 + size1)) := by
  unfold timeToBlock at h
  by_cases hg : x2 - (x1 + size1) ≤ EPS
  · by_cases hr : v1 - v2 > EPS
    · simp only [hg, hr, if_true, Time.fin.injEq] at h
      subst h
      refine ⟨lt_trans EPS_pos hr, le_refl _, ?_, Or.inl rfl⟩
      rw [mul_zero]; linarith
    · simp [hg, hr] at h
  · by_cases hr : v1 - v2 ≤ EPS
    · simp [hg, hr] at h
    · simp only [hg, hr, if_false, Time.fin.injEq] at h
      have h2 : 0 < v1 - v2 := lt_trans EPS_pos (not_le.mp hr)
      have h1 : 0 < x2 - (x1 + size1) := lt_trans EPS_pos (not_le.mp hg)
      have hmul : (v1 - v2) * d = x2 - (x1 + size1) := by
        rw [← h]; field_simp
      refine ⟨h2, ?_, le_of_eq hmul, Or.inr hmul⟩
      rw [← h]; exact (div_pos h1 h2).le

theorem timeToBlock_inf {size1 x1 x2 v1 v2 : ℚ} (hs : ¬ slowClosing v1 v2)
    (h : timeToBlock size1 x1 x2 v1 v2 = .inf) : v1 - v2 ≤ 0 := by
  unfold timeToBlock at h
  have key : v1 - v2 ≤ EPS := by
    by_cases hg : x2 - (x1 + size1) ≤ EPS
    · by_cases hr : v1 - v2 > EPS
      · simp [hg, hr] at h
      · exact not_lt.mp hr
    · by_cases hr : v1 - v2 ≤ EPS
      · exact hr
      · simp [hg, hr] at h
  by_contra hpos
  exact hs ⟨not_le.mp hpos, key⟩

/-- Advancing block 1 by a time `τ ≥ 0` that does not pass the predicted wall time keeps
it on the track.  The wall predictor `w` is any that answers `Infinity` only when block 1
does not move towards the wall, and otherwise the exact arrival time. -/
theorem advance_keeps_track {x1 v1 τ : ℚ} {w : Time} (hx : 0 ≤ x1) (hτ : 0 ≤ τ)
    (hinf : w = .inf → 0 ≤ v1) (hfin : ∀ d, w = .fin d → v1 < 0 ∧ v1 * d = -x1)
    (hle : ∀ d, w = .fin d → τ ≤ d) : 0 ≤ x1 + v1 * τ := by
  cases hw : w with
  | inf =>
    have := hinf hw
    have := mul_nonneg this hτ
    linarith
  | fin d =>
    obtain ⟨hv, hd⟩ := hfin d hw
    have h1 : τ ≤ d := hle d hw
    have h2 : v1 * d ≤ v1 * τ := mul_le_mul_of_nonpos_left h1 hv.le
    linarith

/-- Advancing both blocks by a time `τ ≥ 0` that does not pass the predicted block time
keeps them from overlapping, outside the slow-closing band. -/
theorem advance_keeps_gap {size1 x1 x2 v1 v2 τ : ℚ} (hgap : x1 + size1 ≤ x2) (hτ : 0 ≤ τ)
    (hs : ¬ slowClosing v1 v2)
    (hle : ∀ d, timeToBlock size1 x1 x2 v1 v2 = .fin d → τ ≤ d) :
    x1 + v1 * τ + size1 ≤ x2 + v2 * τ := by
  cases hb : timeToBlock size1 x1 x2 v1 v2 with
  | inf =>
    have h1 := timeToBlock_inf hs hb
    have h2 : (v1 - v2) * τ ≤ 0 := mul_nonpos_of_nonpos_of_nonneg h1 hτ
    linarith
  | fin d =>
    obtain ⟨hr, _, hd, _⟩ := timeToBlock_fin hb hgap
    have h1 : τ ≤ d := hle d hb
    have h2 : (v1 - v2) * τ ≤ (v1 - v2) * d := mul_le_mul_of_nonneg_left h1 hr.le
    linarith

/-- One resolved event of the batch loop keeps block 1 on the track and the blocks apart,
outside the slow-closing band. -/
theorem simBody_wellPlaced {p : Params} {s : SimState} {e : SimEvent}
    (h : simBody p s = some e) (hinv : wellPlaced p.size1 s.x1 s.x2)
    (hs : ¬ slowClosing s.v1 s.v2) : wellPlaced p.size1 e.post.x1 e.post.x2 := by
  obtain ⟨hx, hgap⟩ := hinv
  rcases simBody_cases p s with ⟨_, h'⟩ | ⟨dt, hmin, hw, h'⟩ | ⟨dt, hmin, hw, h'⟩
  · rw [h'] at h; cases h
  · rw [h'] at h; cases h
    obtain ⟨_, hmb⟩ := mathMin_le hmin
    obtain ⟨hv, hd⟩ := timeToWall_fin hw
    have hdt : 0 ≤ dt := by
      have := @timeToWall_nonneg s.x1 s.v1 hx
      rw [hw] at this; exact this
    have := advance_keeps_gap hgap hdt hs hmb
    refine ⟨le_refl _, ?_⟩
    show 0 + p.size1 ≤ s.x2 + s.v2 * dt
    linarith
  · rw [h'] at h; cases h
    obtain ⟨hmw, _⟩ := mathMin_le hmin
    have hb : timeToBlock p.size1 s.x1 s.x2 s.v1 s.v2 = .fin dt := by
      rcases mathMin_fin hmin with ⟨ha, _⟩ | ⟨hb, _⟩
      · exact absurd ha hw
      · exact hb
    obtain ⟨_, hdt, _, hd⟩ := timeToBlock_fin hb hgap
    refine ⟨?_, ?_⟩
    · show 0 ≤ s.x2 + s.v2 * dt - p.size1
      rcases hd with hd | hd
      · subst hd; linarith
      · have := @advance_keeps_track s.x1 s.v1 dt (timeToWall s.x1 s.v1) hx hdt timeToWall_inf
          (fun d hd' => timeToWall_fin hd') hmw
        linarith
    · show s.x2 + s.v2 * dt - p.size1 + p.size1 ≤ s.x2 + s.v2 * dt
      linarith

/-- Right after a block event of the batch loop the blocks touch exactly. -/
theorem simBody_block_contact {p : Params} {s : SimState} {e : SimEvent}
    (h : simBody p s = some e) (hk : e.kind = .block) : e.post.x1 + p.size1 = e.post.x2 := by
  rcases simBody_cases p s with ⟨_, h'⟩ | ⟨dt, _, _, h'⟩ | ⟨dt, _, _, h'⟩
  · rw [h'] at h; cases h
  · rw [h'] at h; cases h; cases hk
  · rw [h'] at h; cases h
    show s.x2 + s.v2 * dt - p.size1 + p.size1 = s.x2 + s.v2 * dt
    ring

/-- The batch loop keeps the position invariants when no logged event starts in the
slow-closing band. -/
theorem simLoop_wellPlaced (p : Params) (mc : Nat) (mt : ℚ) :
    ∀ (fuel : Nat) (s : SimState), wellPlaced p.size1 s.x1 s.x2 →
      (∀ e ∈ (simLoop p mc mt fuel s).2, ¬ slowClosing e.pre.v1 e.pre.v2) →
      wellPlaced p.size1 (simLoop p mc mt fuel s).1.x1 (simLoop p mc mt fuel s).1.x2 := by
  intro fuel
  induction fuel with
  | zero => intro s h _; exact h
  | succ n ih =>
    intro s hinv
    rw [simLoop_succ]
    by_cases hg : s.collisions < mc ∧ s.t < mt
    · rw [if_pos hg]
      cases hb : simBody p s with
      | none => intro _; exact hinv
      | some e =>
        have hpre := (simBody_pre hb).1
        by_cases hsep : separated e.post
        · simp only [hsep, if_true, List.mem_singleton]
          intro hlog
          have := hlog e rfl
          rw [hpre] at this
          exact simBody_wellPlaced hb hinv this
        · simp only [hsep, if_false, List.mem_cons]
          intro hlog
          have h0 := hlog e (Or.inl rfl)
          rw [hpre] at h0
          exact ih e.post (simBody_wellPlaced hb hinv h0) (fun e' he' => hlog e' (Or.inr he'))
    · rw [if_neg hg]; intro _; exact hinv

theorem rtNext_eq (p : Params) (r : RTVars) :
    rtNext p r = mathMin (rtDtWall r.x1 r.v1) (timeToBlock p.size1 r.x1 r.x2 r.v1 r.v2) := by
  unfold rtNext; rw [rtDtBlock_eq]

theorem rtDtWall_fin_nonneg {x1 v1 d : ℚ} (hx : 0 ≤ x1) (h : rtDtWall x1 v1 = .fin d) :
    0 ≤ d := by
  obtain ⟨hv, hd⟩ := rtDtWall_fin h
  by_contra hneg
  have : 0 < v1 * d := mul_pos_of_neg_of_neg hv (not_le.mp hneg)
  linarith

/-- One pass of the stepper loop keeps block 1 on the track and the blocks apart, outside
the two slow bands. -/
theorem rtBody_wellPlaced (p : Params) (r : RTVars) (hinv : wellPlaced p.size1 r.x1 r.x2)
    (hτ : 0 ≤ r.timeLeft) (hsw : ¬ slowToWall r.v1) (hsc : ¬ slowClosing r.v1 r.v2) :
    wellPlaced p.size1 (rtBody p r).post.x1 (rtBody p r).post.x2 := by
  obtain ⟨hx, hgap⟩ := hinv
  have hwinf : rtDtWall r.x1 r.v1 = .inf → 0 ≤ r.v1 := rtDtWall_inf hsw
  have hwfin : ∀ d, rtDtWall r.x1 r.v1 = .fin d → r.v1 < 0 ∧ r.v1 * d = -r.x1 :=
    fun d hd => rtDtWall_fin hd
  rcases rtBody_cases p r with ⟨hnw, h⟩ | ⟨next, hn, h0, _, hw, h⟩ | ⟨next, hn, h0, _, hw, h⟩
  · rw [h]
    show wellPlaced p.size1 (r.x1 + r.v1 * r.timeLeft) (r.x2 + r.v2 * r.timeLeft)
    rw [rtNext_eq] at hnw
    have hle : (∀ d, rtDtWall r.x1 r.v1 = .fin d → r.timeLeft ≤ d) ∧
        (∀ d, timeToBlock p.size1 r.x1 r.x2 r.v1 r.v2 = .fin d → r.timeLeft ≤ d) := by
      cases hm : mathMin (rtDtWall r.x1 r.v1) (timeToBlock p.size1 r.x1 r.x2 r.v1 r.v2) with
      | inf =>
        obtain ⟨ha, hb⟩ := mathMin_eq_inf.mp hm
        refine ⟨fun d hd => ?_, fun d hd => ?_⟩
        · rw [ha] at hd; cases hd
        · rw [hb] at hd; cases hd
      | fin d =>
        rw [hm] at hnw
        have hd0 : 0 ≤ d := by
          rcases mathMin_fin hm with ⟨ha, _⟩ | ⟨hb, _⟩
          · exact rtDtWall_fin_nonneg hx ha
          · exact (timeToBlock_fin hb hgap).2.1
        have hlt : r.timeLeft < d := by
          by_contra hcon
          exact hnw ⟨hd0, not_lt.mp hcon⟩
        obtain ⟨h1, h2⟩ := mathMin_le hm
        exact ⟨fun e he => le_trans hlt.le (h1 e he), fun e he => le_trans hlt.le (h2 e he)⟩
    exact ⟨advance_keeps_track hx hτ hwinf hwfin hle.1, advance_keeps_gap hgap hτ hsc hle.2⟩
  · rw [h]
    rw [rtNext_eq] at hn
    obtain ⟨_, hmb⟩ := mathMin_le hn
    obtain ⟨hv, hd⟩ := rtDtWall_fin hw
    have := advance_keeps_gap hgap h0 hsc hmb
    have hres : wellPlaced p.size1 0 (r.x2 + r.v2 * next) := ⟨le_refl _, by linarith⟩
    rw [rtClamp_of_wellPlaced _ _ hres]
    exact hres
  · rw [h]
    rw [rtNext_eq] at hn
    obtain ⟨hmw, _⟩ := mathMin_le hn
    have hb : timeToBlock p.size1 r.x1 r.x2 r.v1 r.v2 = .fin next := by
      rcases mathMin_fin hn with ⟨ha, _⟩ | ⟨hb, _⟩
      · exact absurd ha hw
      · exact hb
    obtain ⟨_, _, _, hd⟩ := timeToBlock_fin hb hgap
    have hres : wellPlaced p.size1 (r.x2 + r.v2 * next - p.size1) (r.x2 + r.v2 * next) := by
      refine ⟨?_, by linarith⟩
      rcases hd with hd | hd
      · subst hd; linarith
      · have := advance_keeps_track hx h0 hwinf hwfin hmw
        linarith
    rw [rtClamp_of_wellPlaced _ _ hres]
    exact hres

/-- The stepper loop keeps the position invariants when no logged pass starts in a slow
band. -/
theorem rtLoop_wellPlaced (p : Params) :
    ∀ (fuel : Nat) (s : RTVars), wellPlaced p.size1 s.x1 s.x2 →
      (∀ it ∈ (rtLoop p fuel s).2, ¬ slowToWall it.pre.v1 ∧ ¬ slowClosing it.pre.v1 it.pre.v2) →
      wellPlaced p.size1 (rtLoop p fuel s).1.x1 (rtLoop p fuel s).1.x2 := by
  intro fuel
  induction fuel with
  | zero => intro s h _; exact h
  | succ n ih =>
    intro s hinv
    rw [rtLoop_succ]
    by_cases hg : s.timeLeft > EPS ∧ s.iter < MAX_EVENTS_PER_FRAME
    · rw [if_pos hg]
      have hτ : 0 ≤ s.timeLeft := (lt_trans EPS_pos hg.1).le
      have hpre := rtBody_pre p s
      cases hk : (rtBody p s).kind with
      | none =>
        simp only [List.mem_singleton]
        intro hlog
        have h0 := hlog _ rfl
        rw [hpre] at h0
        exact rtBody_wellPlaced p s hinv hτ h0.1 h0.2
      | some ev =>
        simp only [List.mem_cons]
        intro hlog
        have h0 := hlog _ (Or.inl rfl)
        rw [hpre] at h0
        exact ih _ (rtBody_wellPlaced p s hinv hτ h0.1 h0.2)
          (fun it hit => hlog it (Or.inr hit))
    · rw [if_neg hg]; intro _; exact hinv

/-! ## The concrete scenarios -/

/-- C11: with `m1 = 1`, `size1 = 1`, `size2 = 2`, `x1 = 2`, `x2 = 5`, `v1 = 0`, `v2 = −1` and
the default caps, `simulateCollisions` stops by the separation condition, below both caps,
with `collisions = 3` for `m2 = 1` and `collisions = 31` for `m2 = 100`. -/
theorem concrete_scenarios :
    (simulateCollisions { m1 := 1, m2 := 1, x1 := 2, x2 := 5, v1 := 0, v2 := -1, size1 := 1, size2 := 2 }).collisions = 3 ∧
    separated (simulateCollisions (scenario 1)) ∧
    (simulateCollisions (scenario 1)).collisions = 3 ∧
    (simulateCollisions (scenario 1)).collisions < (scenario 1).maxCollisions ∧
    (simulateCollisions (scenario 1)).t < (scenario 1).maxTime ∧
    (simulateCollisions { m1 := 1, m2 := 100, x1 := 2, x2 := 5, v1 := 0, v2 := -1, size1 := 1, size2 := 2 }).collisions = 31 ∧
    separated (simulateCollisions (scenario 100)) ∧
    (simulateCollisions (scenario 100)).collisions = 31 ∧
    (simulateCollisions (scenario 100)).collisions < (scenario 100).maxCollisions ∧
    (simulateCollisions (scenario 100)).t < (scenario 100).maxTime ∧
    (scenario 100).maxCollisions = 5000000 ∧ (scenario 100).maxTime = 1000000000 := by
  refine ⟨?_, ?_, ?_, ?_, ?_, ?_, ?_, ?_, ?_, ?_, ?_, ?_⟩ <;> decide!

/-! ## The analytic count against the batch simulator -/

theorem arctan_sqrt_one_div_three : Real.arctan (Real.sqrt (1 / 3)) = Real.pi / 6 := by
  have hs : Real.sqrt (1 / 3) = 1 / Real.sqrt 3 := by
    rw [Real.sqrt_div (by norm_num), Real.sqrt_one]
  rw [hs]
  apply Real.arctan_eq_of_tan_eq Real.tan_pi_div_six
  constructor <;> linarith [Real.pi_pos]

/-- C12, the failing input: for `m2 = 3` (and `m1 = 1`, the scenario of section 8) the batch
run ends by separation, below both caps, after 5 collisions, while over the real numbers
`computeCollisionsHighMass 3` is `⌊π / (π/6)⌋ = 6`. -/
theorem analytic_count_disagrees_at_three :
    (1 : ℚ) ≤ 3 ∧
    (simulateCollisions (scenario 3)).collisions = 5 ∧
    separated (simulateCollisions (scenario 3)) ∧
    (simulateCollisions (scenario 3)).collisions < (scenario 3).maxCollisions ∧
    (simulateCollisions (scenario 3)).t < (scenario 3).maxTime ∧
    computeCollisionsHighMass 3 = .fin 6 := by
  refine ⟨by norm_num, by decide!, by decide!, by decide!, by decide!, ?_⟩
  have hpi : Real.pi / (Real.pi / 6) = 6 := by
    have := Real.pi_pos
    field_simp
  have h3 : ¬ (3 : ℝ) ≤ 1 := by norm_num
  have hne : Real.pi / 6 ≠ 0 := by have := Real.pi_pos; positivity
  unfold computeCollisionsHighMass
  simp only [h3, if_false, arctan_sqrt_one_div_three, hne, hpi]
  norm_num

/-! ## The analytic count at powers of 100 -/

theorem arctan_pos_of_pos {x : ℝ} (hx : 0 < x) : 0 < Real.arctan x := by
  have h := Real.arctan_strictMono hx
  rwa [Real.arctan_zero] at h

theorem arctan_lt_self {x : ℝ} (hx : 0 < x) : Real.arctan x < x := by
  have h0 : 0 < Real.arctan x := arctan_pos_of_pos hx
  have h := Real.lt_tan h0 (Real.arctan_lt_pi_div_two x)
  rwa [Real.tan_arctan] at h

/-- A lower bound for `arctan`: a positive `u < 1` with `u < x·(1 − u²/2)` lies below
`arctan x`. -/
theorem lt_arctan_of_lt {x u : ℝ} (hu0 : 0 < u) (hu1 : u < 1) (h : u < x * (1 - u ^ 2 / 2)) :
    u < Real.arctan x := by
  have hpi : u < Real.pi / 2 := by have := Real.pi_gt_three; linarith
  have hcos : 1 - u ^ 2 / 2 ≤ Real.cos u := Real.one_sub_sq_div_two_le_cos
  have hpos : 0 < 1 - u ^ 2 / 2 := by nlinarith
  have hcpos : 0 < Real.cos u := lt_of_lt_of_le hpos hcos
  have hx : 0 < x := by
    by_contra hneg
    have : x * (1 - u ^ 2 / 2) ≤ 0 := mul_nonpos_of_nonpos_of_nonneg (not_lt.mp hneg) hpos.le
    linarith
  have hsin : Real.sin u < u := Real.sin_lt hu0
  have htan : Real.tan u < x := by
    rw [Real.tan_eq_sin_div_cos, div_lt_iff₀ hcpos]
    calc Real.sin u < u := hsin
      _ < x * (1 - u ^ 2 / 2) := h
      _ ≤ x * Real.cos u := mul_le_mul_of_nonneg_left hcos hx.le
  have hmono := Real.arctan_strictMono htan
  rwa [Real.arctan_tan (by linarith) hpi] at hmono

/-- The floor of `π / arctan x` is `N` as soon as `N·x ≤ π` and some `u < 1` at least
`π / (N + 1)` satisfies `u < x·(1 − u²/2)`. -/
theorem floor_pi_div_arctan {x u : ℝ} {N : ℕ} (hx : 0 < x) (h1 : (N : ℝ) * x ≤ Real.pi)
    (hu : Real.pi / ((N : ℝ) + 1) ≤ u) (hu1 : u < 1) (h2 : u < x * (1 - u ^ 2 / 2)) :
    ⌊Real.pi / Real.arctan x⌋ = (N : ℤ) := by
  have ha0 : 0 < Real.arctan x := arctan_pos_of_pos hx
  have hax : Real.arctan x < x := arctan_lt_self hx
  have hN1 : (0 : ℝ) < (N : ℝ) + 1 := by positivity
  have hu0 : 0 < u := lt_of_lt_of_le (div_pos Real.pi_pos hN1) hu
  have hlow : u < Real.arctan x := lt_arctan_of_lt hu0 hu1 h2
  rw [Int.floor_eq_iff]
  constructor
  · rw [le_div_iff₀ ha0]
    push_cast
    have : (N : ℝ) * Real.arctan x ≤ (N : ℝ) * x :=
      mul_le_mul_of_nonneg_left hax.le (Nat.cast_nonneg N)
    linarith
  · rw [div_lt_iff₀ ha0]
    push_cast
    have h3 : Real.pi ≤ u * ((N : ℝ) + 1) := (div_le_iff₀ hN1).mp hu
    have h4 : u * ((N : ℝ) + 1) < Real.arctan x * ((N : ℝ) + 1) :=
      mul_lt_mul_of_pos_right hlow hN1
    linarith

theorem sqrt_one_div_sq {y : ℝ} (hy : 0 < y) : Real.sqrt (1 / (y * y)) = 1 / y := by
  rw [Real.sqrt_eq_iff_mul_self_eq_of_pos (by positivity)]
  field_simp

/-- The analytic count for `m2 = y²` with `y > 1`. -/
theorem computeCollisionsHighMass_sq {y : ℝ} (hy : 1 < y) :
    computeCollisionsHighMass (y * y) = .fin ⌊Real.pi / Real.arctan (1 / y)⌋ := by
  have hy0 : 0 < y := by linarith
  have hgt : ¬ y * y ≤ 1 := by nlinarith
  have hne : Real.arctan (1 / y) ≠ 0 := (arctan_pos_of_pos (by positivity)).ne'
  unfold computeCollisionsHighMass
  simp only [hgt, if_false, sqrt_one_div_sq hy0, hne]

theorem floor_pi_div_arctan_tenth : ⌊Real.pi / Real.arctan (1 / 10)⌋ = 31 := by
  have h1 := Real.pi_gt_d2
  have h2 := Real.pi_lt_d2
  have := @floor_pi_div_arctan (1 / 10) (1 / 10 - 1 / 1000) 31 (by norm_num)
    (by norm_num; linarith) (by rw [div_le_iff₀ (by norm_num)]; norm_num; linarith)
    (by norm_num) (by norm_num)
  simpa using this

theorem floor_pi_div_arctan_hundredth : ⌊Real.pi / Real.arctan (1 / 100)⌋ = 314 := by
  have h1 := Real.pi_gt_d4
  have h2 := Real.pi_lt_d4
  have := @floor_pi_div_arctan (1 / 100) (1 / 100 - 1 / 100000) 314 (by norm_num)
    (by norm_num; linarith) (by rw [div_le_iff₀ (by norm_num)]; norm_num; linarith)
    (by norm_num) (by norm_num)
  simpa using this

theorem floor_pi_div_arctan_thousandth : ⌊Real.pi / Real.arctan (1 / 1000)⌋ = 3141 := by
  have h1 := Real.pi_gt_d6
  have h2 := Real.pi_lt_d6
  have := @floor_pi_div_arctan (1 / 1000) (1 / 1000 - 1 / 10000000) 3141 (by norm_num)
    (by norm_num; linarith) (by rw [div_le_iff₀ (by norm_num)]; norm_num; linarith)
    (by norm_num) (by norm_num)
  simpa using this

theorem floor_pi_mul (k : ℝ) (n : ℤ) (h1 : (n : ℝ) ≤ Real.pi * k) (h2 : Real.pi * k < n + 1) :
    ⌊Real.pi * k⌋ = n := Int.floor_eq_iff.mpr ⟨h1, h2⟩

/-- C13: over the real numbers `computeCollisionsHighMass` returns 3, 31, 314 and 3141 for
`m2 = 1`, `100`, `10 000` and `1 000 000`, that is `⌊π·10ⁿ⌋` for `m2 = 100ⁿ`, `n = 0, 1, 2,
3`; the first by the `m2 ≤ 1` rule, the others as `⌊π / atan(√(1/m2))⌋`. -/
theorem analytic_count_powers_of_hundred :
    computeCollisionsHighMass 1 = .fin 3 ∧
    computeCollisionsHighMass 100 = .fin 31 ∧
    computeCollisionsHighMass 10000 = .fin 314 ∧
    computeCollisionsHighMass 1000000 = .fin 3141 ∧
    computeCollisionsHighMass 100 = .fin ⌊Real.pi / Real.arctan (Real.sqrt (1 / 100))⌋ ∧
    computeCollisionsHighMass 10000 = .fin ⌊Real.pi / Real.arctan (Real.sqrt (1 / 10000))⌋ ∧
    computeCollisionsHighMass 1000000 =
      .fin ⌊Real.pi / Real.arctan (Real.sqrt (1 / 1000000))⌋ ∧
    ⌊Real.pi * 10 ^ 0⌋ = 3 ∧ ⌊Real.pi * 10 ^ 1⌋ = 31 ∧ ⌊Real.pi * 10 ^ 2⌋ = 314 ∧
    ⌊Real.pi * 10 ^ 3⌋ = 3141 := by
  have e1 : (100 : ℝ) = 10 * 10 := by norm_num
  have e2 : (10000 : ℝ) = 100 * 100 := by norm_num
  have e3 : (1000000 : ℝ) = 1000 * 1000 := by norm_num
  have c1 : computeCollisionsHighMass 100 = .fin 31 := by
    rw [e1, computeCollisionsHighMass_sq (by norm_num), floor_pi_div_arctan_tenth]
  have c2 : computeCollisionsHighMass 10000 = .fin 314 := by
    rw [e2, computeCollisionsHighMass_sq (by norm_num), floor_pi_div_arctan_hundredth]
  have c3 : computeCollisionsHighMass 1000000 = .fin 3141 := by
    rw [e3, computeCollisionsHighMass_sq (by norm_num), floor_pi_div_arctan_thousandth]
  have s1 : Real.sqrt (1 / 100) = 1 / 10 := by rw [e1]; exact sqrt_one_div_sq (by norm_num)
  have s2 : Real.sqrt (1 / 10000) = 1 / 100 := by rw [e2]; exact sqrt_one_div_sq (by norm_num)
  have s3 : Real.sqrt (1 / 1000000) = 1 / 1000 := by
    rw [e3]; exact sqrt_one_div_sq (by norm_num)
  have h1 := Real.pi_gt_d6
  have h2 := Real.pi_lt_d6
  refine ⟨?_, c1, c2, c3, ?_, ?_, ?_, ?_, ?_, ?_, ?_⟩
  · simp [computeCollisionsHighMass]
  · rw [c1, s1, floor_pi_div_arctan_tenth]
  · rw [c2, s2, floor_pi_div_arctan_hundredth]
  · rw [c3, s3, floor_pi_div_arctan_thousandth]
  · exact floor_pi_mul _ 3 (by norm_num; linarith) (by norm_num; linarith)
  · exact floor_pi_mul _ 31 (by norm_num; linarith) (by norm_num; linarith)
  · exact floor_pi_mul _ 314 (by norm_num; linarith) (by norm_num; linarith)
  · exact floor_pi_mul _ 3141 (by norm_num; linarith) (by norm_num; linarith)

/-! ## The stepper's pass against the batch pass -/

/-- Outside the band `[-EPS, 0)` the stepper's wall predictor is the batch predictor. -/
theorem rtDtWall_eq {x1 v1 : ℚ} (h : ¬ slowToWall v1) : rtDtWall x1 v1 = timeToWall x1 v1 := by
  unfold rtDtWall timeToWall
  by_cases hv : v1 < -EPS
  · have hneg : ¬ v1 ≥ 0 := by have := EPS_pos; intro h0; linarith
    simp [hv, hneg]
  · have h0 : v1 ≥ 0 := by
      by_contra hneg
      exact h ⟨not_lt.mp hv, not_le.mp hneg⟩
    simp [hv, h0]

/-- After the snap of a block event the two clamps cancel: the first can only move `x1`
to 0 when `x2 < size1`, and then the second moves it back to `x2 − size1`. -/
theorem rtClamp_of_contact (size1 : ℚ) (s : RTVars) (h : s.x1 = s.x2 - size1) :
    rtClamp size1 s = s := by
  unfold rtClamp
  by_cases h0 : s.x1 < 0
  · have h1 : (0 : ℚ) + size1 > s.x2 := by linarith
    simp only [h0, if_true, h1]
    cases s
    simp only [RTVars.mk.injEq, and_true, true_and] at h ⊢
    exact h.symm
  · have h1 : ¬ s.x1 + size1 > s.x2 := by
      rw [h]; intro hc; linarith
    simp [h0, h1]

/-- C15, refuted as stated: with `v1 = −ε` the stepper predicts no wall event where
`simulateCollisions` predicts one at `x1/ε`, so from `x1 = 1`, `x2 = 5`, `v2 = 0` and a
budget of `2·10¹²` the batch pass resolves the wall event at `10¹²` and the stepper pass
none; from `x1 = ε`, `x2 = 3 + ε`, `v2 = −1 − ε` and a budget of 3 the stepper pass resolves
a block event at time 2 where the batch pass resolves the wall event at time 1; and after a
wall event that leaves `x2 < size1` the stepper's pass ends with `x1 = x2 − size1`. -/
theorem stepper_pass_differs :
    rtDtWall 1 (-EPS) = .inf ∧ timeToWall 1 (-EPS) = .fin 1000000000000 ∧
    rtDtWall 1 (-EPS) ≠ timeToWall 1 (-EPS) ∧
    (rtBody ⟨1, 1, 1⟩ ⟨1, 5, -EPS, 0, 0, 2000000000000, 0⟩).kind = none ∧
    simBody ⟨1, 1, 1⟩ ⟨0, 0, 1, 5, -EPS, 0⟩ =
      some ⟨⟨0, 0, 1, 5, -EPS, 0⟩, .wall, 1000000000000, ⟨1, 1000000000000, 0, 5, EPS, 0⟩⟩ ∧
    rtNext ⟨1, 1, 1⟩ ⟨EPS, 3 + EPS, -EPS, -1 - EPS, 0, 3, 0⟩ = .fin 2 ∧
    (rtBody ⟨1, 1, 1⟩ ⟨EPS, 3 + EPS, -EPS, -1 - EPS, 0, 3, 0⟩).kind = some .block ∧
    (rtBody ⟨1, 1, 1⟩ ⟨EPS, 3 + EPS, -EPS, -1 - EPS, 0, 3, 0⟩).resolved =
      ⟨-EPS, 1 - EPS, -1 - EPS, -EPS, 1, 1, 1⟩ ∧
    simBody ⟨1, 1, 1⟩ ⟨0, 0, EPS, 3 + EPS, -EPS, -1 - EPS⟩ =
      some ⟨⟨0, 0, EPS, 3 + EPS, -EPS, -1 - EPS⟩, .wall, 1, ⟨1, 1, 0, 2, EPS, -1 - EPS⟩⟩ ∧
    (rtBody ⟨1, 1, 1⟩ ⟨1, 1 / 2, -1, 0, 0, 2, 0⟩).kind = some .wall ∧
    (rtBody ⟨1, 1, 1⟩ ⟨1, 1 / 2, -1, 0, 0, 2, 0⟩).post.x1 = -1 / 2 ∧
    simBody ⟨1, 1, 1⟩ ⟨0, 0, 1, 1 / 2, -1, 0⟩ =
      some ⟨⟨0, 0, 1, 1 / 2, -1, 0⟩, .wall, 1, ⟨1, 1, 0, 1 / 2, 1, 0⟩⟩ := by
  refine ⟨?_, ?_, ?_, ?_, ?_, ?_, ?_, ?_, ?_, ?_, ?_, ?_⟩ <;> decide!

/-- C15, amended: the block time computed in a pass of `stepRealtime` equals `timeToBlock`
of `simulateCollisions` on every state, and the wall time equals `timeToWall` on every state
with `v1 < −ε` or `v1 ≥ 0`; on such a state, whenever the selected time lies within the
remaining budget (`0 ≤ next ≤ timeLeft`), the pass resolves the event a pass of
`simulateCollisions` resolves from the same state, at the same time, with the same
post-event `x1, x2, v1, v2` and the same increment of `collisions` by one; the clamps that
end the stepper's pass keep that state after a block event, and after a wall event when
`size1 ≤ x2` holds in it. -/
theorem stepper_pass_matches_batch (p : Params) :
    (∀ x1 x2 v1 v2 : ℚ, rtDtBlock p.size1 x1 x2 v1 v2 = timeToBlock p.size1 x1 x2 v1 v2) ∧
    (∀ x1 v1 : ℚ, ¬ slowToWall v1 → rtDtWall x1 v1 = timeToWall x1 v1) ∧
    (∀ (r : RTVars) (t : ℚ), ¬ slowToWall r.v1 → withinBudget (rtNext p r) r.timeLeft →
      ∃ e, simBody p (r.asSim t) = some e ∧ rtNext p r = .fin e.dt ∧
        (rtBody p r).kind = some e.kind ∧
        (rtBody p r).resolved.x1 = e.post.x1 ∧ (rtBody p r).resolved.x2 = e.post.x2 ∧
        (rtBody p r).resolved.v1 = e.post.v1 ∧ (rtBody p r).resolved.v2 = e.post.v2 ∧
        (rtBody p r).resolved.collisions = r.collisions + 1 ∧
        e.post.collisions = r.collisions + 1 ∧
        (e.kind = .block ∨ p.size1 ≤ e.post.x2 → (rtBody p r).post = (rtBody p r).resolved)) := by
  refine ⟨fun x1 x2 v1 v2 => rtDtBlock_eq _ _ _ _ _, fun x1 v1 h => rtDtWall_eq h, ?_⟩
  intro r t hs hw
  have hwall : rtDtWall r.x1 r.v1 = timeToWall r.x1 r.v1 := rtDtWall_eq hs
  have hnext : rtNext p r =
      mathMin (timeToWall r.x1 r.v1) (timeToBlock p.size1 r.x1 r.x2 r.v1 r.v2) := by
    rw [rtNext_eq, hwall]
  rcases rtBody_cases p r with ⟨hnw, _⟩ | ⟨next, hn, _, _, hrw, hr⟩ | ⟨next, hn, _, _, hrw, hr⟩
  · exact absurd hw hnw
  · rw [hwall] at hrw
    rw [hnext] at hn
    rcases simBody_cases p (r.asSim t) with ⟨hmin, _⟩ | ⟨dt, hmin, hsw, hsb⟩ | ⟨dt, hmin, hsw, _⟩
    · rw [show mathMin (timeToWall (r.asSim t).x1 (r.asSim t).v1) (timeToBlock p.size1
        (r.asSim t).x1 (r.asSim t).x2 (r.asSim t).v1 (r.asSim t).v2) = Time.fin next from hn]
        at hmin
      cases hmin
    · have hd : dt = next := by
        have h1 : Time.fin dt = Time.fin next := hsw.symm.trans hrw
        cases h1; rfl
      subst hd
      refine ⟨_, hsb, by rw [hnext]; exact hn, by simp [hr], by simp [hr, RTVars.asSim],
        by simp [hr, RTVars.asSim], by simp [hr, RTVars.asSim], by simp [hr, RTVars.asSim],
        by simp [hr], rfl, ?_⟩
      intro hc
      rcases hc with hc | hc
      · cases hc
      · rw [hr]
        exact rtClamp_of_wellPlaced _ _ ⟨le_refl _, by simpa using hc⟩
    · have h1 : Time.fin dt = Time.fin next := hmin.symm.trans hn
      cases h1
      exact absurd hrw hsw
  · rw [hwall] at hrw
    rw [hnext] at hn
    rcases simBody_cases p (r.asSim t) with ⟨hmin, _⟩ | ⟨dt, hmin, hsw, _⟩ | ⟨dt, hmin, hsw, hsb⟩
    · rw [show mathMin (timeToWall (r.asSim t).x1 (r.asSim t).v1) (timeToBlock p.size1
        (r.asSim t).x1 (r.asSim t).x2 (r.asSim t).v1 (r.asSim t).v2) = Time.fin next from hn]
        at hmin
      cases hmin
    · have h1 : Time.fin dt = Time.fin next := hmin.symm.trans hn
      cases h1
      exact absurd hsw hrw
    · have h1 : Time.fin dt = Time.fin next := hmin.symm.trans hn
      cases h1
      refine ⟨_, hsb, by rw [hnext]; exact hn, by simp [hr], by simp [hr, RTVars.asSim],
        by simp [hr, RTVars.asSim], by simp [hr, RTVars.asSim], by simp [hr, RTVars.asSim],
        by simp [hr], rfl, ?_⟩
      intro _
      rw [hr]
      exact rtClamp_of_contact _ _ rfl

/-- Witness for C15 (amended): the first pass from the default scene with a budget of 3
resolves the block event at time 2 that the batch pass resolves. -/
theorem stepper_pass_matches_batch_witness :
    ¬ slowToWall (0 : ℚ) ∧
    withinBudget (rtNext ⟨1, 100, 1⟩ ⟨2, 5, 0, -1, 0, 3, 0⟩) 3 ∧
    ∃ e, simBody ⟨1, 100, 1⟩ ⟨0, 0, 2, 5, 0, -1⟩ = some e ∧
      (rtBody ⟨1, 100, 1⟩ ⟨2, 5, 0, -1, 0, 3, 0⟩).kind = some e.kind ∧
      (rtBody ⟨1, 100, 1⟩ ⟨2, 5, 0, -1, 0, 3, 0⟩).resolved.x1 = e.post.x1 := by
  refine ⟨by decide!, by decide!, ?_⟩
  obtain ⟨e, h1, _, h3, h4, _⟩ :=
    (stepper_pass_matches_batch ⟨1, 100, 1⟩).2.2 ⟨2, 5, 0, -1, 0, 3, 0⟩ 0 (by decide!)
      (by decide!)
  exact ⟨e, h1, h3, h4⟩

/-! ## Negative predicted times -/

/-- C16, the failing input: with `x1 = −1`, `v1 = −1` the wall time is `−1`.  From
`x2 = 5`, `v2 = 0` (no block event due) `simulateCollisions` advances the clock by `−1`
and resolves the wall event, then a block event, returning `collisions = 2` at `t = 3`.
From `x2 = 1`, `v2 = −3` (block contact due at `1/2`) and a budget of 2, `stepRealtime`
resolves no event and advances both blocks by the whole budget.  The same happens in the
batch run from the valid scene `slowChaseLong`, whose third event has a negative time. -/
theorem negative_wall_time_behaviour :
    timeToWall (-1) (-1) = .fin (-1) ∧ timeToBlock 1 (-1) 5 (-1) 0 = .inf ∧
    (simRun { m2 := 1, x1 := -1, x2 := 5, v1 := -1, v2 := 0 }).2.map
      (fun e => (e.kind, e.dt, e.post.t)) = [(.wall, -1, -1), (.block, 4, 3)] ∧
    simulateCollisions { m2 := 1, x1 := -1, x2 := 5, v1 := -1, v2 := 0 } = ⟨2, 3, 4, 5, 0, 1⟩ ∧
    rtDtWall (-1) (-1) = .fin (-1) ∧ rtDtBlock 1 (-1) 1 (-1) (-3) = .fin (1 / 2) ∧
    (rtRun ⟨-1, 1, -1, -3, 0⟩ ⟨1, 1, 1⟩ 2).2.map (fun it => it.kind) = [none] ∧
    stepRealtime ⟨-1, 1, -1, -3, 0⟩ ⟨1, 1, 1⟩ 2 = ⟨-3, -5, -1, -3, 0⟩ ∧
    (0 ≤ slowChaseLong.x1 ∧ slowChaseLong.x1 + slowChaseLong.size1 ≤ slowChaseLong.x2) ∧
    (simRun slowChaseLong).2.map (fun e => (e.kind, e.dt)) =
      [(.wall, 1000000000000), (.block, 0), (.wall, -1000000000000 / 1000000000001)] := by
  refine ⟨?_, ?_, ?_, ?_, ?_, ?_, ?_, ?_, ?_, ?_⟩ <;> decide!

/-! ## Alternation of events -/

/-- A block collision reverses the relative velocity. -/
theorem blockV_reverses (m1 m2 u1 u2 : ℚ) (hm : m1 + m2 ≠ 0) :
    blockV1 m1 m2 u1 u2 - blockV2 m1 m2 u1 u2 = -(u1 - u2) := by
  unfold blockV1 blockV2
  field_simp
  ring

/-- The block predictor answers a finite time only for a closing speed above `EPS`. -/
theorem timeToBlock_fin_closing {size1 x1 x2 v1 v2 d : ℚ}
    (h : timeToBlock size1 x1 x2 v1 v2 = .fin d) : EPS < v1 - v2 := by
  unfold timeToBlock at h
  by_cases hg : x2 - (x1 + size1) ≤ EPS
  · by_cases hr : v1 - v2 > EPS
    · exact hr
    · simp [hg, hr] at h
  · by_cases hr : v1 - v2 ≤ EPS
    · simp [hg, hr] at h
    · exact not_le.mp hr

theorem timeToBlock_of_excludes {size1 x1 x2 v1 v2 : ℚ} (h : excludes .block v1 v2) :
    timeToBlock size1 x1 x2 v1 v2 = .inf := by
  have h' : v1 - v2 ≤ EPS := h
  cases hb : timeToBlock size1 x1 x2 v1 v2 with
  | inf => rfl
  | fin d => exact absurd (timeToBlock_fin_closing hb) (not_lt.mpr h')

theorem timeToWall_of_excludes {x1 v1 v2 : ℚ} (h : excludes .wall v1 v2) :
    timeToWall x1 v1 = .inf := by
  have h' : 0 ≤ v1 := h
  simp [timeToWall, h']

theorem rtDtWall_of_excludes {x1 v1 v2 : ℚ} (h : excludes .wall v1 v2) :
    rtDtWall x1 v1 = .inf := by
  have h' : 0 ≤ v1 := h
  have : ¬ v1 < -EPS := by have := EPS_pos; intro hc; linarith
  simp [rtDtWall, this]

/-- After an event of the batch loop the velocities rule out an event of the same kind. -/
theorem simBody_excludes {p : Params} {s : SimState} {e : SimEvent} (hm : p.m1 + p.m2 ≠ 0)
    (h : simBody p s = some e) : excludes e.kind e.post.v1 e.post.v2 := by
  rcases simBody_cases p s with ⟨_, h'⟩ | ⟨dt, _, hw, h'⟩ | ⟨dt, hmin, hw, h'⟩
  · rw [h'] at h; cases h
  · rw [h'] at h; cases h
    have := (timeToWall_fin hw).1
    show 0 ≤ -s.v1
    linarith
  · rw [h'] at h; cases h
    have hb : timeToBlock p.size1 s.x1 s.x2 s.v1 s.v2 = .fin dt := by
      rcases mathMin_fin hmin with ⟨ha, _⟩ | ⟨hb, _⟩
      · exact absurd ha hw
      · exact hb
    have hc := timeToBlock_fin_closing hb
    show blockV1 p.m1 p.m2 s.v1 s.v2 - blockV2 p.m1 p.m2 s.v1 s.v2 ≤ EPS
    rw [blockV_reverses _ _ _ _ hm]
    have := EPS_pos
    linarith

/-- The batch loop resolves no event of a kind the velocities rule out. -/
theorem simBody_kind_ne {p : Params} {s : SimState} {e : SimEvent} {k : Event}
    (hex : excludes k s.v1 s.v2) (h : simBody p s = some e) : k ≠ e.kind := by
  rcases simBody_cases p s with ⟨_, h'⟩ | ⟨dt, _, hw, h'⟩ | ⟨dt, hmin, hw, h'⟩
  · rw [h'] at h; cases h
  · rw [h'] at h; cases h
    intro hk
    subst hk
    rw [timeToWall_of_excludes hex] at hw
    cases hw
  · rw [h'] at h; cases h
    intro hk
    subst hk
    rw [timeToBlock_of_excludes hex] at hmin
    rcases mathMin_fin hmin with ⟨ha, _⟩ | ⟨hb, _⟩
    · exact hw ha
    · cases hb

/-- The kinds of the events the batch loop logs alternate, and do not start with a kind
the entry velocities rule out. -/
theorem simLoop_chain (p : Params) (hm : p.m1 + p.m2 ≠ 0) (mc : Nat) (mt : ℚ) :
    ∀ (fuel : Nat) (s : SimState) (k : Event), excludes k s.v1 s.v2 →
      List.Chain (fun a b => a ≠ b) k ((simLoop p mc mt fuel s).2.map (fun e => e.kind)) := by
  intro fuel
  induction fuel with
  | zero => intro s k _; exact List.Chain.nil
  | succ n ih =>
    intro s k hex
    rw [simLoop_succ]
    by_cases hg : s.collisions < mc ∧ s.t < mt
    · rw [if_pos hg]
      cases hb : simBody p s with
      | none => exact List.Chain.nil
      | some e =>
        have hne := simBody_kind_ne hex hb
        by_cases hs : separated e.post
        · simp only [hs, if_true, List.map_cons, List.map_nil]
          exact List.Chain.cons hne List.Chain.nil
        · simp only [hs, if_false, List.map_cons]
          exact List.Chain.cons hne (ih e.post e.kind (simBody_excludes hm hb))
    · rw [if_neg hg]; exact List.Chain.nil

theorem simLoop_chain' (p : Params) (hm : p.m1 + p.m2 ≠ 0) (mc : Nat) (mt : ℚ) (fuel : Nat)
    (s : SimState) :
    List.Chain' (fun a b => a ≠ b) ((simLoop p mc mt fuel s).2.map (fun e => e.kind)) := by
  cases fuel with
  | zero => exact List.chain'_nil
  | succ n =>
    rw [simLoop_succ]
    by_cases hg : s.collisions < mc ∧ s.t < mt
    · rw [if_pos hg]
      cases hb : simBody p s with
      | none => exact List.chain'_nil
      | some e =>
        by_cases hs : separated e.post
        · simp only [hs, if_true, List.map_cons, List.map_nil]
          exact List.chain'_singleton _
        · simp only [hs, if_false, List.map_cons]
          exact simLoop_chain p hm mc mt n e.post e.kind (simBody_excludes hm hb)
    · rw [if_neg hg]; exact List.chain'_nil

theorem alternatesFrom_append (prev : Option Event) (l₁ l₂ : List Event) :
    alternatesFrom prev (l₁ ++ l₂) ↔
      alternatesFrom prev l₁ ∧ alternatesFrom (lastEvent prev l₁) l₂ := by
  induction l₁ generalizing prev with
  | nil => simp [alternatesFrom, lastEvent]
  | cons e es ih =>
    show ((∀ k, prev = some k → k ≠ e) ∧ alternatesFrom (some e) (es ++ l₂)) ↔
      ((∀ k, prev = some k → k ≠ e) ∧ alternatesFrom (some e) es) ∧
        alternatesFrom (lastEvent (some e) es) l₂
    rw [ih (some e)]
    exact and_assoc.symm

theorem lastEvent_append (prev : Option Event) (l₁ l₂ : List Event) :
    lastEvent prev (l₁ ++ l₂) = lastEvent (lastEvent prev l₁) l₂ := by
  induction l₁ generalizing prev with
  | nil => rfl
  | cons e es ih => exact ih (some e)

theorem alternatesFrom_some_chain (k : Event) (l : List Event) (h : alternatesFrom (some k) l) :
    List.Chain (fun a b => a ≠ b) k l := by
  induction l generalizing k with
  | nil => exact List.Chain.nil
  | cons e es ih => exact List.Chain.cons (h.1 k rfl) (ih e h.2)

theorem alternatesFrom_none_chain' (l : List Event) (h : alternatesFrom none l) :
    List.Chain' (fun a b => a ≠ b) l := by
  cases l with
  | nil => exact List.chain'_nil
  | cons e es => exact alternatesFrom_some_chain e es h.2

/-- A stepper pass never changes the velocities unless it resolves an event, and after an
event they rule out an event of the same kind. -/
theorem rtBody_excludes (p : Params) (hm : p.m1 + p.m2 ≠ 0) (r : RTVars) :
    ((rtBody p r).kind = none →
      (rtBody p r).post.v1 = r.v1 ∧ (rtBody p r).post.v2 = r.v2) ∧
    (∀ k, (rtBody p r).kind = some k →
      excludes k (rtBody p r).post.v1 (rtBody p r).post.v2) := by
  rcases rtBody_cases p r with ⟨_, h⟩ | ⟨next, _, _, _, hw, h⟩ | ⟨next, hn, _, _, hw, h⟩
  · rw [h]
    exact ⟨fun _ => ⟨rfl, rfl⟩, fun k hk => (by cases hk)⟩
  · rw [h]
    refine ⟨fun hk => (by cases hk), fun k hk => ?_⟩
    cases hk
    have := (rtDtWall_fin hw).1
    show 0 ≤ -r.v1
    linarith
  · rw [h]
    refine ⟨fun hk => (by cases hk), fun k hk => ?_⟩
    cases hk
    rw [rtNext_eq] at hn
    have hb : timeToBlock p.size1 r.x1 r.x2 r.v1 r.v2 = .fin next := by
      rcases mathMin_fin hn with ⟨ha, _⟩ | ⟨hb, _⟩
      · exact absurd ha hw
      · exact hb
    have hc := timeToBlock_fin_closing hb
    show blockV1 p.m1 p.m2 r.v1 r.v2 - blockV2 p.m1 p.m2 r.v1 r.v2 ≤ EPS
    rw [blockV_reverses _ _ _ _ hm]
    have := EPS_pos
    linarith

/-- A stepper pass resolves no event of a kind the velocities rule out. -/
theorem rtBody_kind_ne (p : Params) (r : RTVars) {k k' : Event} (hex : excludes k r.v1 r.v2)
    (h : (rtBody p r).kind = some k') : k ≠ k' := by
  rcases rtBody_cases p r with ⟨_, h'⟩ | ⟨next, _, _, _, hw, h'⟩ | ⟨next, hn, _, _, hw, h'⟩
  · rw [h'] at h; cases h
  · rw [h'] at h; cases h
    intro hk
    subst hk
    rw [rtDtWall_of_excludes hex] at hw
    cases hw
  · rw [h'] at h; cases h
    intro hk
    subst hk
    rw [rtNext_eq, timeToBlock_of_excludes hex] at hn
    rcases mathMin_fin hn with ⟨ha, _⟩ | ⟨hb, _⟩
    · exact hw ha
    · cases hb

/-- The events one call of the stepper resolves alternate in kind, starting from the
previous event, and on return the velocities rule out a repetition of the last event. -/
theorem rtLoop_alternates (p : Params) (hm : p.m1 + p.m2 ≠ 0) :
    ∀ (fuel : Nat) (s : RTVars) (prev : Option Event), excludesPrev prev s.v1 s.v2 →
      alternatesFrom prev (rtEvents (rtLoop p fuel s).2) ∧
      excludesPrev (lastEvent prev (rtEvents (rtLoop p fuel s).2))
        (rtLoop p fuel s).1.v1 (rtLoop p fuel s).1.v2 := by
  intro fuel
  induction fuel with
  | zero => intro s prev h; exact ⟨trivial, h⟩
  | succ n ih =>
    intro s prev hprev
    rw [rtLoop_succ]
    by_cases hg : s.timeLeft > EPS ∧ s.iter < MAX_EVENTS_PER_FRAME
    · rw [if_pos hg]
      obtain ⟨hnone, hsome⟩ := rtBody_excludes p hm s
      cases hk : (rtBody p s).kind with
      | none =>
        have hv := hnone hk
        simp only [rtEvents, List.filterMap_cons, hk, List.filterMap_nil]
        refine ⟨trivial, ?_⟩
        show excludesPrev prev (rtBody p s).post.v1 (rtBody p s).post.v2
        rw [hv.1, hv.2]; exact hprev
      | some ev =>
        have hex := hsome ev hk
        have hstep := ih (rtBody p s).post (some ev) (fun k hk' => by cases hk'; exact hex)
        simp only [rtEvents, List.filterMap_cons, hk] at hstep ⊢
        refine ⟨⟨fun k hk' => rtBody_kind_ne p s (hprev k hk') hk, hstep.1⟩, hstep.2⟩
    · rw [if_neg hg]; exact ⟨trivial, hprev⟩

/-- The events any sequence of stepper calls resolves alternate in kind. -/
theorem stepMany_alternates (p : Params) (hm : p.m1 + p.m2 ≠ 0) :
    ∀ (dts : List ℚ) (st : SimulationState) (prev : Option Event),
      excludesPrev prev st.v1 st.v2 → alternatesFrom prev (stepMany p dts st).2 := by
  intro dts
  induction dts with
  | nil => intro st prev _; exact trivial
  | cons dt dts ih =>
    intro st prev hprev
    obtain ⟨h1, h2⟩ := rtLoop_alternates p hm MAX_EVENTS_PER_FRAME (rtInit st dt) prev hprev
    show alternatesFrom prev
      (rtEvents (rtRun st p dt).2 ++ (stepMany p dts (stepRealtime st p dt)).2)
    rw [alternatesFrom_append]
    exact ⟨h1, ih (stepRealtime st p dt) _ h2⟩

/-! ## Mode equivalence: the stepper follows the batch run -/

theorem mathMin_shift (a b : Time) (τ : ℚ) :
    mathMin (a.shift τ) (b.shift τ) = (mathMin a b).shift τ := by
  cases a <;> cases b <;> simp [mathMin, Time.shift, min_sub_sub_right]

/-- Outside the band `[-EPS, 0)` the stepper's wall time after a flight of `τ` is the batch
wall time less `τ`. -/
theorem rtDtWall_shift {x1 v1 : ℚ} (τ : ℚ) (h : ¬ slowToWall v1) :
    rtDtWall (x1 + v1 * τ) v1 = (timeToWall x1 v1).shift τ := by
  unfold rtDtWall timeToWall
  by_cases hv : v1 < -EPS
  · have hlt : v1 < 0 := by have := EPS_pos; linarith
    have hneg : ¬ v1 ≥ 0 := not_le.mpr hlt
    have hne : v1 ≠ 0 := ne_of_lt hlt
    simp only [hv, hneg, if_true, if_false, Time.shift, Time.fin.injEq]
    field_simp
    ring
  · have h0 : v1 ≥ 0 := by
      by_contra hneg
      exact h ⟨not_lt.mp hv, not_le.mp hneg⟩
    simp [hv, h0, Time.shift]

/-- After a flight of `τ ≥ 0` that does not pass the block time and does not end in near
contact, the block time is the earlier one less `τ`. -/
theorem timeToBlock_shift {size1 x1 x2 v1 v2 τ : ℚ} (hτ : 0 ≤ τ)
    (hle : ∀ d, timeToBlock size1 x1 x2 v1 v2 = .fin d → τ ≤ d)
    (hnear : ¬ nearContact size1 (x1 + v1 * τ) (x2 + v2 * τ) v1 v2) :
    timeToBlock size1 (x1 + v1 * τ) (x2 + v2 * τ) v1 v2 =
      (timeToBlock size1 x1 x2 v1 v2).shift τ := by
  by_cases hr : v1 - v2 > EPS
  · have hr0 : 0 < v1 - v2 := lt_trans EPS_pos hr
    have hne : v1 - v2 ≠ 0 := ne_of_gt hr0
    have hnr : ¬ v1 - v2 ≤ EPS := not_le.mpr hr
    by_cases hg : x2 - (x1 + size1) ≤ EPS
    · have hb : timeToBlock size1 x1 x2 v1 v2 = .fin 0 := by
        simp [timeToBlock, hg, hr]
      have hτ0 : τ = 0 := le_antisymm (hle 0 hb) hτ
      subst hτ0
      simp only [mul_zero, add_zero, hb, Time.shift, sub_zero]
    · have hb : timeToBlock size1 x1 x2 v1 v2 = .fin ((x2 - (x1 + size1)) / (v1 - v2)) := by
        simp [timeToBlock, hg, hnr]
      have hτd := hle _ hb
      have hmul : (v1 - v2) * τ ≤ x2 - (x1 + size1) := by
        have := mul_le_mul_of_nonneg_left hτd hr0.le
        rwa [mul_div_cancel₀ _ hne] at this
      rw [hb]
      by_cases hg' : x2 + v2 * τ - (x1 + v1 * τ + size1) ≤ EPS
      · have hzero : x2 + v2 * τ - (x1 + v1 * τ + size1) = 0 := by
          by_contra hnz
          have hpos : 0 < x2 + v2 * τ - (x1 + v1 * τ + size1) := by
            rcases lt_or_gt_of_ne hnz with hlt | hgt
            · linarith
            · exact hgt
          exact hnear ⟨hpos, hg', hr⟩
        have hτeq : (x2 - (x1 + size1)) / (v1 - v2) - τ = 0 := by
          field_simp
          linarith
        simp only [timeToBlock, hg', hr, if_true, Time.shift, hτeq]
      · simp only [timeToBlock, hg', hnr, if_false, Time.shift, Time.fin.injEq]
        field_simp
        ring
  · have hnr : v1 - v2 ≤ EPS := not_lt.mp hr
    have h1 : timeToBlock size1 x1 x2 v1 v2 = .inf := timeToBlock_of_excludes hnr
    have h2 : timeToBlock size1 (x1 + v1 * τ) (x2 + v2 * τ) v1 v2 = .inf :=
      timeToBlock_of_excludes hnr
    rw [h1, h2]; rfl

/-- The time of a batch event resolved from a state with block 1 on the track is not
negative. -/
theorem simBody_dt_nonneg {p : Params} {s : SimState} {e : SimEvent}
    (h : simBody p s = some e) (hx : 0 ≤ s.x1) : 0 ≤ e.dt := by
  rcases simBody_cases p s with ⟨_, h'⟩ | ⟨dt, _, hw, h'⟩ | ⟨dt, hmin, hw, h'⟩
  · rw [h'] at h; cases h
  · rw [h'] at h; cases h
    have := @timeToWall_nonneg s.x1 s.v1 hx
    rw [hw] at this; exact this
  · rw [h'] at h; cases h
    have hb : timeToBlock p.size1 s.x1 s.x2 s.v1 s.v2 = .fin dt := by
      rcases mathMin_fin hmin with ⟨ha, _⟩ | ⟨hb, _⟩
      · exact absurd ha hw
      · exact hb
    have := timeToBlock_nonneg p.size1 s.x1 s.x2 s.v1 s.v2
    rw [hb] at this; exact this

theorem shift_eq_fin {a : Time} {τ d : ℚ} (h : a.shift τ = .fin (d - τ)) : a = .fin d := by
  cases a with
  | inf => cases h
  | fin d' =>
    simp only [Time.shift, Time.fin.injEq] at h
    have : d' = d := by linarith
    rw [this]

/-- The stepper's predictions on loop variables that follow a batch state are the batch
predictions less the flight time. -/
theorem rtNext_follows {p : Params} {s : SimState} {σ : RTVars} {τ d : ℚ}
    (hf : follows σ s τ) (hτ : 0 ≤ τ)
    (hmin : mathMin (timeToWall s.x1 s.v1) (timeToBlock p.size1 s.x1 s.x2 s.v1 s.v2) = .fin d)
    (hle : τ ≤ d) (hsw : ¬ slowToWall s.v1)
    (hnear : ¬ nearContact p.size1 σ.x1 σ.x2 σ.v1 σ.v2) :
    rtDtWall σ.x1 σ.v1 = (timeToWall s.x1 s.v1).shift τ ∧ rtNext p σ = .fin (d - τ) := by
  obtain ⟨h1, h2, h3, h4, _⟩ := hf
  rw [h1, h2, h3, h4] at hnear
  have hw : rtDtWall σ.x1 σ.v1 = (timeToWall s.x1 s.v1).shift τ := by
    rw [h1, h3]; exact rtDtWall_shift τ hsw
  have hb : timeToBlock p.size1 σ.x1 σ.x2 σ.v1 σ.v2 =
      (timeToBlock p.size1 s.x1 s.x2 s.v1 s.v2).shift τ := by
    rw [h1, h2, h3, h4]
    exact timeToBlock_shift hτ (fun d' hd' => le_trans hle ((mathMin_le hmin).2 d' hd')) hnear
  refine ⟨hw, ?_⟩
  rw [rtNext_eq, hw, hb, mathMin_shift, hmin]
  rfl

theorem simBody_post_t {p : Params} {s : SimState} {e : SimEvent} (h : simBody p s = some e) :
    e.post.t = s.t + e.dt := by
  rcases simBody_cases p s with ⟨_, h'⟩ | ⟨dt, _, _, h'⟩ | ⟨dt, _, _, h'⟩ <;>
    rw [h'] at h <;> cases h <;> rfl

/-- One stepper pass from loop variables that follow a batch state with a next event:
either the budget ends first and the pass flies on, or the pass resolves that event and
ends in the batch's post-event state. -/
theorem rtBody_follows {p : Params} {s : SimState} {e : SimEvent} {σ : RTVars} {τ : ℚ}
    (hb : simBody p s = some e) (hwp : wellPlaced p.size1 s.x1 s.x2)
    (hsw : ¬ slowToWall s.v1) (hsc : ¬ slowClosing s.v1 s.v2)
    (hf : follows σ s τ) (hτ : 0 ≤ τ) (hle : τ ≤ e.dt)
    (hnear : ¬ nearContact p.size1 σ.x1 σ.x2 σ.v1 σ.v2) :
    ((rtBody p σ).kind = none ∧ follows (rtBody p σ).post s (τ + σ.timeLeft) ∧
        τ + σ.timeLeft ≤ e.dt ∧ (rtBody p σ).post.timeLeft = 0) ∨
    ((rtBody p σ).kind = some e.kind ∧ follows (rtBody p σ).post e.post 0 ∧
        (rtBody p σ).post.timeLeft = σ.timeLeft - (e.dt - τ)) := by
  have hpost := simBody_wellPlaced hb hwp hsc
  have hmin : mathMin (timeToWall s.x1 s.v1) (timeToBlock p.size1 s.x1 s.x2 s.v1 s.v2) =
      .fin e.dt := by
    rcases simBody_cases p s with ⟨_, h'⟩ | ⟨dt, hm, _, h'⟩ | ⟨dt, hm, _, h'⟩
    · rw [h'] at hb; cases hb
    · rw [h'] at hb; cases hb; exact hm
    · rw [h'] at hb; cases hb; exact hm
  obtain ⟨hwall, hnext⟩ := rtNext_follows hf hτ hmin hle hsw hnear
  obtain ⟨f1, f2, f3, f4, f5⟩ := hf
  rcases rtBody_cases p σ with ⟨hnw, h⟩ | ⟨next, hn, _, _, hrw, h⟩ | ⟨next, hn, _, _, hrw, h⟩
  · left
    rw [hnext] at hnw
    have hlt : σ.timeLeft < e.dt - τ := by
      by_contra hc
      exact hnw ⟨by linarith, not_lt.mp hc⟩
    rw [h]
    refine ⟨rfl, ⟨?_, ?_, f3, f4, f5⟩, by linarith, rfl⟩
    · show σ.x1 + σ.v1 * σ.timeLeft = s.x1 + s.v1 * (τ + σ.timeLeft)
      rw [f1, f3]; ring
    · show σ.x2 + σ.v2 * σ.timeLeft = s.x2 + s.v2 * (τ + σ.timeLeft)
      rw [f2, f4]; ring
  · right
    have hnx : next = e.dt - τ := by
      rw [hnext] at hn; cases hn; rfl
    subst hnx
    have hsw' : timeToWall s.x1 s.v1 = .fin e.dt := shift_eq_fin (hwall.symm.trans hrw)
    rcases simBody_cases p s with ⟨_, h'⟩ | ⟨dt, _, _, h'⟩ | ⟨dt, _, hw', h'⟩
    · rw [h'] at hb; cases hb
    · rw [h'] at hb; cases hb
      have hx2 : σ.x2 + σ.v2 * (dt - τ) = s.x2 + s.v2 * dt := by rw [f2, f4]; ring
      have hcl : rtClamp p.size1 ⟨0, σ.x2 + σ.v2 * (dt - τ), -σ.v1, σ.v2, σ.collisions + 1,
          σ.timeLeft - (dt - τ), σ.iter + 1⟩ = ⟨0, σ.x2 + σ.v2 * (dt - τ), -σ.v1, σ.v2,
          σ.collisions + 1, σ.timeLeft - (dt - τ), σ.iter + 1⟩ := by
        apply rtClamp_of_wellPlaced
        show wellPlaced p.size1 0 (σ.x2 + σ.v2 * (dt - τ))
        rw [hx2]; exact hpost
      rw [h, hcl]
      refine ⟨rfl, ⟨?_, ?_, ?_, ?_, ?_⟩, rfl⟩
      · show (0 : ℚ) = 0 + -s.v1 * 0
        ring
      · show σ.x2 + σ.v2 * (dt - τ) = s.x2 + s.v2 * dt + s.v2 * 0
        rw [hx2]; ring
      · show -σ.v1 = -s.v1
        rw [f3]
      · exact f4
      · show σ.collisions + 1 = s.collisions + 1
        rw [f5]
    · rw [h'] at hb; cases hb
      exact absurd hsw' hw'
  · right
    have hnx : next = e.dt - τ := by
      rw [hnext] at hn; cases hn; rfl
    subst hnx
    have hsw' : timeToWall s.x1 s.v1 ≠ .fin e.dt := by
      intro hc
      apply hrw
      rw [hwall, hc]; rfl
    rcases simBody_cases p s with ⟨_, h'⟩ | ⟨dt, _, hw', h'⟩ | ⟨dt, _, _, h'⟩
    · rw [h'] at hb; cases hb
    · rw [h'] at hb; cases hb
      exact absurd hw' hsw'
    · rw [h'] at hb; cases hb
      have hx2 : σ.x2 + σ.v2 * (dt - τ) = s.x2 + s.v2 * dt := by rw [f2, f4]; ring
      have hcl : rtClamp p.size1 ⟨σ.x2 + σ.v2 * (dt - τ) - p.size1, σ.x2 + σ.v2 * (dt - τ),
          blockV1 p.m1 p.m2 σ.v1 σ.v2, blockV2 p.m1 p.m2 σ.v1 σ.v2, σ.collisions + 1,
          σ.timeLeft - (dt - τ), σ.iter + 1⟩ = ⟨σ.x2 + σ.v2 * (dt - τ) - p.size1,
          σ.x2 + σ.v2 * (dt - τ), blockV1 p.m1 p.m2 σ.v1 σ.v2, blockV2 p.m1 p.m2 σ.v1 σ.v2,
          σ.collisions + 1, σ.timeLeft - (dt - τ), σ.iter + 1⟩ :=
        rtClamp_of_contact _ _ rfl
      rw [h, hcl]
      refine ⟨rfl, ⟨?_, ?_, ?_, ?_, ?_⟩, rfl⟩
      · show σ.x2 + σ.v2 * (dt - τ) - p.size1 =
          s.x2 + s.v2 * dt - p.size1 + blockV1 p.m1 p.m2 s.v1 s.v2 * 0
        rw [hx2]; ring
      · show σ.x2 + σ.v2 * (dt - τ) =
          s.x2 + s.v2 * dt + blockV2 p.m1 p.m2 s.v1 s.v2 * 0
        rw [hx2]; ring
      · show blockV1 p.m1 p.m2 σ.v1 σ.v2 = blockV1 p.m1 p.m2 s.v1 s.v2
        rw [f3, f4]
      · show blockV2 p.m1 p.m2 σ.v1 σ.v2 = blockV2 p.m1 p.m2 s.v1 s.v2
        rw [f3, f4]
      · show σ.collisions + 1 = s.collisions + 1
        rw [f5]

/-- A stepper pass at velocities that rule out both events flies on by the whole budget. -/
theorem rtBody_quiet (p : Params) (σ : RTVars) (h1 : 0 ≤ σ.v1) (h2 : σ.v1 - σ.v2 ≤ EPS) :
    rtBody p σ = ⟨σ, none, rtAdvance σ, rtAdvance σ⟩ := by
  have hw : excludes .wall σ.v1 σ.v2 := h1
  have hb : excludes .block σ.v1 σ.v2 := h2
  rcases rtBody_cases p σ with ⟨_, h⟩ | ⟨next, _, _, _, _, h⟩ | ⟨next, _, _, _, _, h⟩
  · exact h
  · exact absurd rfl (rtBody_kind_ne p σ hw (by rw [h]))
  · exact absurd rfl (rtBody_kind_ne p σ hb (by rw [h]))

theorem follows_advance {σ : RTVars} {s : SimState} {τ : ℚ} (hf : follows σ s τ) :
    follows (rtAdvance σ) s (τ + σ.timeLeft) := by
  obtain ⟨f1, f2, f3, f4, f5⟩ := hf
  refine ⟨?_, ?_, f3, f4, f5⟩
  · show σ.x1 + σ.v1 * σ.timeLeft = s.x1 + s.v1 * (τ + σ.timeLeft)
    rw [f1, f3]; ring
  · show σ.x2 + σ.v2 * σ.timeLeft = s.x2 + s.v2 * (τ + σ.timeLeft)
    rw [f2, f4]; ring

/-- One call of the stepper from loop variables that follow a state of a batch trail ends
in loop variables that follow a later state of the same trail, and the batch clock of that
state plus the flight time has advanced by exactly the budget the call used up. -/
theorem rtLoop_follows (p : Params) :
    ∀ (f : Nat) (es : List SimEvent) (s s' : SimState) (σ : RTVars) (τ : ℚ),
      Trail p s es s' → wellPlaced p.size1 s.x1 s.x2 →
      (∀ e ∈ es, ¬ slowToWall e.pre.v1 ∧ ¬ slowClosing e.pre.v1 e.pre.v2) →
      0 ≤ s'.v1 → s'.v1 - s'.v2 ≤ EPS →
      follows σ s τ → 0 ≤ τ → room es τ →
      (∀ it ∈ (rtLoop p f σ).2, ¬ nearContact p.size1 it.pre.x1 it.pre.x2 it.pre.v1 it.pre.v2) →
      ∃ es₁ s₁ τ₁, Trail p s₁ es₁ s' ∧ (∀ e ∈ es₁, e ∈ es) ∧
        wellPlaced p.size1 s₁.x1 s₁.x2 ∧ follows (rtLoop p f σ).1 s₁ τ₁ ∧ 0 ≤ τ₁ ∧
        room es₁ τ₁ ∧
        s₁.t + τ₁ + (rtLoop p f σ).1.timeLeft = s.t + τ + σ.timeLeft := by
  intro f
  induction f with
  | zero =>
    intro es s s' σ τ ht hwp _ _ _ hf hτ hroom _
    exact ⟨es, s, τ, ht, fun e he => he, hwp, hf, hτ, hroom, rfl⟩
  | succ n ih =>
    intro es s s' σ τ ht hwp hreg hq1 hq2 hf hτ hroom
    rw [rtLoop_succ]
    by_cases hg : σ.timeLeft > EPS ∧ σ.iter < MAX_EVENTS_PER_FRAME
    · rw [if_pos hg]
      have htl : 0 < σ.timeLeft := lt_trans EPS_pos hg.1
      have hpre := rtBody_pre p σ
      cases ht with
      | nil =>
        have hv1 : 0 ≤ σ.v1 := by rw [hf.2.2.1]; exact hq1
        have hv2 : σ.v1 - σ.v2 ≤ EPS := by rw [hf.2.2.1, hf.2.2.2.1]; exact hq2
        have hbody := rtBody_quiet p σ hv1 hv2
        rw [hbody]
        intro _
        exact ⟨[], s, τ + σ.timeLeft, Trail.nil s, fun e he => he, hwp, follows_advance hf,
          by linarith, trivial, by show s.t + (τ + σ.timeLeft) + 0 = _; ring⟩
      | @cons _ e es' _ hb ht' =>
        have hspre := (simBody_pre hb).1
        have hre := hreg e (List.mem_cons_self _ _)
        rw [hspre] at hre
        have hle : τ ≤ e.dt := hroom
        cases hk : (rtBody p σ).kind with
        | none =>
          simp only [List.mem_singleton]
          intro hnear
          have hn := hnear _ rfl
          rw [hpre] at hn
          rcases rtBody_follows hb hwp hre.1 hre.2 hf hτ hle hn with ⟨_, h2, h3, h4⟩ | ⟨h1, _⟩
          · refine ⟨e :: es', s, τ + σ.timeLeft, Trail.cons hb ht', fun x hx => hx, hwp, h2,
              by linarith, h3, ?_⟩
            rw [h4]; ring
          · rw [hk] at h1; cases h1
        | some ev =>
          simp only [List.mem_cons]
          intro hnear
          have hn := hnear _ (Or.inl rfl)
          rw [hpre] at hn
          rcases rtBody_follows hb hwp hre.1 hre.2 hf hτ hle hn with ⟨h1, _⟩ | ⟨_, h2, h3⟩
          · rw [hk] at h1; cases h1
          · have hwp' := simBody_wellPlaced hb hwp hre.2
            have hroom' : room es' 0 := by
              cases ht' with
              | nil => trivial
              | cons hb2 _ => exact simBody_dt_nonneg hb2 hwp'.1
            obtain ⟨es₁, s₁, τ₁, c1, c2, c3, c4, c5, c6, c7⟩ :=
              ih es' e.post s' (rtBody p σ).post 0 ht' hwp'
                (fun x hx => hreg x (List.mem_cons_of_mem _ hx)) hq1 hq2 h2 (le_refl _) hroom'
                (fun it hit => hnear it (Or.inr hit))
            refine ⟨es₁, s₁, τ₁, c1, fun x hx => Or.inr (c2 x hx), c3, c4, c5,
              c6, ?_⟩
            rw [c7, h3, simBody_post_t hb]; ring
    · rw [if_neg hg]
      intro _
      exact ⟨es, s, τ, ht, fun e he => he, hwp, hf, hτ, hroom, rfl⟩

/-- A sequence of stepper calls from a state that follows a state of a batch trail ends in
a state that follows a later state of the same trail; the batch clock of that state plus
the flight time has advanced by exactly the time the calls consumed. -/
theorem stepMany_follows (p : Params) :
    ∀ (dts : List ℚ) (es : List SimEvent) (s s' : SimState) (st : SimulationState) (τ : ℚ),
      Trail p s es s' → wellPlaced p.size1 s.x1 s.x2 →
      (∀ e ∈ es, ¬ slowToWall e.pre.v1 ∧ ¬ slowClosing e.pre.v1 e.pre.v2) →
      0 ≤ s'.v1 → s'.v1 - s'.v2 ≤ EPS →
      follows (rtInit st 0) s τ → 0 ≤ τ → room es τ →
      (∀ c ∈ stepCalls p dts st, ∀ it ∈ c.passes,
        ¬ nearContact p.size1 it.pre.x1 it.pre.x2 it.pre.v1 it.pre.v2) →
      ∃ es₁ s₁ τ₁, Trail p s₁ es₁ s' ∧ (∀ e ∈ es₁, e ∈ es) ∧
        wellPlaced p.size1 s₁.x1 s₁.x2 ∧ follows (rtInit (stepMany p dts st).1 0) s₁ τ₁ ∧
        0 ≤ τ₁ ∧ room es₁ τ₁ ∧ s₁.t + τ₁ = s.t + τ + consumed (stepCalls p dts st) := by
  intro dts
  induction dts with
  | nil =>
    intro es s s' st τ ht hwp _ _ _ hf hτ hroom _
    exact ⟨es, s, τ, ht, fun e he => he, hwp, hf, hτ, hroom, by simp [stepCalls, consumed]⟩
  | cons dt dts ih =>
    intro es s s' st τ ht hwp hreg hq1 hq2 hf hτ hroom hnear
    have hf0 : follows (rtInit st dt) s τ := hf
    obtain ⟨es₁, s₁, τ₁, c1, c2, c3, c4, c5, c6, c7⟩ :=
      rtLoop_follows p MAX_EVENTS_PER_FRAME es s s' (rtInit st dt) τ ht hwp hreg hq1 hq2 hf0 hτ
        hroom (fun it hit => hnear ⟨dt, (rtRun st p dt).1, (rtRun st p dt).2⟩
          (List.mem_cons_self _ _) it hit)
    have hf1 : follows (rtInit (stepRealtime st p dt) 0) s₁ τ₁ := c4
    obtain ⟨es₂, s₂, τ₂, d1, d2, d3, d4, d5, d6, d7⟩ :=
      ih es₁ s₁ s' (stepRealtime st p dt) τ₁ c1 c3 (fun e he => hreg e (c2 e he)) hq1 hq2 hf1
        c5 c6 (fun c hc => hnear c (List.mem_cons_of_mem _ hc))
    refine ⟨es₂, s₂, τ₂, d1, fun e he => c2 e (d2 e he), d3, d4, d5, d6, ?_⟩
    have hc7 : s₁.t + τ₁ + (rtRun st p dt).1.timeLeft = s.t + τ + dt := c7
    show s₂.t + τ₂ = s.t + τ + ((dt - (rtRun st p dt).1.timeLeft) +
      consumed (stepCalls p dts (stepRealtime st p dt)))
    rw [d7]; linarith

/-- The events the batch loop logs form a trail from the entry state to the result. -/
theorem simLoop_trail (p : Params) (mc : Nat) (mt : ℚ) :
    ∀ (fuel : Nat) (s : SimState),
      Trail p s (simLoop p mc mt fuel s).2 (simLoop p mc mt fuel s).1 := by
  intro fuel
  induction fuel with
  | zero => intro s; exact Trail.nil s
  | succ n ih =>
    intro s
    rw [simLoop_succ]
    by_cases hg : s.collisions < mc ∧ s.t < mt
    · rw [if_pos hg]
      cases hb : simBody p s with
      | none => exact Trail.nil s
      | some e =>
        by_cases hs : separated e.post
        · simp only [hs, if_true]
          exact Trail.cons hb (Trail.nil _)
        · simp only [hs, if_false]
          exact Trail.cons hb (ih e.post)
    · rw [if_neg hg]; exact Trail.nil s

theorem Trail_collisions {p : Params} {s s' : SimState} {es : List SimEvent}
    (h : Trail p s es s') : s'.collisions = s.collisions + es.length := by
  induction h with
  | nil s => simp
  | cons hb _ ih =>
    rw [ih, (simBody_pre hb).2, List.length_cons]; omega

/-- Along a trail from a well-placed state, outside the slow-closing band, the batch clock
does not run backwards. -/
theorem Trail_time_le {p : Params} {s s' : SimState} {es : List SimEvent}
    (h : Trail p s es s') (hwp : wellPlaced p.size1 s.x1 s.x2)
    (hreg : ∀ e ∈ es, ¬ slowClosing e.pre.v1 e.pre.v2) : s.t ≤ s'.t := by
  induction h with
  | nil s => exact le_refl _
  | @cons s e es s' hb _ ih =>
    have hre := hreg e (List.mem_cons_self _ _)
    rw [(simBody_pre hb).1] at hre
    have h1 := ih (simBody_wellPlaced hb hwp hre) (fun x hx => hreg x (List.mem_cons_of_mem _ hx))
    have h2 := simBody_post_t hb
    have h3 := simBody_dt_nonneg hb hwp.1
    linarith

theorem Trail_room_zero {p : Params} {s s' : SimState} {es : List SimEvent}
    (h : Trail p s es s') (hx : 0 ≤ s.x1) : room es 0 := by
  cases h with
  | nil => trivial
  | cons hb _ => exact simBody_dt_nonneg hb hx

theorem timeToBlock_inf_le {size1 x1 x2 v1 v2 : ℚ}
    (h : timeToBlock size1 x1 x2 v1 v2 = .inf) : v1 - v2 ≤ EPS := by
  unfold timeToBlock at h
  by_cases hg : x2 - (x1 + size1) ≤ EPS
  · by_cases hr : v1 - v2 > EPS
    · simp [hg, hr] at h
    · exact not_lt.mp hr
  · by_cases hr : v1 - v2 ≤ EPS
    · exact hr
    · simp [hg, hr] at h

/-- A call that returns before its pass counter reaches the cap has used its budget up to
the tolerance. -/
theorem rtLoop_timeLeft (p : Params) :
    ∀ (f : Nat) (σ : RTVars), MAX_EVENTS_PER_FRAME ≤ σ.iter + f →
      (rtLoop p f σ).1.iter < MAX_EVENTS_PER_FRAME → (rtLoop p f σ).1.timeLeft ≤ EPS := by
  intro f
  induction f with
  | zero =>
    intro σ h1 h2
    have h3 : (rtLoop p 0 σ).1.iter = σ.iter := rfl
    omega
  | succ n ih =>
    intro σ h1
    rw [rtLoop_succ]
    by_cases hg : σ.timeLeft > EPS ∧ σ.iter < MAX_EVENTS_PER_FRAME
    · rw [if_pos hg]
      have hi := rtBody_iter p σ
      cases hk : (rtBody p σ).kind with
      | none =>
        intro _
        rcases rtBody_cases p σ with ⟨_, h⟩ | ⟨_, _, _, _, _, h⟩ | ⟨_, _, _, _, _, h⟩
        · rw [h]; exact EPS_pos.le
        · rw [h] at hk; cases hk
        · rw [h] at hk; cases hk
      | some ev => exact ih (rtBody p σ).post (by omega)
    · rw [if_neg hg]
      intro h2
      by_contra hc
      exact hg ⟨not_le.mp hc, h2⟩

/-- Calls that all return before the pass cap consume each budget up to the tolerance. -/
theorem consumed_ge (p : Params) :
    ∀ (dts : List ℚ) (st : SimulationState),
      (∀ c ∈ stepCalls p dts st, c.passes.length < 80) →
      (dts.map (fun dt => dt - EPS)).sum ≤ consumed (stepCalls p dts st) := by
  intro dts
  induction dts with
  | nil => intro st _; simp [stepCalls, consumed]
  | cons dt dts ih =>
    intro st h
    have h1 := h ⟨dt, (rtRun st p dt).1, (rtRun st p dt).2⟩ (List.mem_cons_self _ _)
    have h2 := ih (stepRealtime st p dt) (fun c hc => h c (List.mem_cons_of_mem _ hc))
    have hiter := (rtLoop_iter p MAX_EVENTS_PER_FRAME (rtInit st dt)).1
    have hlen : (rtRun st p dt).1.iter = (rtRun st p dt).2.length := by
      have h0 : (rtInit st dt).iter = 0 := rfl
      unfold rtRun; omega
    have htl : (rtRun st p dt).1.timeLeft ≤ EPS := by
      apply rtLoop_timeLeft p MAX_EVENTS_PER_FRAME (rtInit st dt) (Nat.le_add_left _ _)
      have h3 : (rtRun st p dt).2.length < 80 := h1
      show (rtRun st p dt).1.iter < 80
      omega
    show (dt - EPS) + (dts.map (fun dt => dt - EPS)).sum ≤
      (dt - (rtRun st p dt).1.timeLeft) + consumed (stepCalls p dts (stepRealtime st p dt))
    linarith

/-- Over exact arithmetic, the stepper follows the batch run.  Take an input with `x1 ≥ 0`
and `x1 + size1 ≤ x2` whose batch run ends below both caps at elapsed time `T` with count
`C`, no event of it resolved from a state with `−ε ≤ v1 < 0` or `0 < v1 − v2 ≤ ε`; apply
`stepRealtime` in succession with the budgets `dts`, from the same state with
`collisions = 0`, no pass starting in near contact (`0 < gap ≤ ε` while closing faster than
`ε`).  Then the stepper's count never exceeds `C`; it equals `C`, with the batch run's final
velocities, as soon as the simulated time the calls consumed exceeds `T`; and that is the
case when no call makes 80 passes and the budgets, each less `ε`, add up to more than `T`. -/
theorem stepper_follows_batch (a : SimArgs) (dts : List ℚ)
    (hx : 0 ≤ a.x1) (hgap : a.x1 + a.size1 ≤ a.x2)
    (hcap : (simulateCollisions a).collisions < a.maxCollisions)
    (htime : (simulateCollisions a).t < a.maxTime)
    (hfast : ∀ e ∈ (simRun a).2, ¬ slowToWall e.pre.v1 ∧ ¬ slowClosing e.pre.v1 e.pre.v2)
    (hnear : ∀ c ∈ stepCalls a.params dts ⟨a.x1, a.x2, a.v1, a.v2, 0⟩, ∀ it ∈ c.passes,
      ¬ nearContact a.size1 it.pre.x1 it.pre.x2 it.pre.v1 it.pre.v2) :
    (stepMany a.params dts ⟨a.x1, a.x2, a.v1, a.v2, 0⟩).1.collisions ≤
      (simulateCollisions a).collisions ∧
    ((simulateCollisions a).t < consumed (stepCalls a.params dts ⟨a.x1, a.x2, a.v1, a.v2, 0⟩) →
      (stepMany a.params dts ⟨a.x1, a.x2, a.v1, a.v2, 0⟩).1.collisions =
        (simulateCollisions a).collisions ∧
      (stepMany a.params dts ⟨a.x1, a.x2, a.v1, a.v2, 0⟩).1.v1 = (simulateCollisions a).v1 ∧
      (stepMany a.params dts ⟨a.x1, a.x2, a.v1, a.v2, 0⟩).1.v2 = (simulateCollisions a).v2) ∧
    ((∀ c ∈ stepCalls a.params dts ⟨a.x1, a.x2, a.v1, a.v2, 0⟩, c.passes.length < 80) →
      (simulateCollisions a).t < (dts.map (fun dt => dt - EPS)).sum →
      (stepMany a.params dts ⟨a.x1, a.x2, a.v1, a.v2, 0⟩).1.collisions =
        (simulateCollisions a).collisions) := by
  have htrail : Trail a.params a.init (simRun a).2 (simulateCollisions a) :=
    simLoop_trail a.params a.maxCollisions a.maxTime a.maxCollisions a.init
  have hquiet := simLoop_uncapped a.params a.maxCollisions a.maxTime a.maxCollisions a.init
    (by simp [SimArgs.init]) hcap htime
  have hq1 : 0 ≤ (simulateCollisions a).v1 := timeToWall_inf hquiet.1
  have hq2 : (simulateCollisions a).v1 - (simulateCollisions a).v2 ≤ EPS :=
    timeToBlock_inf_le hquiet.2
  have hwp : wellPlaced a.params.size1 a.init.x1 a.init.x2 := ⟨hx, hgap⟩
  have hf : follows (rtInit ⟨a.x1, a.x2, a.v1, a.v2, 0⟩ 0) a.init 0 := by
    refine ⟨?_, ?_, rfl, rfl, rfl⟩
    · show a.x1 = a.x1 + a.v1 * 0
      ring
    · show a.x2 = a.x2 + a.v2 * 0
      ring
  have hroom : room (simRun a).2 0 := Trail_room_zero htrail hx
  obtain ⟨es₁, s₁, τ₁, c1, c2, c3, c4, c5, c6, c7⟩ :=
    stepMany_follows a.params dts (simRun a).2 a.init (simulateCollisions a)
      ⟨a.x1, a.x2, a.v1, a.v2, 0⟩ 0 htrail hwp hfast hq1 hq2 hf (le_refl _) hroom hnear
  have hcount : (stepMany a.params dts ⟨a.x1, a.x2, a.v1, a.v2, 0⟩).1.collisions =
      s₁.collisions := c4.2.2.2.2
  have hlen := Trail_collisions c1
  have hclock : s₁.t + τ₁ = consumed (stepCalls a.params dts ⟨a.x1, a.x2, a.v1, a.v2, 0⟩) := by
    have h0 : a.init.t = 0 := rfl
    rw [c7, h0]; ring
  have hexact : (simulateCollisions a).t <
      consumed (stepCalls a.params dts ⟨a.x1, a.x2, a.v1, a.v2, 0⟩) →
      (stepMany a.params dts ⟨a.x1, a.x2, a.v1, a.v2, 0⟩).1.collisions =
        (simulateCollisions a).collisions ∧
      (stepMany a.params dts ⟨a.x1, a.x2, a.v1, a.v2, 0⟩).1.v1 = (simulateCollisions a).v1 ∧
      (stepMany a.params dts ⟨a.x1, a.x2, a.v1, a.v2, 0⟩).1.v2 = (simulateCollisions a).v2 := by
    intro hT
    cases c1 with
    | nil => exact ⟨hcount, c4.2.2.1, c4.2.2.2.1⟩
    | @cons _ e es' _ hb ht' =>
      exfalso
      have hre := (hfast e (c2 e (List.mem_cons_self _ _))).2
      rw [(simBody_pre hb).1] at hre
      have hle : τ₁ ≤ e.dt := c6
      have h1 := Trail_time_le ht' (simBody_wellPlaced hb c3 hre)
        (fun x hx => (hfast x (c2 x (List.mem_cons_of_mem _ hx))).2)
      have h2 := simBody_post_t hb
      linarith
  refine ⟨by omega, hexact, fun hpass hsum => (hexact ?_).1⟩
  exact lt_of_lt_of_le hsum (consumed_ge a.params dts _ hpass)

/-! ## Binary64 arithmetic: rounding and the operators -/

theorem EPSF_eq : EPSF = .num (4951760157141521 / 4951760157141521099596496896) := by decide!

theorem F64_ofNat_eq (n : Nat) : (OfNat.ofNat n : F64) = .num (n : ℚ) := rfl

theorem F64_zero_eq : (0 : F64) = .num 0 := by
  show F64.num ((0 : Nat) : ℚ) = .num 0
  simp

theorem F64_add_def (a b : F64) : a + b = F64.add a b := rfl

theorem F64_sub_def (a b : F64) : a - b = F64.add a (F64.neg b) := rfl

theorem F64_mul_def (a b : F64) : a * b = F64.mul a b := rfl

theorem F64_div_def (a b : F64) : a / b = F64.div a b := rfl

theorem F64_neg_def (a : F64) : -a = F64.neg a := rfl

theorem F64_lt_def (a b : F64) : a < b ↔ F64.lt a b = true := Iff.rfl

theorem F64_le_def (a b : F64) : a ≤ b ↔ F64.le a b = true := Iff.rfl

theorem F64_num_lt_num (a b : ℚ) : F64.num a < F64.num b ↔ a < b := by
  simp [F64_lt_def, F64.lt]

theorem F64_num_le_num (a b : ℚ) : F64.num a ≤ F64.num b ↔ a ≤ b := by
  simp [F64_le_def, F64.le]

/-- Rounding a positive rational gives a non-negative number or `Infinity`. -/
theorem roundPos_sign (n d : Nat) :
    roundPos n d = .pinf ∨ ∃ r : ℚ, 0 ≤ r ∧ roundPos n d = .num r := by
  unfold roundPos
  dsimp only
  split_ifs
  · exact Or.inl rfl
  · exact Or.inr ⟨_, Nat.cast_nonneg _, rfl⟩
  · exact Or.inr ⟨_, div_nonneg (Nat.cast_nonneg _) (Nat.cast_nonneg _), rfl⟩

/-- Rounding keeps the sign: a non-negative exact result rounds to a non-negative number
or overflows to `Infinity`. -/
theorem fl_of_nonneg {q : ℚ} (h : 0 ≤ q) : fl q = .pinf ∨ ∃ r : ℚ, 0 ≤ r ∧ fl q = .num r := by
  unfold fl
  by_cases h0 : q = 0
  · simp [h0]
  · have hq : 0 < q := lt_of_le_of_ne h (Ne.symm h0)
    simp only [h0, if_false, hq, if_true]
    exact roundPos_sign _ _

/-- Rounding keeps the sign: a non-positive exact result rounds to a non-positive number
or overflows to `-Infinity`. -/
theorem fl_of_nonpos {q : ℚ} (h : q ≤ 0) : fl q = .ninf ∨ ∃ r : ℚ, r ≤ 0 ∧ fl q = .num r := by
  unfold fl
  by_cases h0 : q = 0
  · simp [h0]
  · have hq : ¬ 0 < q := not_lt.mpr h
    simp only [h0, if_false, hq]
    rcases roundPos_sign q.num.natAbs q.den with h1 | ⟨r, hr, h1⟩
    · rw [h1]; exact Or.inl rfl
    · rw [h1]; exact Or.inr ⟨-r, by linarith, rfl⟩

/-- Rounding never produces `NaN`. -/
theorem fl_ne_nan (q : ℚ) : fl q ≠ .nan := by
  rcases le_total 0 q with h | h
  · rcases fl_of_nonneg h with h1 | ⟨r, _, h1⟩ <;> rw [h1] <;> simp
  · rcases fl_of_nonpos h with h1 | ⟨r, _, h1⟩ <;> rw [h1] <;> simp

theorem bitLength_zero (fuel : Nat) : bitLength fuel 0 = 0 := by
  cases fuel <;> simp [bitLength]

theorem bitLength_le : ∀ (fuel n b : Nat), n < 2 ^ b → bitLength fuel n ≤ b := by
  intro fuel
  induction fuel with
  | zero => intro n b _; simp [bitLength]
  | succ k ih =>
    intro n b h
    have cut : ∀ j : Nat, 2 ^ j ≤ n → bitLength k (n / 2 ^ j) + j ≤ b := by
      intro j hj
      have hjb : j < b := by
        by_contra hc
        have : 2 ^ b ≤ 2 ^ j := Nat.pow_le_pow_right (by decide) (not_lt.mp hc)
        omega
      have hdiv : n / 2 ^ j < 2 ^ (b - j) := by
        rw [Nat.div_lt_iff_lt_mul (Nat.pow_pos (by decide))]
        rw [← pow_add, Nat.sub_add_cancel hjb.le]
        exact h
      have := ih (n / 2 ^ j) (b - j) hdiv
      omega
    unfold bitLength
    split_ifs with h0 h64 h8
    · exact Nat.zero_le _
    · exact cut 64 h64
    · exact cut 8 h8
    · by_cases h2 : 2 ≤ n
      · simpa using cut 1 (by simpa using h2)
      · have h1 : n = 1 := by omega
        have hb : 0 < b := by
          rcases Nat.eq_zero_or_pos b with hb | hb
          · rw [hb, h1] at h; simp at h
          · exact hb
        rw [h1]
        simp only [Nat.reduceDiv, bitLength_zero]
        omega

theorem roundHalfEven_one (N : Nat) : roundHalfEven N 1 = N := by
  simp [roundHalfEven, Nat.mod_one]

/-- Every natural number below `2 ^ 53` is a binary64 value. -/
theorem fl_natCast_lt {n : Nat} (h : n < 2 ^ 53) : fl (n : ℚ) = .num n := by
  unfold fl
  by_cases h0 : n = 0
  · simp [h0]
  · have hq : (0 : ℚ) < n := by exact_mod_cast Nat.pos_of_ne_zero h0
    have hne : (n : ℚ) ≠ 0 := ne_of_gt hq
    simp only [hne, if_false, hq, if_true, Rat.num_natCast, Rat.den_natCast, Int.natAbs_ofNat]
    have hb : bitLength n n ≤ 53 := bitLength_le n n 53 h
    have hb1 : bitLength 1 1 = 1 := by decide
    have he : floorLog2 n 1 ≤ 52 := by
      unfold floorLog2
      dsimp only
      rw [hb1]
      split_ifs <;> omega
    unfold roundPos
    dsimp only
    by_cases hk : 0 ≤ max (floorLog2 n 1 - 52) (-1074)
    · have hk0 : max (floorLog2 n 1 - 52) (-1074) = 0 := by
        have : max (floorLog2 n 1 - 52) (-1074) ≤ 0 := max_le (by omega) (by omega)
        omega
      rw [if_pos hk, hk0]
      simp only [Int.toNat_zero, pow_zero, mul_one, roundHalfEven_one]
      have : ¬ 2 ^ 1024 ≤ n := fun hc =>
        absurd (Nat.le_trans (Nat.pow_le_pow_right (by decide) (by decide)) hc) (Nat.not_le.mpr h)
      rw [if_neg this]
    · rw [if_neg hk]
      simp only [mul_one, roundHalfEven_one]
      congr 1
      have hpos : ((2 ^ (-max (floorLog2 n 1 - 52) (-1074)).toNat : Nat) : ℚ) ≠ 0 := by
        positivity
      push_cast
      push_cast at hpos
      field_simp

theorem fl_two_pow_53 : fl ((2 ^ 53 : Nat) : ℚ) = .num ((2 ^ 53 : Nat) : ℚ) := by decide!

/-- Every natural number up to `2 ^ 53` is a binary64 value. -/
theorem fl_natCast {n : Nat} (h : n ≤ 2 ^ 53) : fl (n : ℚ) = .num n := by
  rcases Nat.lt_or_eq_of_le h with h | h
  · exact fl_natCast_lt h
  · rw [h]; exact fl_two_pow_53

/-- The statement `collisions += 1` is exact below `2 ^ 53`. -/
theorem F64_count_succ {c : Nat} (h : c < 2 ^ 53) : F64.num (c : ℚ) + 1 = .num ((c + 1 : Nat) : ℚ) := by
  rw [F64_add_def, F64_ofNat_eq]
  show fl ((c : ℚ) + ((1 : Nat) : ℚ)) = _
  rw [← Nat.cast_add]
  exact fl_natCast h

/-! ## The binary64 loops and their ghost logs -/

/-- The three ways a pass of the binary64 batch body can go. -/
theorem simBodyF_cases (p : ParamsF) (s : SimStateF) :
    simBodyF p s = none ∨
    (∃ e, simBodyF p s = some e ∧ e.pre = s ∧ e.kind = .wall ∧
      e.post.collisions = s.collisions + 1 ∧ e.post.v1 = -s.v1 ∧ e.post.v2 = s.v2 ∧
      (F64.min (timeToWallF s) (timeToBlockF p s)).isFinite = true ∧
      F64.same (F64.min (timeToWallF s) (timeToBlockF p s)) (timeToWallF s) = true) ∨
    (∃ e, simBodyF p s = some e ∧ e.pre = s ∧ e.kind = .block ∧
      e.post.collisions = s.collisions + 1 ∧
      e.post.v1 = blockV1F p.m1 p.m2 s.v1 s.v2 ∧ e.post.v2 = blockV2F p.m1 p.m2 s.v1 s.v2 ∧
      (F64.min (timeToWallF s) (timeToBlockF p s)).isFinite = true ∧
      F64.same (F64.min (timeToWallF s) (timeToBlockF p s)) (timeToWallF s) = false) := by
  unfold simBodyF
  dsimp only
  by_cases hf : (F64.min (timeToWallF s) (timeToBlockF p s)).isFinite = false
  · left; rw [if_pos hf]
  · right
    have hf' : (F64.min (timeToWallF s) (timeToBlockF p s)).isFinite = true := by
      simpa using hf
    rw [if_neg hf]
    by_cases hw : F64.same (F64.min (timeToWallF s) (timeToBlockF p s)) (timeToWallF s) = true
    · left; rw [if_pos hw]; exact ⟨_, rfl, rfl, rfl, rfl, rfl, rfl, hf', hw⟩
    · right; rw [if_neg hw]
      exact ⟨_, rfl, rfl, rfl, rfl, rfl, rfl, hf', by simpa using hw⟩

theorem simBodyF_pre {p : ParamsF} {s : SimStateF} {e : SimEventF} (h : simBodyF p s = some e) :
    e.pre = s ∧ e.post.collisions = s.collisions + 1 := by
  rcases simBodyF_cases p s with h' | ⟨e', h', h1, _, h2, _⟩ | ⟨e', h', h1, _, h2, _⟩
  · rw [h'] at h; cases h
  · rw [h'] at h; cases h; exact ⟨h1, h2⟩
  · rw [h'] at h; cases h; exact ⟨h1, h2⟩

/-- One unfolding of the binary64 batch loop. -/
theorem simLoopF_succ (p : ParamsF) (mc mt : F64) (fuel : Nat) (s : SimStateF) :
    simLoopF p mc mt (fuel + 1) s =
      if s.collisions < mc ∧ s.t < mt then
        match simBodyF p s with
        | none => some (s, [])
        | some e =>
          if separatedF e.post then some (e.post, [e])
          else
            match simLoopF p mc mt fuel e.post with
            | none => none
            | some r => some (r.1, e :: r.2)
      else some (s, []) := rfl

theorem simLoopF_zero (p : ParamsF) (mc mt : F64) (s : SimStateF) :
    simLoopF p mc mt 0 s =
      if s.collisions < mc ∧ s.t < mt then none else some (s, []) := rfl

/-- More fuel does not change a run that has ended. -/
theorem simLoopF_fuel_succ (p : ParamsF) (mc mt : F64) :
    ∀ (fuel : Nat) (s : SimStateF) (r : SimStateF × List SimEventF),
      simLoopF p mc mt fuel s = some r → simLoopF p mc mt (fuel + 1) s = some r := by
  intro fuel
  induction fuel with
  | zero =>
    intro s r h
    rw [simLoopF_zero] at h
    rw [simLoopF_succ]
    by_cases hg : s.collisions < mc ∧ s.t < mt
    · rw [if_pos hg] at h; cases h
    · rw [if_neg hg] at h; rw [if_neg hg]; exact h
  | succ n ih =>
    intro s r h
    rw [simLoopF_succ] at h
    rw [simLoopF_succ]
    by_cases hg : s.collisions < mc ∧ s.t < mt
    · rw [if_pos hg] at h; rw [if_pos hg]
      cases hb : simBodyF p s with
      | none => rw [hb] at h; exact h
      | some e =>
        rw [hb] at h
        by_cases hs : separatedF e.post
        · simp only [hs, if_true] at h ⊢; exact h
        · simp only [hs, if_false] at h ⊢
          cases hr : simLoopF p mc mt n e.post with
          | none => rw [hr] at h; cases h
          | some r' =>
            rw [hr] at h
            rw [ih _ _ hr]; exact h
    · rw [if_neg hg] at h; rw [if_neg hg]; exact h

theorem simLoopF_fuel_le (p : ParamsF) (mc mt : F64) (s : SimStateF)
    (r : SimStateF × List SimEventF) {fuel fuel' : Nat} (hle : fuel ≤ fuel')
    (h : simLoopF p mc mt fuel s = some r) : simLoopF p mc mt fuel' s = some r := by
  induction hle with
  | refl => exact h
  | step _ ih => exact simLoopF_fuel_succ p mc mt _ s r ih

/-- Every entry of the binary64 batch log is what `simBodyF` returned at its pre-state. -/
theorem simLoopF_log_body (p : ParamsF) (mc mt : F64) :
    ∀ (fuel : Nat) (s : SimStateF) (r : SimStateF × List SimEventF),
      simLoopF p mc mt fuel s = some r → ∀ e ∈ r.2, simBodyF p e.pre = some e := by
  intro fuel
  induction fuel with
  | zero =>
    intro s r h e he
    rw [simLoopF_zero] at h
    by_cases hg : s.collisions < mc ∧ s.t < mt
    · rw [if_pos hg] at h; cases h
    · rw [if_neg hg] at h; cases h; simp at he
  | succ n ih =>
    intro s r h e he
    rw [simLoopF_succ] at h
    by_cases hg : s.collisions < mc ∧ s.t < mt
    · rw [if_pos hg] at h
      cases hb : simBodyF p s with
      | none => rw [hb] at h; cases h; simp at he
      | some e' =>
        rw [hb] at h
        have hpre := (simBodyF_pre hb).1
        by_cases hs : separatedF e'.post
        · simp only [hs, if_true] at h
          cases h
          simp only [List.mem_singleton] at he
          subst he; rw [hpre]; exact hb
        · simp only [hs, if_false] at h
          cases hr : simLoopF p mc mt n e'.post with
          | none => rw [hr] at h; cases h
          | some r' =>
            rw [hr] at h; cases h
            simp only [List.mem_cons] at he
            rcases he with he | he
            · subst he; rw [hpre]; exact hb
            · exact ih _ _ hr e he
    · rw [if_neg hg] at h; cases h; simp at he

/-- The binary64 batch counter: from a natural count `c`, a run that resolves events up to
a final count of at most `2 ^ 53` returns the entry count plus the number of events. -/
theorem simLoopF_collisions (p : ParamsF) (mc mt : F64) :
    ∀ (fuel : Nat) (s : SimStateF) (c : Nat) (r : SimStateF × List SimEventF),
      simLoopF p mc mt fuel s = some r → s.collisions = .num (c : ℚ) →
      c + r.2.length ≤ 2 ^ 53 → r.1.collisions = .num ((c + r.2.length : Nat) : ℚ) := by
  intro fuel
  induction fuel with
  | zero =>
    intro s c r h hc _
    rw [simLoopF_zero] at h
    by_cases hg : s.collisions < mc ∧ s.t < mt
    · rw [if_pos hg] at h; cases h
    · rw [if_neg hg] at h; cases h; simpa using hc
  | succ n ih =>
    intro s c r h hc hle
    rw [simLoopF_succ] at h
    by_cases hg : s.collisions < mc ∧ s.t < mt
    · rw [if_pos hg] at h
      cases hb : simBodyF p s with
      | none => rw [hb] at h; cases h; simpa using hc
      | some e' =>
        rw [hb] at h
        have hpost := (simBodyF_pre hb).2
        by_cases hs : separatedF e'.post
        · simp only [hs, if_true] at h
          cases h
          simp only [List.length_singleton] at hle ⊢
          rw [hpost, hc]; exact F64_count_succ (by omega)
        · simp only [hs, if_false] at h
          cases hr : simLoopF p mc mt n e'.post with
          | none => rw [hr] at h; cases h
          | some r' =>
            rw [hr] at h; cases h
            simp only [List.length_cons] at hle ⊢
            have h1 : e'.post.collisions = .num ((c + 1 : Nat) : ℚ) := by
              rw [hpost, hc]; exact F64_count_succ (by omega)
            have := ih _ (c + 1) _ hr h1 (by omega)
            rw [this]; congr 2; omega
    · rw [if_neg hg] at h; cases h; simpa using hc

/-- With a cap `maxCollisions = n ≤ 2 ^ 53` the binary64 batch loop ends within `n - c`
passes from count `c`, having resolved at most `n - c` events. -/
theorem simLoopF_returns (p : ParamsF) (n : Nat) (hn : n ≤ 2 ^ 53) (mt : F64) :
    ∀ (fuel : Nat) (s : SimStateF) (c : Nat), s.collisions = .num (c : ℚ) → n ≤ c + fuel →
      ∃ r, simLoopF p (.num n) mt fuel s = some r ∧ (r.2 = [] ∨ c + r.2.length ≤ n) := by
  intro fuel
  induction fuel with
  | zero =>
    intro s c hc hle
    rw [simLoopF_zero]
    have : ¬ (s.collisions < F64.num (n : ℚ) ∧ s.t < mt) := by
      rw [hc, F64_num_lt_num]
      intro h
      have : c < n := by exact_mod_cast h.1
      omega
    rw [if_neg this]
    exact ⟨_, rfl, Or.inl rfl⟩
  | succ k ih =>
    intro s c hc hle
    rw [simLoopF_succ]
    by_cases hg : s.collisions < F64.num (n : ℚ) ∧ s.t < mt
    · rw [if_pos hg]
      have hcn : c < n := by
        have := hg.1
        rw [hc, F64_num_lt_num] at this
        exact_mod_cast this
      cases hb : simBodyF p s with
      | none => exact ⟨_, rfl, Or.inl rfl⟩
      | some e' =>
        have hpost := (simBodyF_pre hb).2
        have h1 : e'.post.collisions = .num ((c + 1 : Nat) : ℚ) := by
          rw [hpost, hc]; exact F64_count_succ (by omega)
        by_cases hs : separatedF e'.post
        · simp only [hs, if_true]
          exact ⟨_, rfl, Or.inr (by simp; omega)⟩
        · simp only [hs, if_false]
          obtain ⟨r', hr', hlen⟩ := ih e'.post (c + 1) h1 (by omega)
          rw [hr']
          refine ⟨_, rfl, Or.inr ?_⟩
          simp only [List.length_cons]
          rcases hlen with hlen | hlen
          · rw [hlen]; simp; omega
          · omega
    · rw [if_neg hg]
      exact ⟨_, rfl, Or.inl rfl⟩

theorem rtBodyF_pre (p : ParamsF) (s : RTVarsF) : (rtBodyF p s).pre = s := by
  unfold rtBodyF
  dsimp only
  split_ifs <;> rfl

theorem rtBodyF_iter (p : ParamsF) (s : RTVarsF) : (rtBodyF p s).post.iter = s.iter + 1 := by
  unfold rtBodyF rtResolveF rtClampF rtAdvanceF
  dsimp only
  split_ifs <;> rfl

theorem rtBodyF_collisions (p : ParamsF) (s : RTVarsF) :
    (rtBodyF p s).post.collisions =
      if (rtBodyF p s).kind = none then s.collisions else s.collisions + 1 := by
  unfold rtBodyF rtResolveF rtClampF rtAdvanceF
  dsimp only
  split_ifs <;> simp_all

/-- One unfolding of the binary64 stepper loop. -/
theorem rtLoopF_succ (p : ParamsF) (fuel : Nat) (s : RTVarsF) :
    rtLoopF p (fuel + 1) s =
      if s.timeLeft > EPSF ∧ s.iter < MAX_EVENTS_PER_FRAME then
        match (rtBodyF p s).kind with
        | none => ((rtBodyF p s).post, [rtBodyF p s])
        | some _ => ((rtLoopF p fuel (rtBodyF p s).post).1,
            rtBodyF p s :: (rtLoopF p fuel (rtBodyF p s).post).2)
      else (s, []) := rfl

/-- Every entry of the binary64 stepper log is the pass `rtBodyF` makes from its
pre-state. -/
theorem rtLoopF_log_body (p : ParamsF) :
    ∀ (fuel : Nat) (s : RTVarsF), ∀ it ∈ (rtLoopF p fuel s).2, it = rtBodyF p it.pre := by
  intro fuel
  induction fuel with
  | zero => intro s it hit; simp [rtLoopF] at hit
  | succ n ih =>
    intro s it hit
    rw [rtLoopF_succ] at hit
    by_cases hg : s.timeLeft > EPSF ∧ s.iter < MAX_EVENTS_PER_FRAME
    · rw [if_pos hg] at hit
      cases hk : (rtBodyF p s).kind with
      | none =>
        rw [hk] at hit
        simp only [List.mem_singleton] at hit
        subst hit; rw [rtBodyF_pre]
      | some ev =>
        rw [hk] at hit
        simp only [List.mem_cons] at hit
        rcases hit with hit | hit
        · subst hit; rw [rtBodyF_pre]
        · exact ih _ _ hit
    · rw [if_neg hg] at hit; simp at hit

/-- The binary64 stepper counter: from a natural count `c` with room for `fuel` more
events below `2 ^ 53`, the loop returns `c` plus the number of events it resolved, and every
pass starts from a natural count below `2 ^ 53`. -/
theorem rtLoopF_collisions (p : ParamsF) :
    ∀ (fuel : Nat) (s : RTVarsF) (c : Nat), s.collisions = .num (c : ℚ) → c + fuel ≤ 2 ^ 53 →
      (rtLoopF p fuel s).1.collisions =
          .num ((c + (rtEventsF (rtLoopF p fuel s).2).length : Nat) : ℚ) ∧
        ∀ it ∈ (rtLoopF p fuel s).2, ∃ k : Nat, k < 2 ^ 53 ∧ it.pre.collisions = .num (k : ℚ) := by
  intro fuel
  induction fuel with
  | zero => intro s c hc _; simpa [rtLoopF, rtEventsF] using hc
  | succ n ih =>
    intro s c hc hle
    rw [rtLoopF_succ]
    by_cases hg : s.timeLeft > EPSF ∧ s.iter < MAX_EVENTS_PER_FRAME
    · rw [if_pos hg]
      have hcol := rtBodyF_collisions p s
      cases hk : (rtBodyF p s).kind with
      | none =>
        rw [hk] at hcol
        simp only [if_true] at hcol
        refine ⟨by simp [rtEventsF, hk, hcol, hc], ?_⟩
        intro it hit
        simp only [List.mem_singleton] at hit
        subst hit
        exact ⟨c, by omega, by rw [rtBodyF_pre]; exact hc⟩
      | some ev =>
        rw [hk] at hcol
        simp only [reduceCtorEq, if_false] at hcol
        have h1 : (rtBodyF p s).post.collisions = .num ((c + 1 : Nat) : ℚ) := by
          rw [hcol, hc]; exact F64_count_succ (by omega)
        obtain ⟨ih1, ih2⟩ := ih (rtBodyF p s).post (c + 1) h1 (by omega)
        refine ⟨?_, ?_⟩
        · simp only [rtEventsF, List.filterMap_cons, hk, List.length_cons]
          simp only [rtEventsF] at ih1
          rw [ih1]; congr 2; omega
        · intro it hit
          simp only [List.mem_cons] at hit
          rcases hit with hit | hit
          · subst hit
            exact ⟨c, by omega, by rw [rtBodyF_pre]; exact hc⟩
          · exact ih2 it hit
    · rw [if_neg hg]
      exact ⟨by simpa [rtEventsF] using hc, by simp⟩

/-- Every event of a binary64 batch run that ends with a count of at most `2 ^ 53` starts
from a natural count below `2 ^ 53`. -/
theorem simLoopF_pre_count (p : ParamsF) (mc mt : F64) :
    ∀ (fuel : Nat) (s : SimStateF) (c : Nat) (r : SimStateF × List SimEventF),
      simLoopF p mc mt fuel s = some r → s.collisions = .num (c : ℚ) →
      c + r.2.length ≤ 2 ^ 53 →
      ∀ e ∈ r.2, ∃ k : Nat, k < 2 ^ 53 ∧ e.pre.collisions = .num (k : ℚ) := by
  intro fuel
  induction fuel with
  | zero =>
    intro s c r h _ _ e he
    rw [simLoopF_zero] at h
    by_cases hg : s.collisions < mc ∧ s.t < mt
    · rw [if_pos hg] at h; cases h
    · rw [if_neg hg] at h; cases h; simp at he
  | succ n ih =>
    intro s c r h hc hle e he
    rw [simLoopF_succ] at h
    by_cases hg : s.collisions < mc ∧ s.t < mt
    · rw [if_pos hg] at h
      cases hb : simBodyF p s with
      | none => rw [hb] at h; cases h; simp at he
      | some e' =>
        rw [hb] at h
        obtain ⟨hpre, hpost⟩ := simBodyF_pre hb
        by_cases hs : separatedF e'.post
        · simp only [hs, if_true] at h
          cases h
          simp only [List.length_singleton] at hle
          simp only [List.mem_singleton] at he
          subst he
          exact ⟨c, by omega, by rw [hpre]; exact hc⟩
        · simp only [hs, if_false] at h
          cases hr : simLoopF p mc mt n e'.post with
          | none => rw [hr] at h; cases h
          | some r' =>
            rw [hr] at h; cases h
            simp only [List.length_cons] at hle
            simp only [List.mem_cons] at he
            rcases he with he | he
            · subst he
              exact ⟨c, by omega, by rw [hpre]; exact hc⟩
            · have h1 : e'.post.collisions = .num ((c + 1 : Nat) : ℚ) := by
                rw [hpost, hc]; exact F64_count_succ (by omega)
              exact ih _ (c + 1) _ hr h1 (by omega) e he
    · rw [if_neg hg] at h; cases h; simp at he

/-! ## The collision counter, over binary64 -/

/-- C3, refuted as stated: `collisions` is a binary64 number, and at `2 ^ 53` the statement
`collisions += 1` leaves it unchanged.  From the default scene of the interface (`x1 = 2`,
`x2 = 4`, `v1 = 0`, `v2 = -1`, `m2 = 100`) with `collisions = 2 ^ 53`, one call of
`stepRealtime` with `dt = 3` resolves 15 events and returns `collisions = 2 ^ 53`. -/
theorem count_stuck_counterexample :
    (rtEventsF (rtRunF ⟨2, 4, 0, -1, .num (2 ^ 53)⟩ ⟨1, 100, 1⟩ 3).2).length = 15 ∧
    (stepRealtimeF ⟨2, 4, 0, -1, .num (2 ^ 53)⟩ ⟨1, 100, 1⟩ 3).collisions = .num (2 ^ 53) ∧
    (stepRealtimeF ⟨2, 4, 0, -1, .num (2 ^ 53)⟩ ⟨1, 100, 1⟩ 3).collisions ≠
      .num (2 ^ 53 + 15) := by
  refine ⟨?_, ?_, ?_⟩ <;> decide!

/-- C3, amended: while the count stays within `2 ^ 53` the counter grows by exactly 1 per
resolved event and never otherwise changes.  In binary64: a run of `simulateCollisions`
that returns after at most `2 ^ 53` events returns their number as `collisions`, every
event raising the count by exactly 1; with `maxCollisions = n ≤ 2 ^ 53` the run does return,
within `n` passes, after at most `n` events.  A call of `stepRealtime` on an input count `c`
with `c + 80 ≤ 2 ^ 53` returns `c` plus the number of passes that resolved a wall or block
event, a pass raising the count by 1 when it resolves an event and by 0 when it does
not. -/
theorem count_tracks_events (a : SimArgsF) (n : Nat) (st : SimulationStateF) (p : ParamsF)
    (dt : F64) (c : Nat)
    (hn : a.maxCollisions = .num (n : ℚ)) (hn53 : n ≤ 2 ^ 53)
    (hc : st.collisions = .num (c : ℚ)) (hc53 : c + MAX_EVENTS_PER_FRAME ≤ 2 ^ 53) :
    (∀ (b : SimArgsF) (fuel : Nat) (r : SimStateF × List SimEventF),
      simRunF fuel b = some r → r.2.length ≤ 2 ^ 53 →
      r.1.collisions = .num (r.2.length : ℚ) ∧
      ∀ e ∈ r.2, ∃ k : Nat, e.pre.collisions = .num (k : ℚ) ∧
        e.post.collisions = .num ((k + 1 : Nat) : ℚ)) ∧
    (∃ r, (∀ fuel, n ≤ fuel → simRunF fuel a = some r) ∧ r.2.length ≤ n ∧
      r.1.collisions = .num (r.2.length : ℚ)) ∧
    (stepRealtimeF st p dt).collisions =
      .num ((c + (rtEventsF (rtRunF st p dt).2).length : Nat) : ℚ) ∧
    (∀ it ∈ (rtRunF st p dt).2, ∃ k : Nat, it.pre.collisions = .num (k : ℚ) ∧
      it.post.collisions = .num ((k + (if it.kind = none then 0 else 1) : Nat) : ℚ)) := by
  have hbatch : ∀ (b : SimArgsF) (fuel : Nat) (r : SimStateF × List SimEventF),
      simRunF fuel b = some r → r.2.length ≤ 2 ^ 53 →
      r.1.collisions = .num (r.2.length : ℚ) ∧
      ∀ e ∈ r.2, ∃ k : Nat, e.pre.collisions = .num (k : ℚ) ∧
        e.post.collisions = .num ((k + 1 : Nat) : ℚ) := by
    intro b fuel r hr hlen
    have h0 : b.init.collisions = .num ((0 : Nat) : ℚ) := rfl
    have h1 := simLoopF_collisions _ _ _ fuel b.init 0 r hr h0 (by omega)
    refine ⟨by simpa using h1, ?_⟩
    intro e he
    obtain ⟨k, hk, hpre⟩ := simLoopF_pre_count _ _ _ fuel b.init 0 r hr h0 (by omega) e he
    have hb := simLoopF_log_body _ _ _ fuel b.init r hr e he
    refine ⟨k, hpre, ?_⟩
    rw [(simBodyF_pre hb).2, hpre]
    exact F64_count_succ hk
  refine ⟨hbatch, ?_, ?_, ?_⟩
  · have h0 : a.init.collisions = .num ((0 : Nat) : ℚ) := rfl
    obtain ⟨r, hr, hlen⟩ := simLoopF_returns a.params n hn53 a.maxTime n a.init 0 h0 (by omega)
    have hr' : simRunF n a = some r := by
      unfold simRunF; rw [hn]; exact hr
    have hlen' : r.2.length ≤ n := by
      rcases hlen with h | h
      · rw [h]; simp
      · omega
    refine ⟨r, fun fuel hf => ?_, hlen', (hbatch a n r hr' (by omega)).1⟩
    exact simLoopF_fuel_le _ _ _ _ r hf hr'
  · have h := (rtLoopF_collisions p MAX_EVENTS_PER_FRAME (rtInitF st dt) c hc hc53).1
    exact h
  · intro it hit
    obtain ⟨k, hk, hpre⟩ :=
      (rtLoopF_collisions p MAX_EVENTS_PER_FRAME (rtInitF st dt) c hc hc53).2 it hit
    have hb := rtLoopF_log_body p _ _ it hit
    have hcol := rtBodyF_collisions p it.pre
    rw [← hb] at hcol
    refine ⟨k, hpre, ?_⟩
    rw [hcol, hpre]
    by_cases hkind : it.kind = none
    · simp [hkind]
    · simp only [hkind, if_false]
      exact F64_count_succ hk

/-- Witness for C3 (amended): the default batch run resolves 31 events and returns 31; a
stepper call of budget 3 from the default scene of the interface, with 7 collisions already
counted, resolves 15 events and returns 22. -/
theorem count_tracks_events_witness :
    (simulateCollisionsF 5000000 {}).map (fun s => s.collisions) = some 31 ∧
    (rtEventsF (rtRunF ⟨2, 4, 0, -1, 7⟩ ⟨1, 100, 1⟩ 3).2).length = 15 ∧
    (stepRealtimeF ⟨2, 4, 0, -1, 7⟩ ⟨1, 100, 1⟩ 3).collisions =
      .num ((7 + (rtEventsF (rtRunF ⟨2, 4, 0, -1, 7⟩ ⟨1, 100, 1⟩ 3).2).length : Nat) : ℚ) :=
  ⟨by decide!, by decide!,
    (count_tracks_events {} 5000000 ⟨2, 4, 0, -1, 7⟩ ⟨1, 100, 1⟩ 3 7 rfl (by norm_num) rfl
      (by norm_num [MAX_EVENTS_PER_FRAME])).2.2.1⟩

/-! ## Stopping, over binary64 -/

theorem EPSF_pos : ∃ e : ℚ, 0 < e ∧ EPSF = .num e :=
  ⟨_, by norm_num, EPSF_eq⟩

theorem F64_min_eq_pinf {a b : F64} : F64.min a b = .pinf ↔ a = .pinf ∧ b = .pinf := by
  cases a <;> cases b <;> simp [F64.min]
  split_ifs <;> simp

/-- When `Math.min` of two numbers, neither `NaN` nor `-Infinity`, is not finite, both are
`Infinity`. -/
theorem F64_min_not_finite {a b : F64} (h : (F64.min a b).isFinite = false)
    (ha : a ≠ .nan) (ha' : a ≠ .ninf) (hb : b ≠ .nan) (hb' : b ≠ .ninf) :
    a = .pinf ∧ b = .pinf := by
  cases a <;> cases b <;> simp_all [F64.min, F64.isFinite]
  split_ifs at h

/-- Under the stopping condition of line 67 binary64 velocities have a closing speed that
is at most `EPS`, unless both are `Infinity`. -/
theorem separatedF_relV {s : SimStateF} (h : separatedF s) :
    (s.v1 - s.v2 ≤ EPSF ∧ ¬ (s.v1 - s.v2 > EPSF)) ∨ (s.v1 = .pinf ∧ s.v2 = .pinf) := by
  obtain ⟨e, he, hE⟩ := EPSF_pos
  obtain ⟨h1, _, h3⟩ := h
  rw [hE]
  cases hv1 : s.v1 with
  | nan => rw [hv1] at h1; exact absurd h1 (by decide)
  | ninf => rw [hv1] at h1; exact absurd h1 (by decide)
  | pinf =>
    rw [hv1] at h3
    cases hv2 : s.v2 with
    | pinf => exact Or.inr ⟨rfl, rfl⟩
    | num b => rw [hv2] at h3; exact absurd h3 (by simp [GE.ge, F64_le_def, F64.le])
    | ninf => rw [hv2] at h3; exact absurd h3 (by decide)
    | nan => rw [hv2] at h3; exact absurd h3 (by decide)
  | num a =>
    rw [hv1] at h3
    left
    cases hv2 : s.v2 with
    | nan => rw [hv2] at h3; exact absurd h3 (by simp [GE.ge, F64_le_def, F64.le])
    | ninf => rw [hv2] at h3; exact absurd h3 (by simp [GE.ge, F64_le_def, F64.le])
    | pinf =>
      have : F64.num a - F64.pinf = .ninf := rfl
      rw [this]
      exact ⟨by simp [F64_le_def, F64.le], by simp [GT.gt, F64_lt_def, F64.lt]⟩
    | num b =>
      rw [hv2] at h3
      have hab : b ≥ a := by simpa [GE.ge, F64_le_def, F64.le] using h3
      have hsub : F64.num a - F64.num b = fl (a + -b) := rfl
      rw [hsub]
      rcases fl_of_nonpos (q := a + -b) (by linarith) with h' | ⟨r, hr, h'⟩
      · rw [h']
        exact ⟨by simp [F64_le_def, F64.le], by simp [GT.gt, F64_lt_def, F64.lt]⟩
      · rw [h']
        refine ⟨by simp [F64_le_def, F64.le]; linarith, ?_⟩
        simp only [GT.gt, F64_lt_def, F64.lt, decide_eq_true_eq, not_lt]
        linarith

/-- Under the stopping condition of line 67 the binary64 wall time is `Infinity`, and the
block time is `Infinity` or, when both velocities are `Infinity`, possibly `NaN`. -/
theorem separatedF_no_event (p : ParamsF) (s : SimStateF) (h : separatedF s) :
    timeToWallF s = .pinf ∧
    (timeToBlockF p s = .pinf ∨ timeToBlockF p s = .nan) ∧
    (s.v1 ≠ .pinf → timeToBlockF p s = .pinf) := by
  refine ⟨?_, ?_, ?_⟩
  · unfold timeToWallF; rw [if_pos h.1]
  · unfold timeToBlockF
    dsimp only
    rcases separatedF_relV h with ⟨h1, h2⟩ | ⟨h1, h2⟩
    · left
      split_ifs <;> rfl
    · have hrel : s.v1 - s.v2 = .nan := by rw [h1, h2]; rfl
      rw [hrel]
      have hn1 : ¬ (F64.nan > EPSF) := by simp [GT.gt, F64_lt_def]; cases EPSF <;> rfl
      have hn2 : ¬ (F64.nan ≤ EPSF) := by simp [F64_le_def]; rfl
      rw [if_neg hn1, if_neg hn2]
      by_cases hg : s.x2 - (s.x1 + p.size1) ≤ EPSF
      · rw [if_pos hg]; exact Or.inl rfl
      · rw [if_neg hg]; right
        show F64.div _ .nan = .nan
        cases (s.x2 - (s.x1 + p.size1)) <;> rfl
  · intro hv
    unfold timeToBlockF
    dsimp only
    rcases separatedF_relV h with ⟨h1, h2⟩ | ⟨h1, _⟩
    · split_ifs <;> rfl
    · exact absurd h1 hv

/-- With a binary64 batch pass that resolves no event, `Math.min` of the two predicted
times is not finite. -/
theorem simBodyF_none {p : ParamsF} {s : SimStateF} (h : simBodyF p s = none) :
    (F64.min (timeToWallF s) (timeToBlockF p s)).isFinite = false := by
  rcases simBodyF_cases p s with h' | ⟨e, h', _⟩ | ⟨e, h', _⟩
  · unfold simBodyF at h'
    dsimp only at h'
    by_contra hc
    rw [if_neg hc] at h'
    split_ifs at h'
  · rw [h'] at h; cases h
  · rw [h'] at h; cases h

/-- A binary64 batch run that returns below both caps left the loop by the `break` of line
43 or by the stopping condition of line 67, both evaluated in the returned state. -/
theorem simLoopF_uncapped (p : ParamsF) (mc mt : F64) :
    ∀ (fuel : Nat) (s : SimStateF) (r : SimStateF × List SimEventF),
      simLoopF p mc mt fuel s = some r → r.1.collisions < mc → r.1.t < mt →
      simBodyF p r.1 = none ∨ separatedF r.1 := by
  intro fuel
  induction fuel with
  | zero =>
    intro s r h hc ht
    rw [simLoopF_zero] at h
    by_cases hg : s.collisions < mc ∧ s.t < mt
    · rw [if_pos hg] at h; cases h
    · rw [if_neg hg] at h; cases h; exact absurd ⟨hc, ht⟩ hg
  | succ n ih =>
    intro s r h hc ht
    rw [simLoopF_succ] at h
    by_cases hg : s.collisions < mc ∧ s.t < mt
    · rw [if_pos hg] at h
      cases hb : simBodyF p s with
      | none => rw [hb] at h; cases h; exact Or.inl hb
      | some e' =>
        rw [hb] at h
        by_cases hs : separatedF e'.post
        · simp only [hs, if_true] at h
          cases h; exact Or.inr hs
        · simp only [hs, if_false] at h
          cases hr : simLoopF p mc mt n e'.post with
          | none => rw [hr] at h; cases h
          | some r' =>
            rw [hr] at h; cases h
            exact ih _ r' hr hc ht
    · rw [if_neg hg] at h; cases h; exact absurd ⟨hc, ht⟩ hg

/-- C5, refuted as stated: with `m1 = 1`, `m2 = 1e308` and the other arguments at their
defaults, the binary64 run returns after 4 collisions at `t = 2`, below both caps, with
`v1 = v2 = Infinity` and `x2 = NaN`.  The stopping condition of line 67 holds there, and
`timeToBlock` evaluated on the returned state is `NaN`, not `Infinity`. -/
theorem nan_after_uncapped_return_counterexample :
    simulateCollisionsF 10 heavyBlock = some ⟨4, 2, 0, .nan, .pinf, .pinf⟩ ∧
    (4 : F64) < heavyBlock.maxCollisions ∧ (2 : F64) < heavyBlock.maxTime ∧
    separatedF ⟨4, 2, 0, .nan, .pinf, .pinf⟩ ∧
    timeToBlockF heavyBlock.params ⟨4, 2, 0, .nan, .pinf, .pinf⟩ = .nan ∧
    timeToBlockF heavyBlock.params ⟨4, 2, 0, .nan, .pinf, .pinf⟩ ≠ .pinf := by
  refine ⟨?_, ?_, ?_, ?_, ?_, ?_⟩ <;> decide!

/-- C5, amended: if the binary64 `simulateCollisions` returns with
`collisions < maxCollisions` and `t < maxTime`, no finite event time is predicted in the
returned state: `Math.min(timeToWall, timeToBlock)` is `Infinity`, `-Infinity` or `NaN`
there, and both times are `Infinity` unless one of them is `NaN` or `-Infinity`.  Whenever
the stopping condition `v1 ≥ 0 ∧ v2 ≥ 0 ∧ v2 ≥ v1` holds, `timeToWall` is `Infinity` and
`timeToBlock` is `Infinity` or `NaN`, and it is `Infinity` when `v1` is not `Infinity`. -/
theorem no_finite_event_after_uncapped_return (a : SimArgsF) (fuel : Nat) (s : SimStateF)
    (hrun : simulateCollisionsF fuel a = some s)
    (hc : s.collisions < a.maxCollisions) (ht : s.t < a.maxTime) :
    (F64.min (timeToWallF s) (timeToBlockF a.params s)).isFinite = false ∧
    (timeToWallF s ≠ .nan → timeToWallF s ≠ .ninf → timeToBlockF a.params s ≠ .nan →
      timeToBlockF a.params s ≠ .ninf →
      timeToWallF s = .pinf ∧ timeToBlockF a.params s = .pinf) ∧
    (∀ s' : SimStateF, separatedF s' →
      timeToWallF s' = .pinf ∧
      (timeToBlockF a.params s' = .pinf ∨ timeToBlockF a.params s' = .nan) ∧
      (s'.v1 ≠ .pinf → timeToBlockF a.params s' = .pinf)) := by
  have hmin : (F64.min (timeToWallF s) (timeToBlockF a.params s)).isFinite = false := by
    unfold simulateCollisionsF at hrun
    cases hr : simRunF fuel a with
    | none => rw [hr] at hrun; cases hrun
    | some r =>
      rw [hr] at hrun
      simp only [Option.map_some', Option.some.injEq] at hrun
      subst hrun
      rcases simLoopF_uncapped a.params a.maxCollisions a.maxTime fuel a.init r hr hc ht with
        h | h
      · exact simBodyF_none h
      · obtain ⟨h1, h2, _⟩ := separatedF_no_event a.params r.1 h
        rw [h1]
        rcases h2 with h2 | h2 <;> rw [h2] <;> rfl
  refine ⟨hmin, ?_, fun s' hs' => separatedF_no_event a.params s' hs'⟩
  intro h1 h2 h3 h4
  exact F64_min_not_finite hmin h1 h2 h3 h4

/-- Witness for C5 (amended): the default binary64 run returns after 31 collisions at a
time below `1e9`, with both predicted times `Infinity`. -/
theorem no_finite_event_after_uncapped_return_witness :
    simulateCollisionsF 5000000 {} = some defaultReturnF ∧
    defaultReturnF.collisions < ({} : SimArgsF).maxCollisions ∧
    defaultReturnF.t < ({} : SimArgsF).maxTime ∧
    timeToWallF defaultReturnF = .pinf ∧
    timeToBlockF ({} : SimArgsF).params defaultReturnF = .pinf :=
  ⟨by decide!, by decide!, by decide!,
    (no_finite_event_after_uncapped_return {} 5000000 defaultReturnF (by decide!) (by decide!)
      (by decide!)).2.1 (by decide!) (by decide!) (by decide!) (by decide!)⟩

/-! ## Alternation of events, over binary64 -/

/-- A finite `Math.min` is one of its operands, which is then finite. -/
theorem F64_min_finite {a b : F64} (h : (F64.min a b).isFinite = true) :
    (F64.same (F64.min a b) a = true ∧ a.isFinite = true) ∨
    (F64.same (F64.min a b) a = false ∧ F64.min a b = b ∧ b.isFinite = true) := by
  cases a <;> cases b <;> simp_all [F64.min, F64.isFinite, F64.same]
  rename_i x y
  by_cases hxy : x ≤ y
  · simp [hxy, F64.same]
  · simp only [hxy, if_false, F64.same, decide_eq_true_eq, decide_eq_false_iff_not]
    by_cases hyx : y = x
    · left; exact hyx
    · right; exact ⟨hyx, fun h => h.elim⟩

/-- The binary64 block time of `simulateCollisions` is finite only for a closing speed
above `EPS`. -/
theorem timeToBlockF_finite {p : ParamsF} {s : SimStateF}
    (h : (timeToBlockF p s).isFinite = true) : s.v1 - s.v2 > EPSF := by
  obtain ⟨e, _, hE⟩ := EPSF_pos
  unfold timeToBlockF at h
  dsimp only at h
  by_cases hg : s.x2 - (s.x1 + p.size1) ≤ EPSF
  · rw [if_pos hg] at h
    by_cases hr : s.v1 - s.v2 > EPSF
    · exact hr
    · rw [if_neg hr] at h; cases h
  · rw [if_neg hg] at h
    by_cases hr : s.v1 - s.v2 ≤ EPSF
    · rw [if_pos hr] at h; cases h
    · rw [if_neg hr] at h
      rw [hE] at hr ⊢
      cases hrel : s.v1 - s.v2 with
      | num r =>
        rw [hrel] at hr
        simp only [F64_le_def, F64.le, decide_eq_true_eq, not_le] at hr
        simpa [GT.gt, F64_lt_def, F64.lt] using hr
      | pinf => simp [GT.gt, F64_lt_def, F64.lt]
      | ninf => rw [hrel] at hr; exact absurd (by simp [F64_le_def, F64.le]) hr
      | nan =>
        rw [hrel] at h
        have : (s.x2 - (s.x1 + p.size1)) / F64.nan = .nan := by
          show F64.div _ .nan = .nan
          cases (s.x2 - (s.x1 + p.size1)) <;> rfl
        rw [this] at h; cases h

/-- The stepper's binary64 block time is finite only for a closing speed above `EPS`. -/
theorem rtDtBlockF_finite {p : ParamsF} {s : RTVarsF}
    (h : (rtDtBlockF p s).isFinite = true) : s.v1 - s.v2 > EPSF := by
  unfold rtDtBlockF at h
  dsimp only at h
  by_cases hr : s.v1 - s.v2 > EPSF
  · exact hr
  · simp only [hr, if_false] at h
    split_ifs at h <;> cases h

/-- The binary64 wall time of `simulateCollisions` is finite only when `v1 >= 0` fails,
and then `-v1` is positive. -/
theorem timeToWallF_finite {s : SimStateF} (h : (timeToWallF s).isFinite = true) :
    ¬ (s.v1 ≥ 0) ∧ -s.v1 > 0 := by
  unfold timeToWallF at h
  by_cases hv : s.v1 ≥ 0
  · rw [if_pos hv] at h; cases h
  · refine ⟨hv, ?_⟩
    rw [if_neg hv] at h
    rw [F64_zero_eq] at hv ⊢
    cases hv1 : s.v1 with
    | num a =>
      rw [hv1] at hv
      simp only [GE.ge, F64_le_def, F64.le, decide_eq_true_eq, not_le] at hv
      show F64.num 0 < F64.num (-a)
      rw [F64_num_lt_num]; linarith
    | pinf => rw [hv1] at hv; exact absurd (by simp [GE.ge, F64_le_def, F64.le]) hv
    | ninf => show F64.num 0 < F64.pinf; simp [F64_lt_def, F64.lt]
    | nan =>
      rw [hv1] at h
      have : (0 - s.x1) / F64.nan = .nan := by
        show F64.div _ .nan = .nan
        cases (0 - s.x1) <;> rfl
      rw [this] at h; cases h

/-- The stepper's binary64 wall time is finite only for `v1 < -EPS`, and then `-v1` is
positive. -/
theorem rtDtWallF_finite {s : RTVarsF} (h : (rtDtWallF s).isFinite = true) :
    s.v1 < -EPSF ∧ -s.v1 > 0 := by
  obtain ⟨e, he, hE⟩ := EPSF_pos
  unfold rtDtWallF at h
  by_cases hv : s.v1 < -EPSF
  · refine ⟨hv, ?_⟩
    rw [hE] at hv
    rw [F64_zero_eq]
    cases hv1 : s.v1 with
    | num a =>
      rw [hv1] at hv
      have hv' : a < -e := by
        have : F64.num a < F64.num (-e) := hv
        rwa [F64_num_lt_num] at this
      show F64.num 0 < F64.num (-a)
      rw [F64_num_lt_num]; linarith
    | pinf => rw [hv1] at hv; exact absurd hv (by simp [F64_lt_def, F64.lt, F64_neg_def, F64.neg])
    | ninf => show F64.num 0 < F64.pinf; simp [F64_lt_def, F64.lt]
    | nan => rw [hv1] at hv; exact absurd hv (by simp [F64_lt_def, F64.lt, F64_neg_def, F64.neg])
  · rw [if_neg hv] at h; cases h

theorem F64_pos_ge {a : F64} (h : a > 0) : a ≥ 0 := by
  rw [F64_zero_eq] at h ⊢
  cases a with
  | num q =>
    have : (0 : ℚ) < q := by simpa [GT.gt, F64_lt_def, F64.lt] using h
    simp [GE.ge, F64_le_def, F64.le, this.le]
  | pinf => simp [GE.ge, F64_le_def, F64.le]
  | ninf => exact absurd h (by simp [GT.gt, F64_lt_def, F64.lt])
  | nan => exact absurd h (by simp [GT.gt, F64_lt_def, F64.lt])

/-- With `v1 >= 0` the stepper's binary64 wall time is `Infinity`. -/
theorem rtDtWallF_of_ge {s : RTVarsF} (h : s.v1 ≥ 0) : rtDtWallF s = .pinf := by
  obtain ⟨e, he, hE⟩ := EPSF_pos
  unfold rtDtWallF
  have : ¬ (s.v1 < -EPSF) := by
    rw [hE]
    rw [F64_zero_eq] at h
    cases hv1 : s.v1 with
    | num a =>
      rw [hv1] at h
      have ha : 0 ≤ a := by simpa [GE.ge, F64_le_def, F64.le] using h
      show ¬ (F64.num a < F64.num (-e))
      rw [F64_num_lt_num]; linarith
    | pinf => simp [F64_lt_def, F64.lt]
    | ninf => rw [hv1] at h; exact absurd h (by simp [GE.ge, F64_le_def, F64.le])
    | nan => rw [hv1] at h; exact absurd h (by simp [GE.ge, F64_le_def, F64.le])
  rw [if_neg this]

/-- After an event of the binary64 batch loop, a wall event leaves `v1 ≥ 0`. -/
theorem simBodyF_wall_excludes {p : ParamsF} {s : SimStateF} {e : SimEventF}
    (h : simBodyF p s = some e) (hk : e.kind = .wall) : e.post.v1 > 0 := by
  rcases simBodyF_cases p s with h' | ⟨e', h', _, _, _, hv, _, hf, hw⟩ |
      ⟨e', h', _, hk', _⟩
  · rw [h'] at h; cases h
  · rw [h'] at h; cases h
    rw [hv]
    have hfin : (timeToWallF s).isFinite = true := by
      rcases F64_min_finite hf with ⟨_, ha⟩ | ⟨hs, _⟩
      · exact ha
      · rw [hw] at hs; cases hs
    exact (timeToWallF_finite hfin).2
  · rw [h'] at h; cases h
    rw [hk'] at hk; cases hk

/-- The binary64 batch loop resolves no event of a kind the velocities rule out. -/
theorem simBodyF_kind_ne {p : ParamsF} {s : SimStateF} {e : SimEventF} {k : Event}
    (hex : excludesF k s.v1 s.v2) (h : simBodyF p s = some e) : k ≠ e.kind := by
  rcases simBodyF_cases p s with h' | ⟨e', h', _, hk', _, _, _, hf, hw⟩ |
      ⟨e', h', _, hk', _, _, _, hf, hw⟩
  · rw [h'] at h; cases h
  · rw [h'] at h; cases h
    rw [hk']
    intro hk
    subst hk
    have hfin : (timeToWallF s).isFinite = true := by
      rcases F64_min_finite hf with ⟨_, ha⟩ | ⟨hs, _⟩
      · exact ha
      · rw [hw] at hs; cases hs
    exact (timeToWallF_finite hfin).1 hex
  · rw [h'] at h; cases h
    rw [hk']
    intro hk
    subst hk
    have hfin : (timeToBlockF p s).isFinite = true := by
      rcases F64_min_finite hf with ⟨hs, _⟩ | ⟨_, _, hb⟩
      · rw [hw] at hs; cases hs
      · exact hb
    exact hex (timeToBlockF_finite hfin)

/-- One unfolding of the trace of the binary64 batch loop. -/
theorem simTraceF_succ (p : ParamsF) (mc mt : F64) (fuel : Nat) (s : SimStateF) :
    simTraceF p mc mt (fuel + 1) s =
      if s.collisions < mc ∧ s.t < mt then
        match simBodyF p s with
        | none => []
        | some e =>
          if separatedF e.post then [e]
          else e :: simTraceF p mc mt fuel e.post
      else [] := rfl

/-- The log of a binary64 batch run that has ended is the trace of its passes. -/
theorem simLoopF_trace (p : ParamsF) (mc mt : F64) :
    ∀ (fuel : Nat) (s : SimStateF) (r : SimStateF × List SimEventF),
      simLoopF p mc mt fuel s = some r → r.2 = simTraceF p mc mt fuel s := by
  intro fuel
  induction fuel with
  | zero =>
    intro s r h
    rw [simLoopF_zero] at h
    by_cases hg : s.collisions < mc ∧ s.t < mt
    · rw [if_pos hg] at h; cases h
    · rw [if_neg hg] at h; cases h; rfl
  | succ n ih =>
    intro s r h
    rw [simLoopF_succ] at h
    rw [simTraceF_succ]
    by_cases hg : s.collisions < mc ∧ s.t < mt
    · rw [if_pos hg] at h; rw [if_pos hg]
      cases hb : simBodyF p s with
      | none => rw [hb] at h; cases h; rfl
      | some e' =>
        rw [hb] at h
        by_cases hs : separatedF e'.post
        · simp only [hs, if_true] at h ⊢
          cases h; rfl
        · simp only [hs, if_false] at h ⊢
          cases hr : simLoopF p mc mt n e'.post with
          | none => rw [hr] at h; cases h
          | some r' =>
            rw [hr] at h; cases h
            show e' :: r'.2 = e' :: simTraceF p mc mt n e'.post
            rw [ih _ r' hr]
    · rw [if_neg hg] at h; rw [if_neg hg]; cases h; rfl

/-- The kinds of the events of a binary64 batch trace alternate, and do not start with a
kind the entry velocities rule out, provided no block event of the trace leaves a closing
speed above `EPS`. -/
theorem simTraceF_chain (p : ParamsF) (mc mt : F64) :
    ∀ (fuel : Nat) (s : SimStateF) (k : Event), excludesF k s.v1 s.v2 →
      (∀ e ∈ simTraceF p mc mt fuel s, e.kind = .block →
        excludesF .block e.post.v1 e.post.v2) →
      List.Chain (fun a b => a ≠ b) k ((simTraceF p mc mt fuel s).map (fun e => e.kind)) := by
  intro fuel
  induction fuel with
  | zero => intro s k _ _; exact List.Chain.nil
  | succ n ih =>
    intro s k hex
    rw [simTraceF_succ]
    by_cases hg : s.collisions < mc ∧ s.t < mt
    · rw [if_pos hg]
      cases hb : simBodyF p s with
      | none => intro _; exact List.Chain.nil
      | some e =>
        have hne := simBodyF_kind_ne hex hb
        have hpost : (∀ e' ∈ [e], e'.kind = .block → excludesF .block e'.post.v1 e'.post.v2) →
            excludesF e.kind e.post.v1 e.post.v2 := by
          intro H
          cases hk : e.kind with
          | wall => exact F64_pos_ge (simBodyF_wall_excludes hb hk)
          | block => exact H e (List.mem_singleton.mpr rfl) hk
        by_cases hs : separatedF e.post
        · simp only [hs, if_true, List.map_cons, List.map_nil]
          intro _
          exact List.Chain.cons hne List.Chain.nil
        · simp only [hs, if_false, List.map_cons]
          intro H
          refine List.Chain.cons hne (ih e.post e.kind ?_ ?_)
          · exact hpost (fun e' he' => H e' (by
              rw [List.mem_singleton] at he'; rw [he']; exact List.mem_cons_self _ _))
          · exact fun e' he' => H e' (List.mem_cons_of_mem _ he')
    · rw [if_neg hg]; intro _; exact List.Chain.nil

theorem simTraceF_chain' (p : ParamsF) (mc mt : F64) (fuel : Nat) (s : SimStateF)
    (H : ∀ e ∈ simTraceF p mc mt fuel s, e.kind = .block →
      excludesF .block e.post.v1 e.post.v2) :
    List.Chain' (fun a b => a ≠ b) ((simTraceF p mc mt fuel s).map (fun e => e.kind)) := by
  cases fuel with
  | zero => exact List.chain'_nil
  | succ n =>
    rw [simTraceF_succ] at H ⊢
    by_cases hg : s.collisions < mc ∧ s.t < mt
    · rw [if_pos hg] at H ⊢
      cases hb : simBodyF p s with
      | none => exact List.chain'_nil
      | some e =>
        rw [hb] at H
        by_cases hs : separatedF e.post
        · simp only [hs, if_true, List.map_cons, List.map_nil]
          exact List.chain'_singleton _
        · simp only [hs, if_false, List.map_cons] at H ⊢
          refine simTraceF_chain p mc mt n e.post e.kind ?_
            (fun e' he' => H e' (List.mem_cons_of_mem _ he'))
          cases hk : e.kind with
          | wall => exact F64_pos_ge (simBodyF_wall_excludes hb hk)
          | block => exact H e (List.mem_cons_self _ _) hk
    · rw [if_neg hg]; exact List.chain'_nil

/-- The three ways a pass of the binary64 stepper can go. -/
theorem rtBodyF_cases (p : ParamsF) (s : RTVarsF) :
    ((rtBodyF p s).kind = none ∧ (rtBodyF p s).post = rtAdvanceF s) ∨
    ((rtBodyF p s).kind = some .wall ∧ (rtBodyF p s).post.v1 = -s.v1 ∧
      (rtBodyF p s).post.v2 = s.v2 ∧ rtNextF p s ≥ 0 ∧ rtNextF p s ≤ s.timeLeft ∧
      F64.same (rtNextF p s) (rtDtWallF s) = true) ∨
    ((rtBodyF p s).kind = some .block ∧
      (rtBodyF p s).post.v1 = blockV1F p.m1 p.m2 s.v1 s.v2 ∧
      (rtBodyF p s).post.v2 = blockV2F p.m1 p.m2 s.v1 s.v2 ∧
      rtNextF p s ≥ 0 ∧ rtNextF p s ≤ s.timeLeft ∧
      F64.same (rtNextF p s) (rtDtWallF s) = false) := by
  unfold rtBodyF
  dsimp only
  by_cases hb : rtNextF p s ≥ 0 ∧ rtNextF p s ≤ s.timeLeft
  · rw [if_pos hb]
    right
    unfold rtResolveF rtClampF
    dsimp only
    by_cases hw : F64.same (rtNextF p s) (rtDtWallF s) = true
    · left; rw [if_pos hw]; exact ⟨rfl, rfl, rfl, hb.1, hb.2, hw⟩
    · right; rw [if_neg hw]; exact ⟨rfl, rfl, rfl, hb.1, hb.2, by simpa using hw⟩
  · rw [if_neg hb]; left; exact ⟨rfl, rfl⟩

/-- A selected time within a budget other than `Infinity` is finite. -/
theorem F64_finite_of_within {a b : F64} (h0 : a ≥ 0) (h : a ≤ b) (hb : b ≠ .pinf) :
    a.isFinite = true := by
  rw [F64_zero_eq] at h0
  cases a with
  | num q => rfl
  | pinf => cases b <;> simp_all [F64_le_def, F64.le]
  | ninf => exact absurd h0 (by simp [GE.ge, F64_le_def, F64.le])
  | nan => exact absurd h0 (by simp [GE.ge, F64_le_def, F64.le])

/-- With a remaining budget other than `Infinity`, a wall event of the binary64 stepper
leaves `v1 > 0`. -/
theorem rtBodyF_wall_excludes (p : ParamsF) (s : RTVarsF) (hfin : s.timeLeft ≠ .pinf)
    (h : (rtBodyF p s).kind = some .wall) : (rtBodyF p s).post.v1 > 0 := by
  rcases rtBodyF_cases p s with ⟨h', _⟩ | ⟨_, hv, _, h0, hle, hw⟩ | ⟨h', _⟩
  · rw [h'] at h; cases h
  · rw [hv]
    have hf := F64_finite_of_within h0 hle hfin
    have hfin' : (rtDtWallF s).isFinite = true := by
      unfold rtNextF at hf hw
      rcases F64_min_finite hf with ⟨_, ha⟩ | ⟨hs, _⟩
      · exact ha
      · rw [hw] at hs; cases hs
    exact (rtDtWallF_finite hfin').2
  · rw [h'] at h; cases h

/-- With a remaining budget other than `Infinity`, the binary64 stepper resolves no event
of a kind the velocities rule out. -/
theorem rtBodyF_kind_ne (p : ParamsF) (s : RTVarsF) (hfin : s.timeLeft ≠ .pinf) {k k' : Event}
    (hex : excludesF k s.v1 s.v2) (h : (rtBodyF p s).kind = some k') : k ≠ k' := by
  rcases rtBodyF_cases p s with ⟨h', _⟩ | ⟨h', _, _, h0, hle, hw⟩ | ⟨h', _, _, h0, hle, hw⟩
  · rw [h'] at h; cases h
  · rw [h'] at h; cases h
    intro hk
    subst hk
    have hf := F64_finite_of_within h0 hle hfin
    unfold rtNextF at hf hw
    have hfin' : (rtDtWallF s).isFinite = true := by
      rcases F64_min_finite hf with ⟨_, ha⟩ | ⟨hs, _⟩
      · exact ha
      · rw [hw] at hs; cases hs
    have hex' : s.v1 ≥ 0 := hex
    rw [rtDtWallF_of_ge hex'] at hfin'
    cases hfin'
  · rw [h'] at h; cases h
    intro hk
    subst hk
    have hf := F64_finite_of_within h0 hle hfin
    unfold rtNextF at hf hw
    have hfin' : (rtDtBlockF p s).isFinite = true := by
      rcases F64_min_finite hf with ⟨hs, _⟩ | ⟨_, _, hb⟩
      · rw [hw] at hs; cases hs
      · exact hb
    exact hex (rtDtBlockF_finite hfin')

theorem rtBodyF_quiet (p : ParamsF) (s : RTVarsF) (h : (rtBodyF p s).kind = none) :
    (rtBodyF p s).post.v1 = s.v1 ∧ (rtBodyF p s).post.v2 = s.v2 := by
  rcases rtBodyF_cases p s with ⟨_, h'⟩ | ⟨h', _⟩ | ⟨h', _⟩
  · rw [h']; exact ⟨rfl, rfl⟩
  · rw [h'] at h; cases h
  · rw [h'] at h; cases h

/-- The events one call of the binary64 stepper resolves alternate in kind, starting from
the previous event, and on return the velocities rule out a repetition of the last event;
provided no pass starts with the remaining budget `Infinity` and no block event leaves a
closing speed above `EPS`. -/
theorem rtLoopF_alternates (p : ParamsF) :
    ∀ (fuel : Nat) (s : RTVarsF) (prev : Option Event),
      (∀ k, prev = some k → excludesF k s.v1 s.v2) →
      (∀ it ∈ (rtLoopF p fuel s).2, it.pre.timeLeft ≠ .pinf) →
      (∀ it ∈ (rtLoopF p fuel s).2, it.kind = some .block →
        excludesF .block it.post.v1 it.post.v2) →
      alternatesFrom prev (rtEventsF (rtLoopF p fuel s).2) ∧
      (∀ k, lastEvent prev (rtEventsF (rtLoopF p fuel s).2) = some k →
        excludesF k (rtLoopF p fuel s).1.v1 (rtLoopF p fuel s).1.v2) := by
  intro fuel
  induction fuel with
  | zero => intro s prev h _ _; exact ⟨trivial, h⟩
  | succ n ih =>
    intro s prev hprev
    rw [rtLoopF_succ]
    by_cases hg : s.timeLeft > EPSF ∧ s.iter < MAX_EVENTS_PER_FRAME
    · rw [if_pos hg]
      cases hk : (rtBodyF p s).kind with
      | none =>
        intro _ _
        have hv := rtBodyF_quiet p s hk
        simp only [rtEventsF, List.filterMap_cons, hk, List.filterMap_nil]
        refine ⟨trivial, ?_⟩
        show ∀ k, prev = some k → excludesF k (rtBodyF p s).post.v1 (rtBodyF p s).post.v2
        rw [hv.1, hv.2]; exact hprev
      | some ev =>
        intro hfin hblock
        have hfin0 : s.timeLeft ≠ .pinf := by
          have := hfin (rtBodyF p s) (List.mem_cons_self _ _)
          rwa [rtBodyF_pre] at this
        have hex : excludesF ev (rtBodyF p s).post.v1 (rtBodyF p s).post.v2 := by
          cases ev with
          | wall => exact F64_pos_ge (rtBodyF_wall_excludes p s hfin0 hk)
          | block => exact hblock (rtBodyF p s) (List.mem_cons_self _ _) hk
        have hstep := ih (rtBodyF p s).post (some ev) (fun k hk' => by cases hk'; exact hex)
          (fun it hit => hfin it (List.mem_cons_of_mem _ hit))
          (fun it hit => hblock it (List.mem_cons_of_mem _ hit))
        simp only [rtEventsF, List.filterMap_cons, hk] at hstep ⊢
        exact ⟨⟨fun k hk' => rtBodyF_kind_ne p s hfin0 (hprev k hk') hk, hstep.1⟩, hstep.2⟩
    · rw [if_neg hg]; intro _ _; exact ⟨trivial, hprev⟩

theorem rtEventsF_append (l₁ l₂ : List RTIterF) :
    rtEventsF (l₁ ++ l₂) = rtEventsF l₁ ++ rtEventsF l₂ := by
  simp [rtEventsF, List.filterMap_append]

/-- The events any sequence of binary64 stepper calls resolves alternate in kind, under the
same two provisos. -/
theorem stepManyF_alternates (p : ParamsF) :
    ∀ (dts : List F64) (st : SimulationStateF) (prev : Option Event),
      (∀ k, prev = some k → excludesF k st.v1 st.v2) →
      (∀ it ∈ (stepManyF p dts st).2, it.pre.timeLeft ≠ .pinf) →
      (∀ it ∈ (stepManyF p dts st).2, it.kind = some .block →
        excludesF .block it.post.v1 it.post.v2) →
      alternatesFrom prev (rtEventsF (stepManyF p dts st).2) := by
  intro dts
  induction dts with
  | nil => intro st prev _ _ _; exact trivial
  | cons dt dts ih =>
    intro st prev hprev hfin hblock
    have hsplit : (stepManyF p (dt :: dts) st).2 =
        (rtRunF st p dt).2 ++ (stepManyF p dts (stepRealtimeF st p dt)).2 := rfl
    rw [hsplit] at hfin hblock ⊢
    obtain ⟨h1, h2⟩ := rtLoopF_alternates p MAX_EVENTS_PER_FRAME (rtInitF st dt) prev hprev
      (fun it hit => hfin it (List.mem_append_left _ hit))
      (fun it hit => hblock it (List.mem_append_left _ hit))
    rw [rtEventsF_append, alternatesFrom_append]
    exact ⟨h1, ih (stepRealtimeF st p dt) _ h2
      (fun it hit => hfin it (List.mem_append_right _ hit))
      (fun it hit => hblock it (List.mem_append_right _ hit))⟩

/-- C17, refuted as stated.  In binary64, with `m1 = 1`, `m2 = 5`, the blocks in contact at
`x1 = 2`, `x2 = 3` and `v1 = 100000 + 2 ^ (-36)`, `v2 = 100000`, the velocity update of a
block event returns the velocities it was given, so the closing speed stays `2 ^ (-36)`,
above `EPS`: the batch run resolves two block events in a row (with the default caps every
one of its events is a block event), and so does a stepper call.  With `dt = Infinity` the
stepper resolves two wall events in a row (`x1 = 1`, `x2 = 5`, `v1 = -1`, `v2 = 2`). -/
theorem events_repeat_counterexample :
    blockV1F 1 5 (.num (100000 + 1 / 2 ^ 36)) 100000 = .num (100000 + 1 / 2 ^ 36) ∧
    blockV2F 1 5 (.num (100000 + 1 / 2 ^ 36)) 100000 = 100000 ∧
    (simRunF 2 closePair).map (fun r => r.2.map (fun e => e.kind)) = some [.block, .block] ∧
    (rtEventsF (rtRunF ⟨2, 3, .num (100000 + 1 / 2 ^ 36), 100000, 0⟩ ⟨1, 5, 1⟩ 1).2).take 2 =
      [.block, .block] ∧
    rtEventsF (rtRunF ⟨1, 5, -1, 2, 0⟩ ⟨1, 1, 1⟩ .pinf).2 = [.wall, .wall] := by
  refine ⟨?_, ?_, ?_, ?_, ?_⟩ <;> decide!

/-- C17, amended.  Over exact arithmetic a block event reverses the relative velocity for
`m1 + m2 ≠ 0`.  In binary64: right after a wall event `v1 > 0` and the predicted wall time
is `Infinity` (for the stepper when the remaining budget is not `Infinity`); right after a
block event that leaves a computed closing speed `v1 − v2` not above `EPS` no finite block
time is predicted; and in the events of any number of passes of `simulateCollisions`, and
of any sequence of `stepRealtime` calls, no two consecutive events have the same kind,
provided no block event among them leaves a computed closing speed above `EPS` and no
stepper pass starts with the remaining budget `Infinity`. -/
theorem events_alternate_binary64 (a : SimArgsF) (fuel : Nat) (dts : List F64)
    (st : SimulationStateF)
    (hblock : ∀ e ∈ simTraceF a.params a.maxCollisions a.maxTime fuel a.init,
      e.kind = .block → ¬ (e.post.v1 - e.post.v2 > EPSF))
    (hfin : ∀ it ∈ (stepManyF a.params dts st).2, it.pre.timeLeft ≠ .pinf)
    (hblock' : ∀ it ∈ (stepManyF a.params dts st).2,
      it.kind = some .block → ¬ (it.post.v1 - it.post.v2 > EPSF)) :
    (∀ m1 m2 u1 u2 : ℚ, m1 + m2 ≠ 0 →
      blockV1 m1 m2 u1 u2 - blockV2 m1 m2 u1 u2 = -(u1 - u2)) ∧
    (∀ s e, simBodyF a.params s = some e → e.kind = .wall →
      e.post.v1 > 0 ∧ timeToWallF e.post = .pinf) ∧
    (∀ s e, simBodyF a.params s = some e → e.kind = .block →
      ¬ (e.post.v1 - e.post.v2 > EPSF) → (timeToBlockF a.params e.post).isFinite = false) ∧
    (∀ s : RTVarsF, s.timeLeft ≠ .pinf → (rtBodyF a.params s).kind = some .wall →
      (rtBodyF a.params s).post.v1 > 0 ∧ rtDtWallF (rtBodyF a.params s).post = .pinf) ∧
    (∀ s : RTVarsF, (rtBodyF a.params s).kind = some .block →
      ¬ ((rtBodyF a.params s).post.v1 - (rtBodyF a.params s).post.v2 > EPSF) →
      rtDtBlockF a.params (rtBodyF a.params s).post = .pinf) ∧
    List.Chain' (fun k k' => k ≠ k')
      ((simTraceF a.params a.maxCollisions a.maxTime fuel a.init).map (fun e => e.kind)) ∧
    (∀ r, simRunF fuel a = some r →
      r.2 = simTraceF a.params a.maxCollisions a.maxTime fuel a.init) ∧
    List.Chain' (fun k k' => k ≠ k') (rtEventsF (stepManyF a.params dts st).2) := by
  refine ⟨fun m1 m2 u1 u2 hm => blockV_reverses m1 m2 u1 u2 hm, ?_, ?_, ?_, ?_, ?_, ?_, ?_⟩
  · intro s e he hk
    have hpos := simBodyF_wall_excludes he hk
    refine ⟨hpos, ?_⟩
    unfold timeToWallF
    rw [if_pos (F64_pos_ge hpos)]
  · intro s e _ _ hrel
    cases hf : (timeToBlockF a.params e.post).isFinite with
    | false => rfl
    | true => exact absurd (timeToBlockF_finite hf) hrel
  · intro s hfin0 hk
    have hpos := rtBodyF_wall_excludes a.params s hfin0 hk
    exact ⟨hpos, rtDtWallF_of_ge (F64_pos_ge hpos)⟩
  · intro s _ hrel
    cases hf : (rtDtBlockF a.params (rtBodyF a.params s).post).isFinite with
    | true => exact absurd (rtDtBlockF_finite hf) hrel
    | false =>
      unfold rtDtBlockF at hf ⊢
      dsimp only at hf ⊢
      simp only [hrel, if_false] at hf ⊢
      split_ifs <;> rfl
  · exact simTraceF_chain' _ _ _ fuel a.init hblock
  · intro r hr
    exact simLoopF_trace _ _ _ fuel a.init r hr
  · exact alternatesFrom_none_chain' _
      (stepManyF_alternates a.params dts st none (fun k hk => by cases hk) hfin hblock')

/-- Witness for C17 (amended): the default binary64 batch run and a stepper call of budget
3 from the default scene of the interface; every block event leaves a closing speed below
`EPS`, and both begin block, wall, block. -/
theorem events_alternate_binary64_witness :
    ((simTraceF ({} : SimArgsF).params 5000000 1000000000 40 ({} : SimArgsF).init).map
      (fun e => e.kind)).take 3 = [.block, .wall, .block] ∧
    (rtEventsF (stepManyF ({} : SimArgsF).params [3] ⟨2, 4, 0, -1, 0⟩).2).take 3 =
      [.block, .wall, .block] ∧
    List.Chain' (fun k k' => k ≠ k')
      ((simTraceF ({} : SimArgsF).params ({} : SimArgsF).maxCollisions ({} : SimArgsF).maxTime
        40 ({} : SimArgsF).init).map (fun e => e.kind)) ∧
    List.Chain' (fun k k' => k ≠ k')
      (rtEventsF (stepManyF ({} : SimArgsF).params [3] ⟨2, 4, 0, -1, 0⟩).2) :=
  ⟨by decide!, by decide!,
    (events_alternate_binary64 {} 40 [3] ⟨2, 4, 0, -1, 0⟩ (by decide!) (by decide!)
      (by decide!)).2.2.2.2.2.1,
    (events_alternate_binary64 {} 40 [3] ⟨2, 4, 0, -1, 0⟩ (by decide!) (by decide!)
      (by decide!)).2.2.2.2.2.2.2⟩

/-! ## A binary64 run that computes what exact arithmetic gives -/

theorem separatedF_toF (s : SimState) : separatedF s.toF ↔ separated s := by
  unfold separatedF separated SimState.toF
  simp only [GE.ge, F64_zero_eq, F64_num_le_num]

theorem simGuard_toF (s : SimState) (mc : Nat) (mt : ℚ) :
    (s.toF.collisions < F64.num (mc : ℚ) ∧ s.toF.t < F64.num mt) ↔
      (s.collisions < mc ∧ s.t < mt) := by
  unfold SimState.toF
  simp only [F64_num_lt_num, Nat.cast_lt]

/-- A binary64 batch loop whose every pass computes what exact arithmetic gives returns
the exact run, event by event. -/
theorem simLoopF_lift (p : Params) (mc : Nat) (mt : ℚ) :
    ∀ (fuel : Nat) (s : SimState), mc ≤ s.collisions + fuel →
      (∀ e ∈ (simLoop p mc mt fuel s).2, simExact p e.pre) →
      ((simLoop p mc mt fuel s).1.collisions < mc ∧ (simLoop p mc mt fuel s).1.t < mt →
        simExact p (simLoop p mc mt fuel s).1) →
      simLoopF p.toF (.num mc) (.num mt) fuel s.toF =
        some ((simLoop p mc mt fuel s).1.toF, (simLoop p mc mt fuel s).2.map SimEvent.toF) := by
  intro fuel
  induction fuel with
  | zero =>
    intro s hf _ _
    rw [simLoopF_zero]
    have hg : ¬ (s.toF.collisions < F64.num (mc : ℚ) ∧ s.toF.t < F64.num mt) := by
      rw [simGuard_toF]; intro h; omega
    rw [if_neg hg]
    rfl
  | succ n ih =>
    intro s hf
    rw [simLoopF_succ, simLoop_succ]
    by_cases hg : s.collisions < mc ∧ s.t < mt
    · have hgF : s.toF.collisions < F64.num (mc : ℚ) ∧ s.toF.t < F64.num mt :=
        (simGuard_toF s mc mt).mpr hg
      rw [if_pos hg, if_pos hgF]
      cases hb : simBody p s with
      | none =>
        intro _ hfinal
        have hex : simExact p s := hfinal hg
        unfold simExact at hex
        rw [hb] at hex
        rw [hex]
        rfl
      | some e =>
        obtain ⟨hpre, hcol⟩ := simBody_pre hb
        by_cases hsep : separated e.post
        · simp only [hsep, if_true]
          intro hlog _
          have hex : simExact p s := by
            have := hlog e (List.mem_singleton.mpr rfl)
            rwa [hpre] at this
          unfold simExact at hex
          rw [hb] at hex
          rw [hex]
          have hsepF : separatedF (SimEvent.toF e).post := (separatedF_toF e.post).mpr hsep
          simp only [Option.map_some', hsepF, if_true]
          rfl
        · simp only [hsep, if_false]
          intro hlog hfinal
          have hex : simExact p s := by
            have := hlog e (List.mem_cons_self _ _)
            rwa [hpre] at this
          unfold simExact at hex
          rw [hb] at hex
          rw [hex]
          have hsepF : ¬ separatedF (SimEvent.toF e).post :=
            fun h => hsep ((separatedF_toF e.post).mp h)
          simp only [Option.map_some', hsepF, if_false]
          have hrec := ih e.post (by omega) (fun e' he' => hlog e' (List.mem_cons_of_mem _ he'))
            hfinal
          have hpost : (SimEvent.toF e).post = e.post.toF := rfl
          rw [hpost, hrec]
          rfl
    · have hgF : ¬ (s.toF.collisions < F64.num (mc : ℚ) ∧ s.toF.t < F64.num mt) :=
        fun h => hg ((simGuard_toF s mc mt).mp h)
      rw [if_neg hg, if_neg hgF]
      intro _ _
      rfl

theorem rtGuard_toF (s : RTVars) (h : rtGuardExact s) :
    (s.toF.timeLeft > EPSF ∧ s.toF.iter < MAX_EVENTS_PER_FRAME) ↔
      (s.timeLeft > EPS ∧ s.iter < MAX_EVENTS_PER_FRAME) := by
  unfold rtGuardExact at h
  have hi : s.toF.iter = s.iter := rfl
  rw [hi, h]

/-- A binary64 stepper loop whose every pass computes what exact arithmetic gives returns
the exact run, pass by pass. -/
theorem rtLoopF_lift (p : Params) :
    ∀ (fuel : Nat) (s : RTVars),
      (∀ it ∈ (rtLoop p fuel s).2, rtExact p it.pre) →
      rtGuardExact (rtLoop p fuel s).1 →
      rtLoopF p.toF fuel s.toF =
        ((rtLoop p fuel s).1.toF, (rtLoop p fuel s).2.map RTIter.toF) := by
  intro fuel
  induction fuel with
  | zero => intro s _ _; rfl
  | succ n ih =>
    intro s
    rw [rtLoopF_succ, rtLoop_succ]
    by_cases hg : s.timeLeft > EPS ∧ s.iter < MAX_EVENTS_PER_FRAME
    · rw [if_pos hg]
      cases hk : (rtBody p s).kind with
      | none =>
        intro hlog _
        have hex : rtExact p s := by
          have := hlog (rtBody p s) (List.mem_singleton.mpr rfl)
          rwa [rtBody_pre] at this
        have hgF := (rtGuard_toF s hex.1).mpr hg
        rw [if_pos hgF, hex.2]
        have hkF : (RTIter.toF (rtBody p s)).kind = none := hk
        rw [hkF]
        rfl
      | some ev =>
        intro hlog hfinal
        have hex : rtExact p s := by
          have := hlog (rtBody p s) (List.mem_cons_self _ _)
          rwa [rtBody_pre] at this
        have hgF := (rtGuard_toF s hex.1).mpr hg
        rw [if_pos hgF, hex.2]
        have hkF : (RTIter.toF (rtBody p s)).kind = some ev := hk
        rw [hkF]
        have hpost : (RTIter.toF (rtBody p s)).post = (rtBody p s).post.toF := rfl
        have hrec := ih (rtBody p s).post
          (fun it hit => hlog it (List.mem_cons_of_mem _ hit)) hfinal
        simp only [hpost, hrec]
        rfl
    · rw [if_neg hg]
      intro _ hfinal
      have hgF : ¬ (s.toF.timeLeft > EPSF ∧ s.toF.iter < MAX_EVENTS_PER_FRAME) :=
        fun h => hg ((rtGuard_toF s hfinal).mp h)
      rw [if_neg hgF]
      rfl

/-- One binary64 call of the stepper whose every pass computes what exact arithmetic gives
returns the exact result. -/
theorem stepRealtimeF_lift (st : SimulationState) (p : Params) (dt : ℚ)
    (hexact : ∀ it ∈ (rtRun st p dt).2, rtExact p it.pre)
    (hguard : rtGuardExact (rtRun st p dt).1) :
    rtRunF st.toF p.toF (.num dt) = ((rtRun st p dt).1.toF, (rtRun st p dt).2.map RTIter.toF) ∧
    stepRealtimeF st.toF p.toF (.num dt) = (stepRealtime st p dt).toF := by
  have h : rtRunF st.toF p.toF (.num dt) =
      ((rtRun st p dt).1.toF, (rtRun st p dt).2.map RTIter.toF) :=
    rtLoopF_lift p MAX_EVENTS_PER_FRAME (rtInit st dt) hexact hguard
  refine ⟨h, ?_⟩
  unfold stepRealtimeF
  rw [h]
  rfl

theorem rtEventsF_map_toF (l : List RTIter) : rtEventsF (l.map RTIter.toF) = rtEvents l := by
  induction l with
  | nil => rfl
  | cons it l ih =>
    have hk : (RTIter.toF it).kind = it.kind := rfl
    simp only [List.map_cons, rtEventsF, rtEvents, List.filterMap_cons, hk]
    simp only [rtEventsF, rtEvents] at ih
    rw [ih]

/-- A sequence of binary64 stepper calls whose every pass computes what exact arithmetic
gives returns the exact result and resolves the same events. -/
theorem stepManyF_lift (p : Params) :
    ∀ (dts : List ℚ) (st : SimulationState),
      (∀ c ∈ stepCalls p dts st, (∀ it ∈ c.passes, rtExact p it.pre) ∧ rtGuardExact c.final) →
      (stepManyF p.toF (dts.map F64.num) st.toF).1 = (stepMany p dts st).1.toF ∧
      rtEventsF (stepManyF p.toF (dts.map F64.num) st.toF).2 = (stepMany p dts st).2 := by
  intro dts
  induction dts with
  | nil => intro st _; exact ⟨rfl, rfl⟩
  | cons dt dts ih =>
    intro st h
    have h0 := h ⟨dt, (rtRun st p dt).1, (rtRun st p dt).2⟩ (List.mem_cons_self _ _)
    obtain ⟨hrun, hstep⟩ := stepRealtimeF_lift st p dt h0.1 h0.2
    have hrec := ih (stepRealtime st p dt) (fun c hc => h c (List.mem_cons_of_mem _ hc))
    have e1 : (stepManyF p.toF ((dt :: dts).map F64.num) st.toF).1 =
        (stepManyF p.toF (dts.map F64.num) (stepRealtimeF st.toF p.toF (.num dt))).1 := rfl
    have e2 : (stepManyF p.toF ((dt :: dts).map F64.num) st.toF).2 =
        (rtRunF st.toF p.toF (.num dt)).2 ++
          (stepManyF p.toF (dts.map F64.num) (stepRealtimeF st.toF p.toF (.num dt))).2 := rfl
    have e3 : (stepMany p (dt :: dts) st).1 = (stepMany p dts (stepRealtime st p dt)).1 := rfl
    have e4 : (stepMany p (dt :: dts) st).2 =
        rtEvents (rtRun st p dt).2 ++ (stepMany p dts (stepRealtime st p dt)).2 := rfl
    rw [e1, e2, e3, e4, hstep, hrec.1, rtEventsF_append, hrec.2, hrun, rtEventsF_map_toF]
    exact ⟨rfl, rfl⟩

/-! ## Position invariants, over binary64 -/

/-- C9, refuted as stated, on two valid inputs with `m1 = m2 = size1 = 1` and `dt = 3`.
From the blocks in contact at `x1 = 1`, `x2 = 2` with `v1 = 0`, `v2 = -EPS`, the stepper
predicts no event and returns `x2 = 2 - 3·EPS` (rounded), an overlap beyond `EPS`.  From
`x1 = 0`, `x2 = 1.7`, `v1 = 0`, `v2 = -0.6`, where no velocity lies in a tolerance band, the
binary64 advance puts block 2 at `1 - 2 ^ (-53)`; the second clamp undoes the first, the
next wall time is negative, and the call returns `x1 = -1.1` after one collision. -/
theorem stepRealtime_misplaced_counterexample :
    placedF 0 unitParams.size1 creepState.x1 creepState.x2 ∧
    stepRealtimeF creepState unitParams 3 =
      ⟨1, .num (9007199254727481 / 4503599627370496), 0, -EPSF, 0⟩ ∧
    ¬ placedF EPS unitParams.size1 (stepRealtimeF creepState unitParams 3).x1
      (stepRealtimeF creepState unitParams 3).x2 ∧
    placedF 0 unitParams.size1 approachState.x1 approachState.x2 ∧
    stepRealtimeF approachState unitParams 3 =
      ⟨.num (-2476979795053773 / 2251799813685248), .num (9007199254740991 / 9007199254740992),
        fl (-6 / 10), 0, 1⟩ ∧
    ¬ placedF EPS unitParams.size1 (stepRealtimeF approachState unitParams 3).x1
      (stepRealtimeF approachState unitParams 3).x2 := by
  refine ⟨?_, ?_, ?_, ?_, ?_, ?_⟩ <;> decide!

/-- C9, amended: take an input with `x1 ≥ 0` and `x1 + size1 ≤ x2` and any `dt`, such that
no loop pass of the call starts from a state with `−ε ≤ v1 < 0` or with `0 < v1 − v2 ≤ ε`,
and such that in every pass the binary64 stepper decides the loop guard and computes the
pass as exact arithmetic does (no rounding error in a stored value or a branch).  Then the
binary64 call returns the state that exact arithmetic gives, and it satisfies `x1 ≥ 0` and
`x1 + size1 ≤ x2` (hence also `x1 + size1 ≤ x2 + ε`), also after the final advance that
resolves no event. -/
theorem stepRealtime_placed_when_exact (st : SimulationState) (p : Params) (dt : ℚ)
    (hx : 0 ≤ st.x1) (hgap : st.x1 + p.size1 ≤ st.x2)
    (hfast : ∀ it ∈ (rtRun st p dt).2,
      ¬ slowToWall it.pre.v1 ∧ ¬ slowClosing it.pre.v1 it.pre.v2)
    (hexact : ∀ it ∈ (rtRun st p dt).2, rtExact p it.pre)
    (hguard : rtGuardExact (rtRun st p dt).1) :
    stepRealtimeF st.toF p.toF (.num dt) = (stepRealtime st p dt).toF ∧
    placedF 0 p.toF.size1 (stepRealtimeF st.toF p.toF (.num dt)).x1
      (stepRealtimeF st.toF p.toF (.num dt)).x2 ∧
    placedF EPS p.toF.size1 (stepRealtimeF st.toF p.toF (.num dt)).x1
      (stepRealtimeF st.toF p.toF (.num dt)).x2 := by
  have hlift := (stepRealtimeF_lift st p dt hexact hguard).2
  have h := rtLoop_wellPlaced p MAX_EVENTS_PER_FRAME (rtInit st dt) ⟨hx, hgap⟩ hfast
  have h1 : 0 ≤ (stepRealtime st p dt).x1 := h.1
  have h2 : (stepRealtime st p dt).x1 + p.size1 ≤ (stepRealtime st p dt).x2 := h.2
  refine ⟨hlift, ?_, ?_⟩
  · rw [hlift]
    show 0 ≤ (stepRealtime st p dt).x1 ∧
      (stepRealtime st p dt).x1 + p.size1 ≤ (stepRealtime st p dt).x2 + 0
    exact ⟨h1, by linarith⟩
  · rw [hlift]
    show 0 ≤ (stepRealtime st p dt).x1 ∧
      (stepRealtime st p dt).x1 + p.size1 ≤ (stepRealtime st p dt).x2 + EPS
    exact ⟨h1, by have := EPS_pos; linarith⟩

/-- Witness for C9 (amended): with `m1 = m2 = size1 = 1` the default scene of the interface
stepped by 10 makes four passes, all computed exactly in binary64, and block 1 ends at
`x1 = 2` clear of block 2 at `x2 = 8`. -/
theorem stepRealtime_placed_when_exact_witness :
    (rtRun ⟨2, 4, 0, -1, 0⟩ ⟨1, 1, 1⟩ 10).2.length = 4 ∧
    stepRealtimeF ⟨2, 4, 0, -1, 0⟩ ⟨1, 1, 1⟩ 10 = ⟨2, 8, 0, 1, 3⟩ ∧
    placedF 0 1 (stepRealtimeF (SimulationState.toF ⟨2, 4, 0, -1, 0⟩) (Params.toF ⟨1, 1, 1⟩)
      (.num 10)).x1 (stepRealtimeF (SimulationState.toF ⟨2, 4, 0, -1, 0⟩)
      (Params.toF ⟨1, 1, 1⟩) (.num 10)).x2 :=
  ⟨by decide!, by decide!,
    (stepRealtime_placed_when_exact ⟨2, 4, 0, -1, 0⟩ ⟨1, 1, 1⟩ 10 (by decide!) (by decide!)
      (by decide!) (by decide!) (by decide!)).2.1⟩

/-- C10, refuted as stated, on two valid inputs with `m1 = m2 = size1 = 1` and the default
caps.  From `x1 = 2 ^ 41`, `x2 = 2 ^ 41 + 2`, `v1 = -1`, `v2 = -1 - 2 ^ (-40)` the closing
speed `2 ^ (-40)` is not above `EPS`, so no block event is predicted, and the binary64 run
returns after the wall event with `x1 = 0` and `x2 = 0`, block 1 lying wholly inside
block 2.  From `x1 = 0`, `x2 = 1.7`, `v1 = 0`, `v2 = -0.6`, outside every tolerance band, it
returns `x1 = -2 ^ (-53)` after three collisions. -/
theorem simulateCollisions_misplaced_counterexample :
    placedF 0 slowPursuit.size1 slowPursuit.x1 slowPursuit.x2 ∧
    simulateCollisionsF 5 slowPursuit =
      some ⟨1, .num (2 ^ 41), 0, 0, 1, .num (-1 - 1 / 2 ^ 40)⟩ ∧
    ¬ placedF EPS slowPursuit.size1 0 0 ∧
    placedF 0 approachArgs.size1 approachArgs.x1 approachArgs.x2 ∧
    simulateCollisionsF 5 approachArgs =
      some ⟨3, .num (2627099782632789 / 2251799813685248), .num (-1 / 2 ^ 53),
        .num (9007199254740991 / 9007199254740992), 0, .num (5404319552844595 / 9007199254740992)⟩ ∧
    ¬ placedF EPS approachArgs.size1 (.num (-1 / 2 ^ 53))
      (.num (9007199254740991 / 9007199254740992)) := by
  refine ⟨?_, ?_, ?_, ?_, ?_, ?_⟩ <;> decide!

/-- C10, amended: take an input with `x1 ≥ 0` and `x1 + size1 ≤ x2` and any caps, such that
no event of the run is resolved from a state with `0 < v1 − v2 ≤ ε`, and such that in every
pass of the run, the last one that finds no event included, the binary64 loop body computes
what exact arithmetic gives (no rounding error in a stored value or a branch).  Then the
binary64 run returns the state and resolves the events that exact arithmetic gives; the
returned state satisfies `x1 ≥ 0` and `x1 + size1 ≤ x2` (hence also `x1 + size1 ≤ x2 + ε`),
and right after every block event `x1 + size1 = x2` holds exactly. -/
theorem simulateCollisions_placed_when_exact (a : SimArgs)
    (hx : 0 ≤ a.x1) (hgap : a.x1 + a.size1 ≤ a.x2)
    (hfast : ∀ e ∈ (simRun a).2, ¬ slowClosing e.pre.v1 e.pre.v2)
    (hexact : ∀ e ∈ (simRun a).2, simExact a.params e.pre)
    (hlast : simExact a.params (simulateCollisions a)) :
    simRunF a.maxCollisions a.toF =
      some ((simulateCollisions a).toF, (simRun a).2.map SimEvent.toF) ∧
    simulateCollisionsF a.maxCollisions a.toF = some (simulateCollisions a).toF ∧
    placedF 0 (.num a.size1) (simulateCollisions a).toF.x1 (simulateCollisions a).toF.x2 ∧
    placedF EPS (.num a.size1) (simulateCollisions a).toF.x1 (simulateCollisions a).toF.x2 ∧
    (∀ e ∈ (simRun a).2, e.kind = .block → e.post.x1 + a.size1 = e.post.x2) := by
  have hlift : simRunF a.maxCollisions a.toF =
      some ((simulateCollisions a).toF, (simRun a).2.map SimEvent.toF) :=
    simLoopF_lift a.params a.maxCollisions a.maxTime a.maxCollisions a.init
      (by simp [SimArgs.init]) hexact (fun _ => hlast)
  have h := simLoop_wellPlaced a.params a.maxCollisions a.maxTime a.maxCollisions a.init
    ⟨hx, hgap⟩ hfast
  have h1 : 0 ≤ (simulateCollisions a).x1 := h.1
  have h2 : (simulateCollisions a).x1 + a.size1 ≤ (simulateCollisions a).x2 := h.2
  refine ⟨hlift, ?_, ?_, ?_, ?_⟩
  · unfold simulateCollisionsF
    rw [hlift]
    rfl
  · show 0 ≤ (simulateCollisions a).x1 ∧
      (simulateCollisions a).x1 + a.size1 ≤ (simulateCollisions a).x2 + 0
    exact ⟨h1, by linarith⟩
  · show 0 ≤ (simulateCollisions a).x1 ∧
      (simulateCollisions a).x1 + a.size1 ≤ (simulateCollisions a).x2 + EPS
    exact ⟨h1, by have := EPS_pos; linarith⟩
  · intro e he hk
    have hb := simLoop_log_body _ _ _ _ _ e he
    exact simBody_block_contact hb hk

/-- Witness for C10 (amended): the scenario with `m2 = 1` resolves its three events exactly
in binary64 and returns block 1 at `x1 = 2`, in contact with block 2 at `x2 = 3`. -/
theorem simulateCollisions_placed_when_exact_witness :
    (simRun (scenario 1)).2.length = 3 ∧
    simulateCollisionsF 5000000 { m2 := 1 } = some ⟨3, 6, 2, 3, 0, 1⟩ ∧
    simulateCollisionsF (scenario 1).maxCollisions (scenario 1).toF =
      some (simulateCollisions (scenario 1)).toF :=
  ⟨by decide!, by decide!,
    (simulateCollisions_placed_when_exact (scenario 1) (by decide!) (by decide!) (by decide!)
      (by decide!) (by decide!)).2.1⟩

/-- A binary64 call whose budget is not above `EPS` does nothing. -/
theorem stepRealtimeF_tiny (st : SimulationStateF) (p : ParamsF) {dt : F64}
    (h : ¬ (dt > EPSF)) : stepRealtimeF st p dt = st ∧ (rtRunF st p dt).2 = [] := by
  have hg : ¬ ((rtInitF st dt).timeLeft > EPSF ∧ (rtInitF st dt).iter < MAX_EVENTS_PER_FRAME) :=
    fun hc => h hc.1
  have hrun : rtRunF st p dt = (rtInitF st dt, []) := by
    unfold rtRunF
    rw [show MAX_EVENTS_PER_FRAME = 79 + 1 from rfl, rtLoopF_succ, if_neg hg]
  constructor
  · simp only [stepRealtimeF, hrun, rtInitF]
  · rw [hrun]

theorem stepManyF_tiny (p : ParamsF) {dt : F64} (h : ¬ (dt > EPSF)) :
    ∀ (n : Nat) (st : SimulationStateF), stepManyF p (List.replicate n dt) st = (st, []) := by
  intro n
  induction n with
  | zero => intro st; rfl
  | succ n ih =>
    intro st
    obtain ⟨h1, h2⟩ := stepRealtimeF_tiny st p h
    show ((stepManyF p (List.replicate n dt) (stepRealtimeF st p dt)).1,
      (rtRunF st p dt).2 ++ (stepManyF p (List.replicate n dt) (stepRealtimeF st p dt)).2)
      = (st, [])
    rw [h1, h2, ih st]
    rfl

/-! ## Mode equivalence, over binary64 -/

/-- C14, refuted as stated, three times over, in binary64.  For `m2 = 1000` the batch run of
the default scene ends by separation with 99 collisions before time 10, and one call of
`stepRealtime` with `dt = 10` returns 80.  For `m2 = 1` the batch run ends with 3 collisions
at time 6, and `7·10¹²` calls with `dt = EPS` return 0.  For `m1 = m2 = size1 = 1`, `x1 = 0`,
`x2 = 1.7`, `v1 = 0`, `v2 = -0.6` the batch run ends by separation with 3 collisions before
time 3, and one call with `dt = 3` returns 1. -/
theorem mode_mismatch_counterexample :
    ((simulateCollisionsF 200 thousand).map
        (fun s => (s.collisions, decide (separatedF s), decide (s.t ≤ 10))) =
        some (99, true, true) ∧
      (stepManyF thousand.params [10] ⟨2, 5, 0, -1, 0⟩).1.collisions = 80) ∧
    (simulateCollisionsF 10 { m2 := 1 } = some ⟨3, 6, 2, 3, 0, 1⟩ ∧
      EPSF = .num (4951760157141521 / 4951760157141521099596496896) ∧
      (6 : ℚ) ≤ 7000000000000 * (4951760157141521 / 4951760157141521099596496896) ∧
      (stepManyF unitParams (List.replicate 7000000000000 EPSF)
        ⟨2, 5, 0, -1, 0⟩).1.collisions = 0) ∧
    ((simulateCollisionsF 10 approachArgs).map
        (fun s => (s.collisions, decide (separatedF s), decide (s.t ≤ 3))) =
        some (3, true, true) ∧
      (stepManyF unitParams [3] approachState).1.collisions = 1) := by
  refine ⟨⟨by decide!, by decide!⟩, ⟨by decide!, EPSF_eq, by norm_num, ?_⟩,
    ⟨by decide!, by decide!⟩⟩
  rw [stepManyF_tiny unitParams (by decide!)]

/-- C14, amended.  Take an input with `x1 ≥ 0` and `x1 + size1 ≤ x2` whose batch run ends
below both caps at elapsed time `T` with count `C`, no event of it resolved from a state
with `−ε ≤ v1 < 0` or `0 < v1 − v2 ≤ ε`; apply `stepRealtime` in succession with the budgets
`dts`, from the same state with `collisions = 0`, no pass starting in near contact
(`0 < gap ≤ ε` while closing faster than `ε`); and let every pass of the binary64 batch run
and of the binary64 stepper calls compute what exact arithmetic gives (no rounding error in
a stored value or a branch).  Then the binary64 stepper's count never exceeds the binary64
batch count `C`; it equals `C`, with the batch run's final velocities, as soon as the
simulated time the calls consumed exceeds `T`; and that is the case when no call makes 80
passes and the budgets, each less `ε`, add up to more than `T`. -/
theorem mode_equivalence_when_exact (a : SimArgs) (dts : List ℚ)
    (hx : 0 ≤ a.x1) (hgap : a.x1 + a.size1 ≤ a.x2)
    (hcap : (simulateCollisions a).collisions < a.maxCollisions)
    (htime : (simulateCollisions a).t < a.maxTime)
    (hfast : ∀ e ∈ (simRun a).2, ¬ slowToWall e.pre.v1 ∧ ¬ slowClosing e.pre.v1 e.pre.v2)
    (hnear : ∀ c ∈ stepCalls a.params dts ⟨a.x1, a.x2, a.v1, a.v2, 0⟩, ∀ it ∈ c.passes,
      ¬ nearContact a.size1 it.pre.x1 it.pre.x2 it.pre.v1 it.pre.v2)
    (hbatch : ∀ e ∈ (simRun a).2, simExact a.params e.pre)
    (hlast : simExact a.params (simulateCollisions a))
    (hstep : ∀ c ∈ stepCalls a.params dts ⟨a.x1, a.x2, a.v1, a.v2, 0⟩,
      (∀ it ∈ c.passes, rtExact a.params it.pre) ∧ rtGuardExact c.final) :
    ∃ (sB : SimStateF) (sS : SimulationStateF),
      simulateCollisionsF a.maxCollisions a.toF = some sB ∧
      (stepManyF a.toF.params (dts.map F64.num)
        (SimulationState.toF ⟨a.x1, a.x2, a.v1, a.v2, 0⟩)).1 = sS ∧
      sS.collisions ≤ sB.collisions ∧
      (sB.t < .num (consumed (stepCalls a.params dts ⟨a.x1, a.x2, a.v1, a.v2, 0⟩)) →
        sS.collisions = sB.collisions ∧ sS.v1 = sB.v1 ∧ sS.v2 = sB.v2) ∧
      ((∀ c ∈ stepCalls a.params dts ⟨a.x1, a.x2, a.v1, a.v2, 0⟩, c.passes.length < 80) →
        sB.t < .num ((dts.map (fun dt => dt - EPS)).sum) →
        sS.collisions = sB.collisions) := by
  obtain ⟨h1, h2, h3⟩ := stepper_follows_batch a dts hx hgap hcap htime hfast hnear
  have hliftB : simRunF a.maxCollisions a.toF =
      some ((simulateCollisions a).toF, (simRun a).2.map SimEvent.toF) :=
    simLoopF_lift a.params a.maxCollisions a.maxTime a.maxCollisions a.init
      (by simp [SimArgs.init]) hbatch (fun _ => hlast)
  have hliftS := (stepManyF_lift a.params dts ⟨a.x1, a.x2, a.v1, a.v2, 0⟩ hstep).1
  refine ⟨(simulateCollisions a).toF,
    (stepMany a.params dts ⟨a.x1, a.x2, a.v1, a.v2, 0⟩).1.toF, ?_, hliftS, ?_, ?_, ?_⟩
  · unfold simulateCollisionsF
    rw [hliftB]
    rfl
  · show F64.num _ ≤ F64.num _
    rw [F64_num_le_num]
    exact_mod_cast h1
  · intro hT
    have hT' : (simulateCollisions a).t <
        consumed (stepCalls a.params dts ⟨a.x1, a.x2, a.v1, a.v2, 0⟩) := by
      have : F64.num (simulateCollisions a).t <
          F64.num (consumed (stepCalls a.params dts ⟨a.x1, a.x2, a.v1, a.v2, 0⟩)) := hT
      rwa [F64_num_lt_num] at this
    obtain ⟨e1, e2, e3⟩ := h2 hT'
    refine ⟨?_, ?_, ?_⟩
    · show F64.num _ = F64.num _
      rw [e1]
    · show F64.num _ = F64.num _
      rw [e2]
    · show F64.num _ = F64.num _
      rw [e3]
  · intro hpass hsum
    have hsum' : (simulateCollisions a).t < (dts.map (fun dt => dt - EPS)).sum := by
      have : F64.num (simulateCollisions a).t <
          F64.num ((dts.map (fun dt => dt - EPS)).sum) := hsum
      rwa [F64_num_lt_num] at this
    show F64.num _ = F64.num _
    rw [h3 hpass hsum']

/-- Witness for C14 (amended): the scenario with `m2 = 1` (3 collisions at time 6), which
binary64 computes exactly, stepped by eight calls of budget 1. -/
theorem mode_equivalence_when_exact_witness :
    simulateCollisionsF 5000000 { m2 := 1 } = some ⟨3, 6, 2, 3, 0, 1⟩ ∧
    (stepManyF unitParams (List.replicate 8 1) ⟨2, 5, 0, -1, 0⟩).1.collisions = 3 ∧
    (simulateCollisions (scenario 1)).t <
      consumed (stepCalls (scenario 1).params (List.replicate 8 1) ⟨2, 5, 0, -1, 0⟩) ∧
    ∃ (sB : SimStateF) (sS : SimulationStateF),
      simulateCollisionsF (scenario 1).maxCollisions (scenario 1).toF = some sB ∧
      (stepManyF (scenario 1).toF.params ((List.replicate 8 (1 : ℚ)).map F64.num)
        (SimulationState.toF ⟨2, 5, 0, -1, 0⟩)).1 = sS ∧
      sS.collisions = sB.collisions := by
  refine ⟨by decide!, by decide!, by decide!, ?_⟩
  obtain ⟨sB, sS, h1, h2, _, h4, _⟩ :=
    mode_equivalence_when_exact (scenario 1) (List.replicate 8 1) (by decide!) (by decide!)
      (by decide!) (by decide!) (by decide!) (by decide!) (by decide!) (by decide!) (by decide!)
  have hB : sB = (simulateCollisions (scenario 1)).toF := by
    have h0 : simulateCollisionsF (scenario 1).maxCollisions (scenario 1).toF =
        some (simulateCollisions (scenario 1)).toF :=
      (by decide! : simulateCollisionsF (scenario 1).maxCollisions (scenario 1).toF =
        some (simulateCollisions (scenario 1)).toF)
    rw [h0] at h1
    exact (Option.some.inj h1).symm
  refine ⟨sB, sS, h1, h2, (h4 ?_).1⟩
  rw [hB]
  show F64.num _ < F64.num _
  rw [F64_num_lt_num]
  decide!

end CollidingBlocks
